import Mathlib

/-!
# ndmtelnetc: command execution driver and result renderer

A shallow embedding of `ndmtelnetc.c`.

Conventions of the embedding.

* A C string (`const char *`) is represented by its content, the list of the
  characters that precede the terminating NUL.  A loop `for (; *p != 0; p++)`
  is therefore a recursion over that list.
* Standard output is a list of characters; every printing function returns the
  text it writes.
* `ndm_code_t` is a 32-bit unsigned value, represented by a `Nat`.
* The macros of `ndmtelnet/code.h` (`NDM_FAILED`, `NDM_CRITICAL`,
  `NDM_WARNING`, `NDM_CODE_PRIX`) are not part of the translated file; they are
  parameters of the development, collected in `CodeMacros`.
-/

namespace NdmTelnetc

/-! ## Status codes -/

/-- The status-bit macros and the print format of `ndmtelnet/code.h`, taken as
parameters: `failed`, `critical` and `warning` stand for `NDM_FAILED`,
`NDM_CRITICAL` and `NDM_WARNING`; `upperHex` tells whether `NDM_CODE_PRIX`
prints upper-case hexadecimal digits. -/
structure CodeMacros where
  failed : Nat → Bool
  critical : Nat → Bool
  warning : Nat → Bool
  upperHex : Bool

/-- Modelled from the spec: `NDM_SUCCEEDED` of `ndmtelnet/code.h`; a status is
either failed or succeeded, so succeeded is the complement of failed. -/
def NDM_SUCCEEDED (M : CodeMacros) (code : Nat) : Bool := !M.failed code

/-- A concrete choice of the macros, used to instantiate the development:
bit 31 is the failure bit, bit 30 the critical/warning bit. -/
def sampleMacros : CodeMacros where
  failed := fun c => decide (2 ^ 31 ≤ c % 2 ^ 32)
  critical := fun c => decide (2 ^ 31 ≤ c % 2 ^ 32) && decide (2 ^ 30 ≤ c % 2 ^ 31)
  warning := fun c => decide (c % 2 ^ 32 < 2 ^ 31) && decide (2 ^ 30 ≤ c % 2 ^ 31)
  upperHex := false

/-- The function `__ndm_telnet_result_type`. -/
def __ndm_telnet_result_type (M : CodeMacros) (code : Nat) : Char :=
  if NDM_SUCCEEDED M code then
    (if M.warning code then 'W' else 'I')
  else
    (if M.critical code then 'C' else 'E')

/-! ## Result renderer -/

/-- The attribute record `struct ndm_xml_attr_t`: a name and a value. -/
structure ndm_xml_attr_t where
  name : List Char
  value : List Char
deriving DecidableEq, Repr

/-- The element record `struct ndm_xml_elem_t`.  The `next` links of a sibling
chain are represented by a list of elements, `children.head` by the list of
children, `attributes.head` by the list of attributes. -/
inductive ndm_xml_elem_t where
  | mk (name : List Char) (attributes : List ndm_xml_attr_t) (value : List Char)
      (children : List ndm_xml_elem_t) : ndm_xml_elem_t

/-- The name of an element (`e->name`). -/
def ndm_xml_elem_t.name : ndm_xml_elem_t → List Char
  | .mk n _ _ _ => n

/-- The attributes of an element (`e->attributes`). -/
def ndm_xml_elem_t.attributes : ndm_xml_elem_t → List ndm_xml_attr_t
  | .mk _ a _ _ => a

/-- The text value of an element (`e->value`). -/
def ndm_xml_elem_t.value : ndm_xml_elem_t → List Char
  | .mk _ _ v _ => v

/-- The children of an element (`e->children`). -/
def ndm_xml_elem_t.children : ndm_xml_elem_t → List ndm_xml_elem_t
  | .mk _ _ _ c => c

/-- The function `__ndm_telnet_dump_ident`: `ident * 4` spaces. -/
def __ndm_telnet_dump_ident (ident : Nat) : List Char :=
  List.replicate (ident * 4) ' '

/-- The apostrophe character. -/
def chApos : Char := Char.ofNat 39

/-- The double quote character. -/
def chQuot : Char := Char.ofNat 34

/-- One iteration of the loop of `__ndm_telnet_dump_escaped`: the text printed
for the character `ch`. -/
def escape_char (ch : Char) : List Char :=
  if ch = '<' then "&lt;".toList
  else if ch = '>' then "&gt;".toList
  else if ch = chApos then "&apos;".toList
  else if ch = chQuot then "&quot;".toList
  else if ch = '&' then "&amp;".toList
  else [ch]

/-- The function `__ndm_telnet_dump_escaped`. -/
def __ndm_telnet_dump_escaped : List Char → List Char
  | [] => []
  | ch :: p => escape_char ch ++ __ndm_telnet_dump_escaped p

/-- The attribute loop of `__ndm_telnet_dump_result`. -/
def dump_attributes : List ndm_xml_attr_t → List Char
  | [] => []
  | a :: rest =>
    ' ' :: a.name ++ "=".toList ++ [chQuot] ++ __ndm_telnet_dump_escaped a.value ++ [chQuot]
      ++ dump_attributes rest

mutual
/-- One iteration of the sibling loop of `__ndm_telnet_dump_result`. -/
def dump_element (ident : Nat) : ndm_xml_elem_t → List Char
  | .mk name attributes value children =>
    __ndm_telnet_dump_ident ident ++ ('<' :: name) ++ dump_attributes attributes ++ ['>']
      ++ (match children with
          | [] => __ndm_telnet_dump_escaped value
          | c :: cs =>
            '\n' :: __ndm_telnet_dump_result (ident + 1) (c :: cs)
              ++ __ndm_telnet_dump_ident ident)
      ++ ('<' :: '/' :: name) ++ ['>', '\n']
/-- The function `__ndm_telnet_dump_result`. -/
def __ndm_telnet_dump_result (ident : Nat) : List ndm_xml_elem_t → List Char
  | [] => []
  | e :: next => dump_element ident e ++ __ndm_telnet_dump_result ident next
end

/-! ## Formatted output -/

/-- One hexadecimal digit, lower or upper case. -/
def hex_digit (upper : Bool) (d : Nat) : Char :=
  if d < 10 then Char.ofNat (48 + d)
  else if upper then Char.ofNat (55 + d) else Char.ofNat (87 + d)

/-- The `k` low hexadecimal digits of `c`, most significant first. -/
def hex_digits (upper : Bool) : Nat → Nat → List Char
  | 0, _ => []
  | k + 1, c => hex_digits upper k (c / 16) ++ [hex_digit upper (c % 16)]

/-- The conversion `%08x` (or `%08X`) of a 32-bit value: eight digits. -/
def printf_08x (upper : Bool) (code : Nat) : List Char := hex_digits upper 8 code

/-- The conversion `%d` of a signed value. -/
def printf_d (v : Int) : List Char :=
  if v < 0 then '-' :: Nat.toDigits 10 v.natAbs else Nat.toDigits 10 v.toNat

/-- The conversion `%03d` of a signed value: zero padding to a width of three
characters, the sign included. -/
def printf_03i (v : Int) : List Char :=
  if v < 0 then '-' :: List.leftpad 2 '0' (Nat.toDigits 10 v.natAbs)
  else List.leftpad 3 '0' (Nat.toDigits 10 v.toNat)

/-! ## The session and the clock

The session library (`ndm_telnet_open`, `ndm_telnet_send`, `ndm_telnet_recv`,
`ndm_telnet_close`, `ndm_telnet_now`) is external.  It is represented by a
script: the results that the successive calls return.  A call made when its
script is exhausted has no result in the model. -/

/-- Values of `enum ndm_telnet_err_t`. -/
abbrev ndm_telnet_err_t := Nat

/-- Modelled from the spec: the constant `NDM_TELNET_ERR_OK` of
`ndmtelnet/telnet.h`, the value that tells success. -/
def NDM_TELNET_ERR_OK : ndm_telnet_err_t := 0

/-- What one call of `ndm_telnet_recv` returns: the error code and the values
stored through its output parameters.  `response` is the pointer to the root
element: the empty list is `NULL`. -/
structure RecvCall where
  err : ndm_telnet_err_t
  continued : Bool
  response_code : Nat
  response_text : List Char
  response : List ndm_xml_elem_t

/-- The calls made to the session library (and `fclose`), in order, with their
arguments and the error code they returned. -/
inductive Call where
  | sess_open (user password : List Char) (timeout : Nat) (err : ndm_telnet_err_t)
  | send (command : List Char) (ms : Nat) (err : ndm_telnet_err_t)
  | recv (ms : Nat) (err : ndm_telnet_err_t)
  | doc_free
  | sess_close
  | file_close
deriving DecidableEq, Repr

/-- The messages written to the standard error stream. -/
inductive Diag where
  | send_failed (err : ndm_telnet_err_t)
  | recv_failed (err : ndm_telnet_err_t)
  | exec_failed (code : Nat) (text : List Char)
  | open_failed (err : ndm_telnet_err_t)
  | file_open_failed (file_name : List Char)
  | truncated (cmd : List Char)
  | read_failed (file_name : List Char)
  | timeout_out_of_range
  | not_unicast
  | command_and_file
deriving DecidableEq, Repr

/-- The state of the world around the program: the clock (`clock k` is the
value of the `k`-th call of `ndm_telnet_now`), the scripts of the session, the
calls made so far, and the two output streams. -/
structure World where
  clock : Nat → Int
  ticks : Nat
  open_err : ndm_telnet_err_t
  send_script : List ndm_telnet_err_t
  recv_script : List RecvCall
  calls : List Call
  out : List Char
  err_out : List Diag

/-- The function `ndm_telnet_now`: the next reading of the clock. -/
def ndm_telnet_now (w : World) : Int × World :=
  (w.clock w.ticks, { w with ticks := w.ticks + 1 })

/-- The function `__ndm_telnet_ms_to`; the cast to `unsigned int` is the
reduction modulo `2 ^ 32`. -/
def __ndm_telnet_ms_to (deadline : Int) (w : World) : Nat × World :=
  let now := (ndm_telnet_now w).1
  let w1 := (ndm_telnet_now w).2
  if deadline > now then (((deadline - now) % 2 ^ 32).toNat, w1) else (0, w1)

/-- The function `ndm_telnet_send`: the next result of the send script. -/
def ndm_telnet_send (command : List Char) (ms : Nat) (w : World) :
    Option (ndm_telnet_err_t × World) :=
  match w.send_script with
  | [] => none
  | e :: rest =>
    some (e, { w with send_script := rest, calls := w.calls ++ [Call.send command ms e] })

/-! ## The session driver -/

/-- The suffix of the status line. -/
def status_suffix (continued event : Bool) : List Char :=
  if continued then " (continued)".toList else (if event then " (event)".toList else [])

/-- The text of the `printf` call in the loop of `__ndm_telnet_execute`. -/
def status_printf (M : CodeMacros) (response_code : Nat) (duration : Int)
    (command : List Char) (continued event show_responses : Bool) : List Char :=
  [__ndm_telnet_result_type M response_code] ++ " (".toList
    ++ printf_08x M.upperHex response_code ++ ") [".toList
    ++ printf_03i (Int.tdiv duration 1000) ++ ".".toList
    ++ printf_03i (Int.tmod duration 1000) ++ "] ".toList
    ++ command ++ status_suffix continued event
    ++ (if show_responses then "\n".toList else []) ++ "\n".toList

/-- How one iteration of the loop of `__ndm_telnet_execute` ends. -/
inductive Step where
  /-- The function returns (`return err`, or `break` and the final `return`). -/
  | finish (err : ndm_telnet_err_t) (w : World)
  /-- The loop condition holds: another iteration follows. -/
  | again (w : World)
  /-- The iteration dereferences a null `response`. -/
  | undefined

/-- The part of an iteration of the loop of `__ndm_telnet_execute` that follows
the call of `ndm_telnet_recv`, whose result is `r`. -/
def after_recv (M : CodeMacros) (command : List Char) (show_responses : Bool)
    (beg : Int) (r : RecvCall) (w : World) : Step :=
  if r.err ≠ NDM_TELNET_ERR_OK then
    Step.finish r.err { w with err_out := w.err_out ++ [Diag.recv_failed r.err] }
  else if M.failed r.response_code then
    Step.finish NDM_TELNET_ERR_OK
      { w with err_out := w.err_out ++ [Diag.exec_failed r.response_code r.response_text],
               calls := w.calls ++ [Call.doc_free] }
  else
    let w1 : World :=
      if show_responses then { w with out := w.out ++ __ndm_telnet_dump_result 0 r.response }
      else w
    match r.response with
    | [] => Step.undefined
    | root :: _ =>
      let event : Bool := decide (root.name = "event".toList)
      let duration : Int := (ndm_telnet_now w1).1 - beg
      let w2 : World := (ndm_telnet_now w1).2
      let w3 : World :=
        { w2 with out := w2.out ++ status_printf M r.response_code duration command
                    r.continued event show_responses,
                  calls := w2.calls ++ [Call.doc_free] }
      if r.continued || event then Step.again w3 else Step.finish NDM_TELNET_ERR_OK w3

/-- One iteration of the loop of `__ndm_telnet_execute`: the call of
`ndm_telnet_recv`, which returns `r` and leaves `script` to the later calls,
and what follows it. -/
def loop_body (M : CodeMacros) (command : List Char) (show_responses : Bool)
    (beg deadline : Int) (r : RecvCall) (script : List RecvCall) (w : World) : Step :=
  let ms := (__ndm_telnet_ms_to deadline w).1
  let w1 := (__ndm_telnet_ms_to deadline w).2
  after_recv M command show_responses beg r
    { w1 with recv_script := script, calls := w1.calls ++ [Call.recv ms r.err] }

/-- The `do ... while` loop of `__ndm_telnet_execute`, run against the receive
script.  The result is `none` when the script is exhausted before the loop
ends, or when an iteration is undefined. -/
def execute_loop (M : CodeMacros) (command : List Char) (show_responses : Bool)
    (beg deadline : Int) : List RecvCall → World → Option (ndm_telnet_err_t × World)
  | [], _ => none
  | r :: script, w =>
    match loop_body M command show_responses beg deadline r script w with
    | Step.finish err w1 => some (err, w1)
    | Step.again w1 => execute_loop M command show_responses beg deadline script w1
    | Step.undefined => none

/-- The function `__ndm_telnet_execute`. -/
def __ndm_telnet_execute (M : CodeMacros) (command : List Char) (timeout : Nat)
    (show_responses : Bool) (w : World) : Option (ndm_telnet_err_t × World) :=
  let beg := (ndm_telnet_now w).1
  let w1 := (ndm_telnet_now w).2
  let deadline := beg + (timeout : Int)
  let ms := (__ndm_telnet_ms_to deadline w1).1
  let w2 := (__ndm_telnet_ms_to deadline w1).2
  match ndm_telnet_send command ms w2 with
  | none => none
  | some (err, w3) =>
    if err ≠ NDM_TELNET_ERR_OK then
      some (err, { w3 with err_out := w3.err_out ++ [Diag.send_failed err] })
    else
      execute_loop M command show_responses beg deadline w3.recv_script w3

/-- Whether the document of a received envelope is an event: its root element
is named `event`. -/
def is_event (r : RecvCall) : Bool :=
  match r.response with
  | [] => false
  | root :: _ => decide (root.name = "event".toList)

/-- An envelope after which the loop of `__ndm_telnet_execute` goes on:
received without error, with a succeeded status and a document, and with the
continuation flag set or an event as its document. -/
def extends_loop (M : CodeMacros) (r : RecvCall) : Bool :=
  r.err == NDM_TELNET_ERR_OK && !M.failed r.response_code && !r.response.isEmpty
    && (r.continued || is_event r)

/-- An envelope on which the loop of `__ndm_telnet_execute` ends: a receive
error, a failed status, or a succeeded status with a document, the continuation
flag clear and no event. -/
def ends_loop (M : CodeMacros) (r : RecvCall) : Bool :=
  r.err != NDM_TELNET_ERR_OK || M.failed r.response_code
    || (!r.response.isEmpty && !r.continued && !is_event r)

/-- The number of `ndm_telnet_recv` calls in a list of calls. -/
def recv_count : List Call → Nat
  | [] => 0
  | Call.recv _ _ :: cs => recv_count cs + 1
  | _ :: cs => recv_count cs

/-- The number of `ndm_telnet_send` calls in a list of calls. -/
def send_count : List Call → Nat
  | [] => 0
  | Call.send _ _ _ :: cs => send_count cs + 1
  | _ :: cs => send_count cs

/-! ## The command source and the run orchestrator -/

/-- The constant `NDM_TELNET_COMMAND_MAX`. -/
def NDM_TELNET_COMMAND_MAX : Nat := 4096

/-- The constant `EXIT_SUCCESS` of the C library. -/
def EXIT_SUCCESS : Int := 0

/-- The constant `EXIT_FAILURE` of the C library. -/
def EXIT_FAILURE : Int := 1

/-- A stream open for reading (`FILE *`): the bytes not read yet, whether an
attempt to read past them fails with a read error (rather than meeting the end
of the file), and the end-of-file and error indicators. -/
structure FILE where
  content : List Char
  fails : Bool
  eof : Bool
  error : Bool
deriving DecidableEq, Repr

/-- The bytes that one `fgets` call takes: at most `n` of them, up to and
including the first line break.  The result holds the bytes taken, the bytes
left, and whether the call tried to read past the last byte. -/
def read_line : Nat → List Char → List Char × List Char × Bool
  | 0, rest => ([], rest, false)
  | _ + 1, [] => ([], [], true)
  | n + 1, c :: rest =>
    if c = '\n' then ([c], rest, false)
    else ((c :: (read_line n rest).1), (read_line n rest).2.1, (read_line n rest).2.2)

/-- The function `fgets` of the C library with a buffer of `size` bytes: the
bytes stored in the buffer before the terminating NUL (`none` for a null
result) and the stream after the call. -/
def fgets (size : Nat) (fp : FILE) : Option (List Char) × FILE :=
  let r := read_line (size - 1) fp.content
  if r.2.2 then
    if fp.fails then (none, { fp with content := [], error := true })
    else if r.1.isEmpty then (none, { fp with content := [], eof := true })
    else (some r.1, { fp with content := [], eof := true })
  else (some r.1, { fp with content := r.2.1 })

/-- The function `isspace` of the C library in the C locale. -/
def isspace (c : Char) : Bool :=
  c = ' ' || c = '\t' || c = '\n' || c = Char.ofNat 11 || c = Char.ofNat 12 || c = '\r'

/-- The C string held by a buffer whose bytes are `buf` followed by a NUL: the
bytes before the first NUL. -/
def c_string (buf : List Char) : List Char :=
  buf.takeWhile (fun c => c != Char.ofNat 0)

/-- The blank-line test of the reader loop of `__ndm_telnet_run`: `p` skips
the leading white space of the buffer and stops on a NUL. -/
def is_blank (buf : List Char) : Bool :=
  match buf.dropWhile isspace with
  | [] => true
  | c :: _ => c == Char.ofNat 0

/-- How the reader loop of `__ndm_telnet_run` ends. -/
inductive LoopExit where
  /-- The call of `fgets` returned a null pointer. -/
  | drained
  /-- The loop was left by `goto error`. -/
  | failed
deriving DecidableEq, Repr

/-- The `while (fgets (...) != NULL)` loop of `__ndm_telnet_run`.  `fuel`
bounds the number of iterations; every iteration takes at least one byte of
the stream, so the length of the content plus one is enough. -/
def read_loop (M : CodeMacros) (timeout : Nat) (show_responses interactive : Bool) :
    Nat → FILE → World → Option (LoopExit × FILE × World)
  | 0, _, _ => none
  | fuel + 1, fp, w =>
    match fgets NDM_TELNET_COMMAND_MAX fp with
    | (none, fp1) => some (LoopExit.drained, fp1, w)
    | (some cmd, fp1) =>
      if is_blank cmd then read_loop M timeout show_responses interactive fuel fp1 w
      else if (c_string cmd).getLast? != some '\n' && !fp1.eof then
        some (LoopExit.failed, fp1,
          { w with err_out := w.err_out ++ [Diag.truncated (c_string cmd)] })
      else
        match __ndm_telnet_execute M (c_string cmd).dropLast timeout show_responses w with
        | none => none
        | some (err, w1) =>
          if err ≠ NDM_TELNET_ERR_OK then some (LoopExit.failed, fp1, w1)
          else
            read_loop M timeout show_responses interactive fuel fp1
              (if interactive then { w1 with out := w1.out ++ "\n".toList } else w1)

/-- The socket address `struct sockaddr_in`: the address and the port, both
in host byte order. -/
structure sockaddr_in where
  addr : Nat
  port : Nat
deriving DecidableEq, Repr

/-- The function `ip_address`: the dotted-quad text of the address. -/
def ip_address (sin : sockaddr_in) : List Char :=
  Nat.toDigits 10 (sin.addr / 2 ^ 24 % 256) ++ ".".toList
    ++ Nat.toDigits 10 (sin.addr / 2 ^ 16 % 256) ++ ".".toList
    ++ Nat.toDigits 10 (sin.addr / 2 ^ 8 % 256) ++ ".".toList
    ++ Nat.toDigits 10 (sin.addr % 256)

/-- The argument `ntohs (sin->sin_port)` of the first message: the port in
host byte order, a `uint16_t` between 0 and 65535 that the call of `printf`
promotes to `int`, so that the conversion `PRId16` (the conversion `d`) prints
it unchanged. -/
def ntohs (sin : sockaddr_in) : Int := ((sin.port % 2 ^ 16 : Nat) : Int)

/-- The part of `__ndm_telnet_run` from the label `error` to the end: the
stream is closed unless it is null or the standard input, the session is
closed, the duration is printed, the exit code is returned. -/
def run_epilogue (show_responses : Bool) (beg : Int) (close_file : Bool) (exit_code : Int)
    (w : World) : Int × World :=
  let w1 : World := if close_file then { w with calls := w.calls ++ [Call.file_close] } else w
  let w2 : World := { w1 with calls := w1.calls ++ [Call.sess_close] }
  let duration : Int := (ndm_telnet_now w2).1 - beg
  let w3 : World := (ndm_telnet_now w2).2
  (exit_code,
    { w3 with out := w3.out ++ (if show_responses then [] else "\n".toList)
        ++ "Done in ".toList ++ printf_03i (Int.tdiv duration 1000) ++ ".".toList
        ++ printf_03i (Int.tmod duration 1000) ++ "s.\n".toList })

/-- The start of `__ndm_telnet_run`: the reading of the clock, the first
message, and the call of `ndm_telnet_open`, whose result is `open_err`. -/
def run_prologue (sin : sockaddr_in) (user password : List Char) (timeout : Nat)
    (w : World) : World :=
  let w0 := (ndm_telnet_now w).2
  { w0 with
    out := w0.out ++ "Connecting to ".toList ++ user ++ "@".toList ++ ip_address sin
      ++ ":".toList ++ printf_d (ntohs sin) ++ "...\n\n".toList
    calls := w0.calls ++ [Call.sess_open user password timeout w0.open_err] }

/-- The reader loop of `__ndm_telnet_run` and the `ferror` test that follows
it: the exit code that the run will return, and the world. -/
def run_reader (M : CodeMacros) (timeout : Nat) (show_responses interactive : Bool)
    (file_name : List Char) (fp : FILE) (w : World) : Option (Int × World) :=
  match read_loop M timeout show_responses interactive (fp.content.length + 1) fp w with
  | none => none
  | some (LoopExit.failed, _, w1) => some (EXIT_FAILURE, w1)
  | some (LoopExit.drained, fp1, w1) =>
    if fp1.error then
      some (EXIT_FAILURE, { w1 with err_out := w1.err_out ++ [Diag.read_failed file_name] })
    else some (EXIT_SUCCESS, w1)

/-- The part of `__ndm_telnet_run` between the call of `ndm_telnet_open` and the
label `error`: whether a stream is to be closed, the exit code, and the world.
`stdin` is the standard input; `fopen file_name` is the stream that opening
the file gives, `none` when the file cannot be opened. -/
def run_body (M : CodeMacros) (stdin : FILE) (fopen : List Char → Option FILE)
    (timeout : Nat) (command file_name : List Char) (show_responses : Bool) (w : World) :
    Option (Bool × Int × World) :=
  if w.open_err ≠ NDM_TELNET_ERR_OK then
    some (false, EXIT_FAILURE, { w with err_out := w.err_out ++ [Diag.open_failed w.open_err] })
  else if command.length > 0 then
    match __ndm_telnet_execute M command timeout show_responses w with
    | none => none
    | some (err, w1) =>
      if err ≠ NDM_TELNET_ERR_OK then some (false, EXIT_FAILURE, w1)
      else some (false, EXIT_SUCCESS, w1)
  else if file_name.length = 0 then
    (run_reader M timeout show_responses true file_name stdin
      { w with out := w.out
          ++ "Connected in an interactive mode, type a command.\n\n".toList }).map
      (fun res => (false, res))
  else
    match fopen file_name with
    | none =>
      some (false, EXIT_FAILURE,
        { w with err_out := w.err_out ++ [Diag.file_open_failed file_name] })
    | some fp =>
      (run_reader M timeout show_responses false file_name fp w).map (fun res => (true, res))

/-- The function `__ndm_telnet_run` (the build for systems other than
Windows). -/
def __ndm_telnet_run (M : CodeMacros) (stdin : FILE) (fopen : List Char → Option FILE)
    (sin : sockaddr_in) (user password : List Char) (timeout : Nat)
    (command file_name : List Char) (show_responses : Bool) (w : World) :
    Option (Int × World) :=
  match run_body M stdin fopen timeout command file_name show_responses
      (run_prologue sin user password timeout w) with
  | none => none
  | some (close_file, exit_code, w1) =>
    some (run_epilogue show_responses (ndm_telnet_now w).1 close_file exit_code w1)

/-- The commands passed to `ndm_telnet_send`, in order. -/
def sent_commands : List Call → List (List Char)
  | [] => []
  | Call.send command _ _ :: cs => command :: sent_commands cs
  | _ :: cs => sent_commands cs

/-- Whether a call is a send or a receive. -/
def is_io : Call → Bool
  | Call.send _ _ _ => true
  | Call.recv _ _ => true
  | _ => false

/-- Whether a call is a send or a receive that returned an error. -/
def io_failed : Call → Bool
  | Call.send _ _ err => err != NDM_TELNET_ERR_OK
  | Call.recv _ err => err != NDM_TELNET_ERR_OK
  | _ => false

/-- Whether no send and no receive in a list of calls returned an error. -/
def all_ok (cs : List Call) : Bool := cs.all (fun c => !io_failed c)

/-- Whether no send and no receive follows the first send or receive that
returned an error. -/
def no_io_after_failure : List Call → Bool
  | [] => true
  | c :: cs => if io_failed c then cs.all (fun x => !is_io x) else no_io_after_failure cs

/-- What `k` iterations of the loop of `__ndm_telnet_execute` leave unchanged
in the world, and what they add to the calls: `k` receives and no send. -/
def StepFacts (k : Nat) (rest : List RecvCall) (w w1 : World) (ext : List Call) : Prop :=
  w1.recv_script = rest ∧ w1.send_script = w.send_script ∧ w1.clock = w.clock
    ∧ w1.open_err = w.open_err ∧ w1.calls = w.calls ++ ext ∧ recv_count ext = k
    ∧ sent_commands ext = []

/-- A run leaves the calls free of failed sends and receives, or ends with the
exit code of failure right after a failed send or receive. -/
def TraceOk (exit_code : Int) (cs : List Call) : Prop :=
  all_ok cs = true
    ∨ (exit_code = EXIT_FAILURE ∧ ∃ l c, cs = l ++ [c] ∧ all_ok l = true ∧ io_failed c = true)

/-- The world in `__ndm_telnet_execute` after the call of `ndm_telnet_send`,
which returned `e` and left `sends` to the later calls: two readings of the
clock are gone and the call is recorded. -/
def after_send (command : List Char) (timeout : Nat) (e : ndm_telnet_err_t)
    (sends : List ndm_telnet_err_t) (w : World) : World :=
  { w with
    ticks := w.ticks + 2
    send_script := sends
    calls := w.calls
      ++ [Call.send command
            (__ndm_telnet_ms_to (w.clock w.ticks + (timeout : Int)) (ndm_telnet_now w).2).1 e] }

/-- The world that an iteration of the loop leaves, when it is defined. -/
def Step.world : Step → Option World
  | Step.finish _ w => some w
  | Step.again w => some w
  | Step.undefined => none

/-- Whether a character is a hexadecimal digit. -/
def is_hex_digit (c : Char) : Bool :=
  ('0' ≤ c && c ≤ '9') || ('a' ≤ c && c ≤ 'f') || ('A' ≤ c && c ≤ 'F')

/-- The value of a hexadecimal digit. -/
def hex_digit_value (c : Char) : Nat :=
  if '0' ≤ c ∧ c ≤ '9' then c.toNat - 48
  else if 'a' ≤ c ∧ c ≤ 'f' then c.toNat - 87
  else c.toNat - 55

/-- The number that a list of hexadecimal digits writes, most significant digit
first. -/
def hex_value (digits : List Char) : Nat :=
  digits.foldl (fun acc c => 16 * acc + hex_digit_value c) 0

/-! ## Validation of the configuration -/

/-- The function `__ndm_telnet_is_unicast`; `a` is the address in host byte
order, the value of `ntohl (addr->s_addr)`. -/
def __ndm_telnet_is_unicast (a : Nat) : Bool :=
  if a = 0x00000000 ∨ a = 0xffffffff then false else (a &&& 0xf0000000) != 0xe0000000

/-- The bounds `NDM_TELNET_MIN_TIMEOUT` and `NDM_TELNET_MAX_TIMEOUT` of
`ndmtelnet/telnet.h`, taken as parameters. -/
structure TimeoutBounds where
  NDM_TELNET_MIN_TIMEOUT : Nat
  NDM_TELNET_MAX_TIMEOUT : Nat

/-- The variables of `main` that `__ndm_telnet_parse_arguments` fills in. -/
structure Config where
  sin : sockaddr_in
  user : List Char
  password : List Char
  timeout : Nat
  command : List Char
  file_name : List Char
  show_responses : Bool

/-- The function `main`, from the return of `__ndm_telnet_parse_arguments` on.
`parsed` holds the variables as the parser leaves them, `none` when the parser
returns false; the messages of the parser itself are left out. -/
def main (B : TimeoutBounds) (M : CodeMacros) (stdin : FILE)
    (fopen : List Char → Option FILE) (parsed : Option Config) (w : World) :
    Option (Int × World) :=
  let w0 : World := { w with out := w.out ++ "Simple NDM telnet client.\n".toList }
  match parsed with
  | none => some (EXIT_FAILURE, w0)
  | some c =>
    if c.timeout < B.NDM_TELNET_MIN_TIMEOUT ∨ c.timeout > B.NDM_TELNET_MAX_TIMEOUT then
      some (EXIT_FAILURE, { w0 with err_out := w0.err_out ++ [Diag.timeout_out_of_range] })
    else if !__ndm_telnet_is_unicast c.sin.addr then
      some (EXIT_FAILURE, { w0 with err_out := w0.err_out ++ [Diag.not_unicast] })
    else if c.command.length > 0 ∧ c.file_name.length > 0 then
      some (EXIT_FAILURE, { w0 with err_out := w0.err_out ++ [Diag.command_and_file] })
    else
      __ndm_telnet_run M stdin fopen c.sin c.user c.password c.timeout c.command c.file_name
        c.show_responses w0

/-! ## Sample data -/

/-- A clock that starts at one second and advances by seven milliseconds at
every reading. -/
def sampleClock (k : Nat) : Int := 1000 + 7 * k

/-- The document `<system><name>Router</name></system>`. -/
def sampleDoc : ndm_xml_elem_t :=
  ndm_xml_elem_t.mk "system".toList [] []
    [ndm_xml_elem_t.mk "name".toList [] "Router".toList []]

/-- An event document. -/
def sampleEvent : ndm_xml_elem_t := ndm_xml_elem_t.mk "event".toList [] [] []

/-- A received envelope: no receive error, the given continuation flag, status
code and document. -/
def sampleEnvelope (continued : Bool) (code : Nat) (doc : ndm_xml_elem_t) : RecvCall :=
  { err := NDM_TELNET_ERR_OK, continued := continued, response_code := code,
    response_text := [], response := [doc] }

/-- A world with the given scripts, in which nothing has happened yet. -/
def sampleWorld (sends : List ndm_telnet_err_t) (recvs : List RecvCall) : World :=
  { clock := sampleClock, ticks := 0, open_err := NDM_TELNET_ERR_OK, send_script := sends,
    recv_script := recvs, calls := [], out := [], err_out := [] }

/-- The world that a result holds; the idle sample world when there is no
result. -/
def world_of {α : Type} (res : Option (α × World)) : World :=
  match res with
  | some (_, w) => w
  | none => sampleWorld [] []

/-- A script file of two commands, one a line. -/
def sampleFile : FILE :=
  { content := "show a\nshow b\n".toList, fails := false, eof := false, error := false }

/-- An empty standard input. -/
def sampleStdin : FILE := { content := [], fails := false, eof := false, error := false }

/-- A file system that holds one file, `script`. -/
def sampleFopen (file_name : List Char) : Option FILE :=
  if file_name = "script".toList then some sampleFile else none

/-- The address 192.168.1.1 and the port 23. -/
def sampleSin : sockaddr_in := { addr := 3232235777, port := 23 }

/-- An envelope that `ndm_telnet_recv` returns together with the error `err`. -/
def sampleRecvError (err : ndm_telnet_err_t) : RecvCall :=
  { err := err, continued := false, response_code := 0, response_text := [], response := [] }

/-- A session that accepts two commands, answers the first with a failed
status (continuation set) and the second with a succeeded one. -/
def sampleRecovering : World :=
  sampleWorld [NDM_TELNET_ERR_OK, NDM_TELNET_ERR_OK]
    [sampleEnvelope true (2 ^ 31 + 5) sampleDoc, sampleEnvelope false 0 sampleDoc]

/-- A session that accepts two commands; the first receive returns the error
7. -/
def sampleBroken : World :=
  sampleWorld [NDM_TELNET_ERR_OK, NDM_TELNET_ERR_OK]
    [sampleRecvError 7, sampleEnvelope false 0 sampleDoc]

/-- The run of the sample script against a world. -/
def sampleRun (w : World) : Option (Int × World) :=
  __ndm_telnet_run sampleMacros sampleStdin sampleFopen sampleSin "admin".toList [] 500 []
    "script".toList false w

/-! ## Definitions that follow the specification -/

/-- The severity table of the specification, a function of the three status
bits: (succeeded, no warning) gives `I`, (succeeded, warning) gives `W`,
(failed, not critical) gives `E`, (failed, critical) gives `C`. -/
def severity_spec (failed critical warning : Bool) : Char :=
  match failed, critical, warning with
  | false, _, false => 'I'
  | false, _, true => 'W'
  | true, false, _ => 'E'
  | true, true, _ => 'C'

/-- The five substitutions of the specification. -/
def entity_table : List (Char × List Char) :=
  [('<', "&lt;".toList), ('>', "&gt;".toList), (chApos, "&apos;".toList),
   (chQuot, "&quot;".toList), ('&', "&amp;".toList)]

/-- The image of a character under the substitution of the specification: its
entity reference when it is one of the five special characters, itself
otherwise. -/
def image_spec (c : Char) : List Char :=
  match entity_table.lookup c with
  | some entity => entity
  | none => [c]

/-- Whether a character is one of the five special characters. -/
def is_special (c : Char) : Bool :=
  c == '<' || c == '>' || c == chApos || c == chQuot || c == '&'

/-- The character that an entity reference stands for, when `l` begins with one
of the five entity references, and the number of characters of the reference
that follow its first one. -/
def entity_head (l : List Char) : Option (Char × Nat) :=
  if "&lt;".toList.isPrefixOf l then some ('<', 3)
  else if "&gt;".toList.isPrefixOf l then some ('>', 3)
  else if "&apos;".toList.isPrefixOf l then some (chApos, 5)
  else if "&quot;".toList.isPrefixOf l then some (chQuot, 5)
  else if "&amp;".toList.isPrefixOf l then some ('&', 4)
  else none

/-- Replacement of the entity references by their characters, in one pass from
left to right; `skip` counts the characters of a reference still to pass. -/
def unescape_from : Nat → List Char → List Char
  | _, [] => []
  | skip + 1, _ :: rest => unescape_from skip rest
  | 0, c :: rest =>
    match entity_head (c :: rest) with
    | some (ch, n) => ch :: unescape_from n rest
    | none => c :: unescape_from 0 rest

/-- Replacement of the five entity references of a text by their characters. -/
def unescape (l : List Char) : List Char := unescape_from 0 l

/-- The rendering of one attribute in the words of the specification: a space,
the name, `="`, the escaped value, `"`. -/
def attribute_spec (a : ndm_xml_attr_t) : List Char :=
  " ".toList ++ a.name ++ "=".toList ++ [chQuot] ++ a.value.flatMap image_spec ++ [chQuot]

mutual
/-- The rendering of one element at depth `d` in the words of the
specification. -/
def render_spec (d : Nat) : ndm_xml_elem_t → List Char
  | .mk name attributes value children =>
    List.replicate (4 * d) ' ' ++ "<".toList ++ name ++ attributes.flatMap attribute_spec
      ++ ">".toList
      ++ (match children with
          | [] => value.flatMap image_spec ++ "</".toList ++ name ++ ">".toList ++ "\n".toList
          | c :: cs =>
            "\n".toList ++ render_all_spec (d + 1) (c :: cs) ++ List.replicate (4 * d) ' '
              ++ "</".toList ++ name ++ ">".toList ++ "\n".toList)
/-- The renderings of a sequence of siblings at depth `d`, one after the
other. -/
def render_all_spec (d : Nat) : List ndm_xml_elem_t → List Char
  | [] => []
  | e :: es => render_spec d e ++ render_all_spec d es
end

/-- The pieces of the rendered text: the opening tag of an element (with its
attributes, and the line break that follows it when the element has children),
the text of a childless element, and the closing tag of an element. -/
inductive Token where
  | opening (depth : Nat) (name : List Char) (attributes : List ndm_xml_attr_t)
      (has_children : Bool)
  | text (value : List Char)
  | closing (depth : Nat) (name : List Char) (has_children : Bool)
deriving DecidableEq

/-- The text of a piece.  An opening tag at depth `d` follows `4 * d` spaces; so
does the closing tag of an element with children; the closing tag of a
childless element has no indentation of its own. -/
def Token.print : Token → List Char
  | Token.opening d name attributes has_children =>
    List.replicate (4 * d) ' ' ++ "<".toList ++ name ++ attributes.flatMap attribute_spec
      ++ ">".toList ++ (if has_children then "\n".toList else [])
  | Token.text value => value.flatMap image_spec
  | Token.closing d name has_children =>
    (if has_children then List.replicate (4 * d) ' ' else [])
      ++ "</".toList ++ name ++ ">".toList ++ "\n".toList

mutual
/-- The pieces that one element at depth `d` contributes: its opening tag, the
pieces of its children (or its text), its closing tag. -/
def element_tokens (d : Nat) : ndm_xml_elem_t → List Token
  | .mk name attributes value children =>
    match children with
    | [] => [Token.opening d name attributes false, Token.text value, Token.closing d name false]
    | c :: cs =>
      Token.opening d name attributes true :: sibling_tokens (d + 1) (c :: cs)
        ++ [Token.closing d name true]
/-- The pieces of a sequence of siblings at depth `d`. -/
def sibling_tokens (d : Nat) : List ndm_xml_elem_t → List Token
  | [] => []
  | e :: es => element_tokens d e ++ sibling_tokens d es
end

mutual
/-- The names of an element and its descendants in depth-first order, each with
its depth. -/
def element_preorder (d : Nat) : ndm_xml_elem_t → List (Nat × List Char)
  | .mk name _ _ children => (d, name) :: sibling_preorder (d + 1) children
/-- The names of a sequence of siblings and their descendants in depth-first
order, sibling order preserved. -/
def sibling_preorder (d : Nat) : List ndm_xml_elem_t → List (Nat × List Char)
  | [] => []
  | e :: es => element_preorder d e ++ sibling_preorder d es
end

/-- The opening tags among a list of pieces: depth and name. -/
def opening_tags : List Token → List (Nat × List Char)
  | [] => []
  | Token.opening d name _ _ :: ts => (d, name) :: opening_tags ts
  | _ :: ts => opening_tags ts

/-- The number of closing tags among a list of pieces. -/
def closing_count : List Token → Nat
  | [] => 0
  | Token.closing _ _ _ :: ts => closing_count ts + 1
  | _ :: ts => closing_count ts

/-- The bracket check.  `stack` holds the elements that are open, innermost
first; `base` is the depth of the outermost level.  An opening tag must sit at
the depth `base + stack.length` and is pushed; a text must lie inside an open
element; a closing tag must carry the name and the depth of the innermost open
element, which it closes.  At the end no element may be open. -/
def well_bracketed (base : Nat) : List (Nat × List Char) → List Token → Bool
  | stack, [] => stack.isEmpty
  | stack, Token.opening d name _ _ :: ts =>
    d == base + stack.length && well_bracketed base ((d, name) :: stack) ts
  | stack, Token.text _ :: ts => !stack.isEmpty && well_bracketed base stack ts
  | [], Token.closing _ _ _ :: _ => false
  | (d1, name1) :: stack, Token.closing d name _ :: ts =>
    d == d1 && name == name1 && well_bracketed base stack ts

/-- The text after the last line break of a text. -/
def last_line (l : List Char) : List Char :=
  (l.reverse.takeWhile (fun c => c != '\n')).reverse

/-- The line of the rendering of an element that holds its closing tag: the
last line of the rendering, its final line break left out. -/
def closing_line (d : Nat) (e : ndm_xml_elem_t) : List Char :=
  last_line (dump_element d e).dropLast

/-- The configuration check in the words of the specification: the timeout
lies in the inclusive range of the two bounds, the address is unicast, and a
literal command and a file name are not both given. -/
def config_valid (B : TimeoutBounds) (c : Config) : Bool :=
  decide (B.NDM_TELNET_MIN_TIMEOUT ≤ c.timeout ∧ c.timeout ≤ B.NDM_TELNET_MAX_TIMEOUT)
    && __ndm_telnet_is_unicast c.sin.addr
    && !(!c.command.isEmpty && !c.file_name.isEmpty)

/-- Whether a call is a call of `ndm_telnet_open`. -/
def is_open : Call → Bool
  | Call.sess_open _ _ _ _ => true
  | _ => false

/-- Sample bounds of the timeout. -/
def sampleBounds : TimeoutBounds :=
  { NDM_TELNET_MIN_TIMEOUT := 100, NDM_TELNET_MAX_TIMEOUT := 60000 }

/-- A configuration with the address 192.168.1.1, a timeout of 500 and the
given command and file name. -/
def sampleConfig (command file_name : List Char) : Config :=
  { sin := sampleSin, user := "admin".toList, password := [], timeout := 500,
    command := command, file_name := file_name, show_responses := false }

/-- The number of milliseconds that a send or a receive call was given; zero
for the other calls. -/
def call_ms : Call → Nat
  | Call.send _ ms _ => ms
  | Call.recv ms _ => ms
  | _ => 0

/-- Whether every send and every receive in a list of calls was given at most
`t` milliseconds. -/
def ms_bounded (t : Nat) (cs : List Call) : Bool := cs.all (fun c => decide (call_ms c ≤ t))

/-- A clock that never reads less than `beg` from its next reading on. -/
def clock_not_before (beg : Int) (w : World) : Prop := ∀ k, w.ticks ≤ k → beg ≤ w.clock k

/-- The relation between the worlds before and after some iterations of the
loop of `__ndm_telnet_execute`, as to the time given to the calls: on a clock
that does not go back before `beg`, the clock is kept, the readings advance,
and every call added was given at most `t` milliseconds. -/
def BudgetKept (beg : Int) (t : Nat) (w w1 : World) : Prop :=
  clock_not_before beg w →
    w1.clock = w.clock ∧ w.ticks ≤ w1.ticks
      ∧ ∃ ext, w1.calls = w.calls ++ ext ∧ ms_bounded t ext = true

/-- Whether a call is one that `__ndm_telnet_execute` makes on an open
session: a send, a receive, or the release of a document. -/
def is_session_use : Call → Bool
  | Call.send _ _ _ => true
  | Call.recv _ _ => true
  | Call.doc_free => true
  | _ => false

/-- The relation between the worlds before and after some iterations of the
loop of `__ndm_telnet_execute`, as to the calls: the calls added are uses of
the session. -/
def UsesSession (w w1 : World) : Prop :=
  ∃ ext, w1.calls = w.calls ++ ext ∧ ext.all is_session_use = true

/-- The text that `__ndm_telnet_execute` writes to the standard output for a
list of envelopes, each with the duration printed for it: the rendered
document when responses are shown, then the status line. -/
def status_output (M : CodeMacros) (command : List Char) (show_responses : Bool)
    (items : List (RecvCall × Int)) : List Char :=
  items.flatMap (fun it =>
    (if show_responses then __ndm_telnet_dump_result 0 it.1.response else [])
      ++ status_printf M it.1.response_code it.2 command it.1.continued (is_event it.1)
          show_responses)

/-- The relation between the worlds before and after some iterations of the
loop of `__ndm_telnet_execute`, as to the standard output: what is added is the
output for envelopes whose status is not failed. -/
def WritesStatus (M : CodeMacros) (command : List Char) (show_responses : Bool)
    (w w1 : World) : Prop :=
  ∃ items, w1.out = w.out ++ status_output M command show_responses items
    ∧ items.all (fun it => !M.failed it.1.response_code) = true

/-- A line of a script that fits the line buffer with its line break and that
holds no line break and no NUL byte. -/
def line_ok (l : List Char) : Bool :=
  l.all (fun c => c != '\n' && c != Char.ofNat 0) && decide (l.length + 1 ≤ 4095)

/-- The content of a file made of the given lines, each followed by a line
break. -/
def file_of_lines (lines : List (List Char)) : List Char :=
  lines.flatMap (fun l => l ++ ['\n'])

/-- The lines that are not blank: not empty and not made of white space
only. -/
def commands_of_lines (lines : List (List Char)) : List (List Char) :=
  lines.filter (fun l => !l.all isspace)

/-- A stream that holds `content`, not read yet. -/
def fresh_file (content : List Char) : FILE :=
  { content := content, fails := false, eof := false, error := false }

/-- A line of 4095 letters, one byte too long for the line buffer once its
line break is counted. -/
def sampleLongLine : List Char := List.replicate 4095 'a'

/-- The reader loop of a scripted run on a file with the given content, against
a session that accepts one command and answers it once. -/
def sampleRunOf (content : List Char) :
    Option (LoopExit × World) :=
  (read_loop sampleMacros 500 false false ((fresh_file content).content.length + 1)
    (fresh_file content)
    (sampleWorld [NDM_TELNET_ERR_OK] [sampleEnvelope false 0 sampleDoc])).map
    (fun res => (res.1, res.2.2))

/-- What holds of every command that the reader passes to Execute: no line
break, no NUL byte, at most 4094 bytes. -/
def command_ok (c : List Char) : Bool :=
  c.all (fun x => x != '\n' && x != Char.ofNat 0) && decide (c.length ≤ 4094)

/-- The status line of the specification, without its line break, for a
received envelope and the milliseconds elapsed since the start of the Execute
call: the severity letter, the status code as eight hexadecimal digits between
brackets, the seconds and the milliseconds of the elapsed time between square
brackets, the command, and the suffix. -/
def status_line_spec (M : CodeMacros) (command : List Char) (r : RecvCall)
    (elapsed : Int) : List Char :=
  [__ndm_telnet_result_type M r.response_code] ++ " (".toList
    ++ printf_08x M.upperHex r.response_code ++ ") [".toList
    ++ printf_03i (Int.tdiv elapsed 1000) ++ ".".toList
    ++ printf_03i (Int.tmod elapsed 1000) ++ "] ".toList
    ++ command
    ++ (if r.continued then " (continued)".toList
        else if is_event r then " (event)".toList else [])

/-- What the specification has an Execute call write to the standard output
for the envelopes that it receives in turn with a succeeded status, the start
of the call being the reading `beg` of the clock and the first envelope being
asked for at the reading number `tick`: for each envelope, the rendered
document when responses are shown, then one status line with the time elapsed
at the reading that follows, ended by a line break (two when responses are
shown).  An iteration takes two readings of the clock. -/
def execute_output_spec (M : CodeMacros) (command : List Char) (show_responses : Bool)
    (beg : Int) (clock : Nat → Int) : Nat → List RecvCall → List Char
  | _, [] => []
  | tick, r :: rs =>
    (if show_responses then __ndm_telnet_dump_result 0 r.response else [])
      ++ status_line_spec M command r (clock (tick + 1) - beg)
      ++ (if show_responses then "\n".toList else []) ++ "\n".toList
      ++ execute_output_spec M command show_responses beg clock (tick + 2) rs

/-- The leading white space of a line too long for the line buffer: 4095
spaces, as many bytes as one call of `fgets` stores. -/
def sampleSpaces : List Char := List.replicate 4095 ' '

/-! # Theorems -/

/-! ## Severity -/

/-- C5: `__ndm_telnet_result_type` is a total function of the status bits
(failed, critical, warning) of its argument: it is the severity table of the
specification applied to these bits, so it gives `I` for succeeded without
warning, `W` for succeeded with warning, `E` for failed and not critical, `C`
for failed and critical; it returns one of these four letters; and its value
is determined by the three bits alone. -/
theorem result_type_is_severity (M : CodeMacros) (code : Nat) :
    __ndm_telnet_result_type M code
        = severity_spec (M.failed code) (M.critical code) (M.warning code)
      ∧ (__ndm_telnet_result_type M code = 'I' ∨ __ndm_telnet_result_type M code = 'W'
          ∨ __ndm_telnet_result_type M code = 'E' ∨ __ndm_telnet_result_type M code = 'C')
      ∧ severity_spec false false false = 'I' ∧ severity_spec false true false = 'I'
      ∧ severity_spec false false true = 'W' ∧ severity_spec false true true = 'W'
      ∧ severity_spec true false false = 'E' ∧ severity_spec true false true = 'E'
      ∧ severity_spec true true false = 'C' ∧ severity_spec true true true = 'C' := by
  refine ⟨?_, ?_, rfl, rfl, rfl, rfl, rfl, rfl, rfl, rfl⟩
  · unfold __ndm_telnet_result_type NDM_SUCCEEDED severity_spec
    cases M.failed code <;> cases M.critical code <;> cases M.warning code <;> rfl
  · unfold __ndm_telnet_result_type NDM_SUCCEEDED
    cases M.failed code <;> cases M.critical code <;> cases M.warning code <;> simp

/-! ## Escaping -/

theorem escape_char_eq_image (c : Char) : escape_char c = image_spec c := by
  unfold escape_char image_spec entity_table
  by_cases h1 : c = '<'
  · subst h1; rfl
  by_cases h2 : c = '>'
  · subst h2; rfl
  by_cases h3 : c = chApos
  · subst h3; rfl
  by_cases h4 : c = chQuot
  · subst h4; rfl
  by_cases h5 : c = '&'
  · subst h5; rfl
  have e1 : (c == '<') = false := by simpa using h1
  have e2 : (c == '>') = false := by simpa using h2
  have e3 : (c == chApos) = false := by simpa using h3
  have e4 : (c == chQuot) = false := by simpa using h4
  have e5 : (c == '&') = false := by simpa using h5
  simp only [List.lookup, e1, e2, e3, e4, e5, if_neg h1, if_neg h2, if_neg h3, if_neg h4,
    if_neg h5]

theorem dump_escaped_eq_flatMap (s : List Char) :
    __ndm_telnet_dump_escaped s = s.flatMap escape_char := by
  induction s with
  | nil => rfl
  | cons ch p ih => simp [__ndm_telnet_dump_escaped, ih]

theorem escape_char_no_raw (c : Char) :
    (escape_char c).all
      (fun x => !(x == '<') && !(x == '>') && !(x == chApos) && !(x == chQuot)) = true := by
  unfold escape_char
  split_ifs with h1 h2 h3 h4 h5
  · decide
  · decide
  · decide
  · decide
  · decide
  · simp [h1, h2, h3, h4]

theorem escape_char_count_amp (c : Char) :
    (escape_char c).count '&' = if is_special c then 1 else 0 := by
  unfold escape_char is_special
  by_cases h1 : c = '<'
  · subst h1; rfl
  by_cases h2 : c = '>'
  · subst h2; rfl
  by_cases h3 : c = chApos
  · subst h3; rfl
  by_cases h4 : c = chQuot
  · subst h4; rfl
  by_cases h5 : c = '&'
  · subst h5; rfl
  have e5 : ¬ ('&' = c) := fun e => h5 e.symm
  simp [h1, h2, h3, h4, h5, e5]

theorem entity_head_plain (c : Char) (rest : List Char) (h : c ≠ '&') :
    entity_head (c :: rest) = none := by
  have h' : ('&' == c) = false := by simpa using fun e => h e.symm
  simp [entity_head, String.toList, List.isPrefixOf, h']

theorem unescape_from_skip (n : Nat) (pre rest : List Char) (h : pre.length = n) :
    unescape_from n (pre ++ rest) = unescape_from 0 rest := by
  induction pre generalizing n with
  | nil => simp at h; subst h; rfl
  | cons a pre ih =>
    cases n with
    | zero => simp at h
    | succ n =>
      simp only [List.length_cons, Nat.add_right_cancel_iff] at h
      cases hr : pre ++ rest with
      | nil =>
        simp at hr
        obtain ⟨h1, h2⟩ := hr
        subst h1 h2
        simp at h
        subst h
        rfl
      | cons x xs =>
        show unescape_from (n + 1) (a :: (pre ++ rest)) = _
        rw [hr]
        show unescape_from n (x :: xs) = _
        rw [← hr]
        exact ih n h

theorem unescape_entity (c ch : Char) (tl rest : List Char)
    (h : entity_head (c :: (tl ++ rest)) = some (ch, tl.length)) :
    unescape_from 0 (c :: (tl ++ rest)) = ch :: unescape_from 0 rest := by
  simp only [unescape_from, h]
  rw [unescape_from_skip tl.length tl rest rfl]

theorem unescape_dump_escaped (s : List Char) :
    unescape (__ndm_telnet_dump_escaped s) = s := by
  unfold unescape
  induction s with
  | nil => rfl
  | cons ch p ih =>
    simp only [__ndm_telnet_dump_escaped, escape_char]
    split_ifs with h1 h2 h3 h4 h5
    · subst h1
      exact (unescape_entity '&' '<' ['l', 't', ';'] _
        (by simp [entity_head, String.toList, List.isPrefixOf])).trans (by rw [ih])
    · subst h2
      exact (unescape_entity '&' '>' ['g', 't', ';'] _
        (by simp [entity_head, String.toList, List.isPrefixOf])).trans (by rw [ih])
    · subst h3
      exact (unescape_entity '&' chApos ['a', 'p', 'o', 's', ';'] _
        (by simp [entity_head, String.toList, List.isPrefixOf])).trans (by rw [ih])
    · subst h4
      exact (unescape_entity '&' chQuot ['q', 'u', 'o', 't', ';'] _
        (by simp [entity_head, String.toList, List.isPrefixOf])).trans (by rw [ih])
    · subst h5
      exact (unescape_entity '&' '&' ['a', 'm', 'p', ';'] _
        (by simp [entity_head, String.toList, List.isPrefixOf])).trans (by rw [ih])
    · show unescape_from 0 (ch :: __ndm_telnet_dump_escaped p) = _
      simp only [unescape_from, entity_head_plain ch _ h5, ih]

theorem dump_escaped_eq_images (s : List Char) :
    __ndm_telnet_dump_escaped s = s.flatMap image_spec := by
  rw [dump_escaped_eq_flatMap]
  congr 1
  funext c
  exact escape_char_eq_image c

/-- C7: the text written by `__ndm_telnet_dump_escaped s` is the in-order
concatenation of the images of the characters of `s` under the substitution of
the specification (the five special characters go to their entity references,
every other character to itself); the output holds no raw `<`, `>`, apostrophe
or double quote; it holds exactly one `&` for each special character of `s`,
one entity reference each; and replacing the entity references by their
characters gives `s` back. -/
theorem dump_escaped_is_substitution (s : List Char) :
    __ndm_telnet_dump_escaped s = s.flatMap image_spec
      ∧ image_spec '<' = "&lt;".toList ∧ image_spec '>' = "&gt;".toList
      ∧ image_spec chApos = "&apos;".toList ∧ image_spec chQuot = "&quot;".toList
      ∧ image_spec '&' = "&amp;".toList
      ∧ (__ndm_telnet_dump_escaped s).all
          (fun x => !(x == '<') && !(x == '>') && !(x == chApos) && !(x == chQuot)) = true
      ∧ (__ndm_telnet_dump_escaped s).count '&' = s.countP is_special
      ∧ unescape (__ndm_telnet_dump_escaped s) = s := by
  refine ⟨?_, rfl, rfl, rfl, rfl, rfl, ?_, ?_, unescape_dump_escaped s⟩
  · exact dump_escaped_eq_images s
  · induction s with
    | nil => rfl
    | cons ch p ih =>
      simp only [__ndm_telnet_dump_escaped, List.all_append, ih, escape_char_no_raw, Bool.and_self]
  · induction s with
    | nil => rfl
    | cons ch p ih =>
      simp only [__ndm_telnet_dump_escaped, List.count_append, ih, escape_char_count_amp,
        List.countP_cons]
      split_ifs <;> omega

/-! ## Rendering -/

theorem dump_attributes_eq (attrs : List ndm_xml_attr_t) :
    dump_attributes attrs = attrs.flatMap attribute_spec := by
  induction attrs with
  | nil => rfl
  | cons a rest ih =>
    have h := (dump_escaped_eq_images a.value)
    simp [dump_attributes, attribute_spec, ih, h]

theorem dump_ident_eq (d : Nat) : __ndm_telnet_dump_ident d = List.replicate (4 * d) ' ' := by
  unfold __ndm_telnet_dump_ident
  rw [Nat.mul_comm]

mutual
theorem dump_element_eq_spec : ∀ (d : Nat) (e : ndm_xml_elem_t),
    dump_element d e = render_spec d e
  | d, .mk name attributes value [] => by
    simp [dump_element, render_spec, dump_attributes_eq, dump_ident_eq,
      dump_escaped_eq_images]
  | d, .mk name attributes value (c :: cs) => by
    have ih := dump_result_eq_spec (d + 1) (c :: cs)
    simp only [dump_element, render_spec, dump_attributes_eq, dump_ident_eq, ih]
    simp
theorem dump_result_eq_spec : ∀ (d : Nat) (es : List ndm_xml_elem_t),
    __ndm_telnet_dump_result d es = render_all_spec d es
  | _, [] => by simp [__ndm_telnet_dump_result, render_all_spec]
  | d, e :: es => by
    simp only [__ndm_telnet_dump_result, render_all_spec, dump_element_eq_spec d e,
      dump_result_eq_spec d es]
end

theorem render_all_spec_eq_flatMap (d : Nat) (es : List ndm_xml_elem_t) :
    render_all_spec d es = es.flatMap (render_spec d) := by
  induction es with
  | nil => simp [render_all_spec]
  | cons e es ih => simp [render_all_spec, ih]

/-- C6: for every sequence of siblings and every depth `d`, the text written by
`__ndm_telnet_dump_result` is the concatenation, in sibling order, of the
renderings of the elements; an element renders as `4 * d` spaces, `<name`, for
each attribute a space, its name, `="`, its escaped value and `"`, then `>`;
then, without children, the escaped text value, `</name>` and a line break;
with children, a line break, the renderings of the children at depth `d + 1`,
`4 * d` spaces, `</name>` and a line break (the text value is not printed). -/
theorem dump_result_is_rendering (d : Nat) (es : List ndm_xml_elem_t) :
    __ndm_telnet_dump_result d es = es.flatMap (render_spec d)
      ∧ (∀ (name value : List Char) (attributes : List ndm_xml_attr_t),
          render_spec d (ndm_xml_elem_t.mk name attributes value [])
            = List.replicate (4 * d) ' ' ++ "<".toList ++ name
                ++ attributes.flatMap attribute_spec ++ ">".toList
                ++ value.flatMap image_spec ++ "</".toList ++ name ++ ">".toList
                ++ "\n".toList)
      ∧ (∀ (name value : List Char) (attributes : List ndm_xml_attr_t)
            (c : ndm_xml_elem_t) (cs : List ndm_xml_elem_t),
          render_spec d (ndm_xml_elem_t.mk name attributes value (c :: cs))
            = List.replicate (4 * d) ' ' ++ "<".toList ++ name
                ++ attributes.flatMap attribute_spec ++ ">".toList ++ "\n".toList
                ++ (c :: cs).flatMap (render_spec (d + 1))
                ++ List.replicate (4 * d) ' ' ++ "</".toList ++ name ++ ">".toList
                ++ "\n".toList) := by
  refine ⟨?_, ?_, ?_⟩
  · rw [dump_result_eq_spec, render_all_spec_eq_flatMap]
  · intro name value attributes
    simp [render_spec]
  · intro name value attributes c cs
    simp only [render_spec, render_all_spec_eq_flatMap]
    simp

/-! ## Well-formedness of the rendering -/

mutual
theorem render_spec_eq_tokens : ∀ (d : Nat) (e : ndm_xml_elem_t),
    render_spec d e = (element_tokens d e).flatMap Token.print
  | d, .mk name attributes value [] => by
    simp [render_spec, element_tokens, Token.print]
  | d, .mk name attributes value (c :: cs) => by
    have ih := render_all_spec_eq_tokens (d + 1) (c :: cs)
    simp only [render_spec, element_tokens, ih]
    simp [Token.print]
theorem render_all_spec_eq_tokens : ∀ (d : Nat) (es : List ndm_xml_elem_t),
    render_all_spec d es = (sibling_tokens d es).flatMap Token.print
  | _, [] => by simp [render_all_spec, sibling_tokens]
  | d, e :: es => by
    simp only [render_all_spec, sibling_tokens, render_spec_eq_tokens d e,
      render_all_spec_eq_tokens d es, List.flatMap_append]
end

theorem opening_tags_append (xs ys : List Token) :
    opening_tags (xs ++ ys) = opening_tags xs ++ opening_tags ys := by
  induction xs with
  | nil => rfl
  | cons t ts ih => cases t <;> simp [opening_tags, ih]

theorem closing_count_append (xs ys : List Token) :
    closing_count (xs ++ ys) = closing_count xs + closing_count ys := by
  induction xs with
  | nil => simp [closing_count]
  | cons t ts ih => cases t <;> simp [closing_count, ih]; omega

mutual
theorem opening_tags_element : ∀ (d : Nat) (e : ndm_xml_elem_t),
    opening_tags (element_tokens d e) = element_preorder d e
  | d, .mk name attributes value [] => by
    simp [element_tokens, opening_tags, element_preorder, sibling_preorder]
  | d, .mk name attributes value (c :: cs) => by
    have ih := opening_tags_siblings (d + 1) (c :: cs)
    simp [element_tokens, opening_tags, element_preorder, opening_tags_append, ih]
theorem opening_tags_siblings : ∀ (d : Nat) (es : List ndm_xml_elem_t),
    opening_tags (sibling_tokens d es) = sibling_preorder d es
  | _, [] => by simp [sibling_tokens, opening_tags, sibling_preorder]
  | d, e :: es => by
    simp only [sibling_tokens, sibling_preorder, opening_tags_append,
      opening_tags_element d e, opening_tags_siblings d es]
end

mutual
theorem closing_count_element : ∀ (d : Nat) (e : ndm_xml_elem_t),
    closing_count (element_tokens d e) = (element_preorder d e).length
  | d, .mk name attributes value [] => by
    simp [element_tokens, closing_count, element_preorder, sibling_preorder]
  | d, .mk name attributes value (c :: cs) => by
    have ih := closing_count_siblings (d + 1) (c :: cs)
    simp [element_tokens, closing_count, element_preorder, closing_count_append, ih]
theorem closing_count_siblings : ∀ (d : Nat) (es : List ndm_xml_elem_t),
    closing_count (sibling_tokens d es) = (sibling_preorder d es).length
  | _, [] => by simp [sibling_tokens, closing_count, sibling_preorder]
  | d, e :: es => by
    simp only [sibling_tokens, sibling_preorder, closing_count_append,
      closing_count_element d e, closing_count_siblings d es, List.length_append]
end

mutual
theorem well_bracketed_element : ∀ (e : ndm_xml_elem_t) (base : Nat)
    (stack : List (Nat × List Char)) (rest : List Token),
    well_bracketed base stack (element_tokens (base + stack.length) e ++ rest)
      = well_bracketed base stack rest
  | .mk name attributes value [], base, stack, rest => by
    simp [element_tokens, well_bracketed]
  | .mk name attributes value (c :: cs), base, stack, rest => by
    have ih := well_bracketed_siblings (c :: cs) base ((base + stack.length, name) :: stack)
      (Token.closing (base + stack.length) name true :: rest)
    simp only [List.length_cons, ← Nat.add_assoc] at ih
    simp only [element_tokens, List.cons_append, List.append_assoc, List.nil_append,
      well_bracketed, beq_self_eq_true, Bool.true_and]
    rw [ih]
    simp [well_bracketed]
theorem well_bracketed_siblings : ∀ (es : List ndm_xml_elem_t) (base : Nat)
    (stack : List (Nat × List Char)) (rest : List Token),
    well_bracketed base stack (sibling_tokens (base + stack.length) es ++ rest)
      = well_bracketed base stack rest
  | [], _, _, _ => by simp [sibling_tokens]
  | e :: es, base, stack, rest => by
    simp only [sibling_tokens, List.append_assoc]
    rw [well_bracketed_element e base stack, well_bracketed_siblings es base stack]
end

/-- C8, as amended: for any element tree the text emitted by
`__ndm_telnet_dump_result` is the printing of a sequence of pieces in which
every element contributes exactly one opening tag and one closing tag of the
same name; the sequence is well bracketed (a closing tag closes the innermost
open element, at the same depth and with the same name, so it comes after all
the descendants and before the next sibling); the opening tags appear in
depth-first order, sibling order preserved; an opening tag at depth `d` follows
`4 * d` spaces, and so does the closing tag of an element with children, while
the closing tag of a childless element directly follows the escaped text. -/
theorem dump_result_well_formed (d : Nat) (es : List ndm_xml_elem_t) :
    __ndm_telnet_dump_result d es = (sibling_tokens d es).flatMap Token.print
      ∧ well_bracketed d [] (sibling_tokens d es) = true
      ∧ opening_tags (sibling_tokens d es) = sibling_preorder d es
      ∧ closing_count (sibling_tokens d es) = (sibling_preorder d es).length := by
  refine ⟨?_, ?_, opening_tags_siblings d es, closing_count_siblings d es⟩
  · rw [dump_result_eq_spec, render_all_spec_eq_tokens]
  · have h := well_bracketed_siblings es d [] []
    simpa [well_bracketed] using h

/-- C8, counterexample: a childless element at depth 1 whose text value holds a
line break.  The closing tag sits on a line without indentation, not at the
indentation of four spaces of the opening tag. -/
theorem closing_tag_not_at_indentation :
    dump_element 1 (ndm_xml_elem_t.mk "a".toList [] "x\ny".toList [])
        = "    <a>x\ny</a>\n".toList
      ∧ closing_line 1 (ndm_xml_elem_t.mk "a".toList [] "x\ny".toList []) = "y</a>".toList
      ∧ (List.replicate (4 * 1) ' ').isPrefixOf
          (closing_line 1 (ndm_xml_elem_t.mk "a".toList [] "x\ny".toList [])) = false := by
  decide

/-! ## The session driver -/

theorem recv_count_append (xs ys : List Call) :
    recv_count (xs ++ ys) = recv_count xs + recv_count ys := by
  induction xs with
  | nil => simp [recv_count]
  | cons c cs ih => cases c <;> simp [recv_count, ih]; omega

theorem sent_commands_append (xs ys : List Call) :
    sent_commands (xs ++ ys) = sent_commands xs ++ sent_commands ys := by
  induction xs with
  | nil => simp [sent_commands]
  | cons c cs ih => cases c <;> simp [sent_commands, ih]

/-- The world after an iteration of the loop that received an envelope with a
succeeded status. -/
theorem loop_body_succeeded (M : CodeMacros) (command : List Char) (show_responses : Bool)
    (beg deadline : Int) (r : RecvCall) (script : List RecvCall) (w : World)
    (root : ndm_xml_elem_t) (sibs : List ndm_xml_elem_t)
    (h_err : r.err = NDM_TELNET_ERR_OK) (h_ok : M.failed r.response_code = false)
    (h_doc : r.response = root :: sibs) :
    loop_body M command show_responses beg deadline r script w
      = (if r.continued || decide (root.name = "event".toList) then Step.again
          else Step.finish NDM_TELNET_ERR_OK)
          { w with
            ticks := w.ticks + 2
            recv_script := script
            calls := w.calls
              ++ [Call.recv (__ndm_telnet_ms_to deadline w).1 NDM_TELNET_ERR_OK, Call.doc_free]
            out := w.out
              ++ (if show_responses then __ndm_telnet_dump_result 0 r.response else [])
              ++ status_printf M r.response_code (w.clock (w.ticks + 1) - beg) command
                  r.continued (decide (root.name = "event".toList)) show_responses } := by
  unfold loop_body after_recv
  simp only [h_err, h_ok, h_doc, ne_eq, not_true_eq_false, if_false, Bool.false_eq_true]
  cases show_responses <;>
    simp [__ndm_telnet_ms_to, ndm_telnet_now] <;> split_ifs <;> simp

theorem loop_body_recv_error (M : CodeMacros) (command : List Char) (show_responses : Bool)
    (beg deadline : Int) (r : RecvCall) (script : List RecvCall) (w : World)
    (h_err : r.err ≠ NDM_TELNET_ERR_OK) :
    loop_body M command show_responses beg deadline r script w
      = Step.finish r.err
          { w with
            ticks := w.ticks + 1
            recv_script := script
            calls := w.calls ++ [Call.recv (__ndm_telnet_ms_to deadline w).1 r.err]
            err_out := w.err_out ++ [Diag.recv_failed r.err] } := by
  unfold loop_body after_recv
  simp only [h_err, ne_eq, not_false_eq_true, if_true]
  simp [__ndm_telnet_ms_to, ndm_telnet_now]
  split_ifs <;> simp

theorem loop_body_failed (M : CodeMacros) (command : List Char) (show_responses : Bool)
    (beg deadline : Int) (r : RecvCall) (script : List RecvCall) (w : World)
    (h_err : r.err = NDM_TELNET_ERR_OK) (h_failed : M.failed r.response_code = true) :
    loop_body M command show_responses beg deadline r script w
      = Step.finish NDM_TELNET_ERR_OK
          { w with
            ticks := w.ticks + 1
            recv_script := script
            calls := w.calls
              ++ [Call.recv (__ndm_telnet_ms_to deadline w).1 NDM_TELNET_ERR_OK, Call.doc_free]
            err_out := w.err_out ++ [Diag.exec_failed r.response_code r.response_text] } := by
  unfold loop_body after_recv
  simp only [h_err, h_failed, ne_eq, not_true_eq_false, if_false, if_true]
  simp [__ndm_telnet_ms_to, ndm_telnet_now]
  split_ifs <;> simp

theorem loop_body_null (M : CodeMacros) (command : List Char) (show_responses : Bool)
    (beg deadline : Int) (r : RecvCall) (script : List RecvCall) (w : World)
    (h_err : r.err = NDM_TELNET_ERR_OK) (h_ok : M.failed r.response_code = false)
    (h_doc : r.response = []) :
    loop_body M command show_responses beg deadline r script w = Step.undefined := by
  unfold loop_body after_recv
  simp [h_err, h_ok, h_doc]

theorem extends_loop_cases (M : CodeMacros) (r : RecvCall) (h : extends_loop M r = true) :
    r.err = NDM_TELNET_ERR_OK ∧ M.failed r.response_code = false
      ∧ ∃ root sibs, r.response = root :: sibs
        ∧ (r.continued || decide (root.name = "event".toList)) = true := by
  unfold extends_loop is_event at h
  cases hd : r.response with
  | nil => simp [hd] at h
  | cons root sibs =>
    simp only [hd, Bool.and_eq_true, beq_iff_eq, Bool.not_eq_true', List.isEmpty_cons] at h
    exact ⟨h.1.1.1, h.1.1.2, root, sibs, rfl, h.2⟩

theorem loop_body_extends (M : CodeMacros) (command : List Char) (show_responses : Bool)
    (beg deadline : Int) (r : RecvCall) (script : List RecvCall) (w : World)
    (h : extends_loop M r = true) :
    ∃ w1 ext, loop_body M command show_responses beg deadline r script w = Step.again w1
      ∧ StepFacts 1 script w w1 ext ∧ ext.all (fun c => !io_failed c) = true := by
  obtain ⟨h_err, h_ok, root, sibs, h_doc, h_go⟩ := extends_loop_cases M r h
  rw [loop_body_succeeded M command show_responses beg deadline r script w root sibs h_err h_ok
    h_doc, if_pos h_go]
  exact ⟨_, _, rfl, ⟨rfl, rfl, rfl, rfl, rfl, rfl, rfl⟩, by simp [io_failed, NDM_TELNET_ERR_OK]⟩

theorem ends_loop_cases (M : CodeMacros) (r : RecvCall) (h : ends_loop M r = true) :
    r.err ≠ NDM_TELNET_ERR_OK
      ∨ (r.err = NDM_TELNET_ERR_OK ∧ M.failed r.response_code = true)
      ∨ (r.err = NDM_TELNET_ERR_OK ∧ M.failed r.response_code = false
          ∧ ∃ root sibs, r.response = root :: sibs
            ∧ (r.continued || decide (root.name = "event".toList)) = false) := by
  by_cases h_err : r.err = NDM_TELNET_ERR_OK
  · right
    cases h_f : M.failed r.response_code with
    | true => exact Or.inl ⟨h_err, rfl⟩
    | false =>
      right
      unfold ends_loop is_event at h
      cases hd : r.response with
      | nil => simp [hd, h_err, h_f] at h
      | cons root sibs =>
        refine ⟨h_err, rfl, root, sibs, rfl, ?_⟩
        simp only [hd, h_err, h_f, bne_self_eq_false, Bool.false_or, List.isEmpty_cons,
          Bool.not_false, Bool.true_and, Bool.and_eq_true, Bool.not_eq_true'] at h
        rw [h.1, h.2]; rfl
  · exact Or.inl h_err

theorem loop_body_ends (M : CodeMacros) (command : List Char) (show_responses : Bool)
    (beg deadline : Int) (r : RecvCall) (script : List RecvCall) (w : World)
    (h : ends_loop M r = true) :
    ∃ w1 ext, loop_body M command show_responses beg deadline r script w = Step.finish r.err w1
      ∧ StepFacts 1 script w w1 ext
      ∧ (r.err = NDM_TELNET_ERR_OK → ext.all (fun c => !io_failed c) = true)
      ∧ (r.err ≠ NDM_TELNET_ERR_OK → ∃ ms, ext = [Call.recv ms r.err]) := by
  rcases ends_loop_cases M r h with h_err | ⟨h_err, h_f⟩ | ⟨h_err, h_ok, root, sibs, h_doc, h_go⟩
  · rw [loop_body_recv_error M command show_responses beg deadline r script w h_err]
    exact ⟨_, _, rfl, ⟨rfl, rfl, rfl, rfl, rfl, rfl, rfl⟩, fun e => absurd e h_err,
      fun _ => ⟨_, rfl⟩⟩
  · rw [loop_body_failed M command show_responses beg deadline r script w h_err h_f, h_err]
    exact ⟨_, _, rfl, ⟨rfl, rfl, rfl, rfl, rfl, rfl, rfl⟩,
      fun _ => by simp [io_failed, NDM_TELNET_ERR_OK], fun e => absurd rfl e⟩
  · rw [loop_body_succeeded M command show_responses beg deadline r script w root sibs h_err
      h_ok h_doc, h_go, h_err]
    exact ⟨_, _, rfl, ⟨rfl, rfl, rfl, rfl, rfl, rfl, rfl⟩,
      fun _ => by simp [io_failed, NDM_TELNET_ERR_OK], fun e => absurd rfl e⟩

/-- The loop passes the envelopes that extend it. -/
theorem execute_loop_extends (M : CodeMacros) (command : List Char) (show_responses : Bool)
    (beg deadline : Int) (pre tail : List RecvCall) :
    ∀ (w : World), w.recv_script = pre ++ tail →
      (∀ x ∈ pre, extends_loop M x = true) →
      ∃ w1 ext,
        execute_loop M command show_responses beg deadline (pre ++ tail) w
          = execute_loop M command show_responses beg deadline tail w1
        ∧ StepFacts pre.length tail w w1 ext ∧ ext.all (fun c => !io_failed c) = true := by
  induction pre with
  | nil =>
    intro w hw _
    exact ⟨w, [], rfl, ⟨by simpa using hw, rfl, rfl, rfl, by simp, rfl, rfl⟩, rfl⟩
  | cons r pre ih =>
    intro w _ hall
    obtain ⟨w1, ext1, hstep, hf1, hc1⟩ :=
      loop_body_extends M command show_responses beg deadline r (pre ++ tail) w
        (hall r (List.mem_cons_self _ _))
    obtain ⟨w2, ext2, hrec, hf2, hc2⟩ :=
      ih w1 hf1.1 (fun x hx => hall x (List.mem_cons_of_mem _ hx))
    refine ⟨w2, ext1 ++ ext2, ?_, ?_, ?_⟩
    · show execute_loop M command show_responses beg deadline (r :: (pre ++ tail)) w = _
      rw [execute_loop, hstep]
      exact hrec
    · obtain ⟨a1, a2, a3, a4, a5, a6, a7⟩ := hf1
      obtain ⟨b1, b2, b3, b4, b5, b6, b7⟩ := hf2
      refine ⟨b1, b2.trans a2, b3.trans a3, b4.trans a4, ?_, ?_, ?_⟩
      · rw [b5, a5, List.append_assoc]
      · rw [recv_count_append, a6, b6, List.length_cons]; omega
      · rw [sent_commands_append, a7, b7]; rfl
    · rw [List.all_append, hc1, hc2]; rfl

theorem execute_send_ok (M : CodeMacros) (command : List Char) (timeout : Nat)
    (show_responses : Bool) (w : World) (sends : List ndm_telnet_err_t)
    (h_send : w.send_script = NDM_TELNET_ERR_OK :: sends) :
    __ndm_telnet_execute M command timeout show_responses w
      = execute_loop M command show_responses (w.clock w.ticks)
          (w.clock w.ticks + (timeout : Int)) w.recv_script
          (after_send command timeout NDM_TELNET_ERR_OK sends w) := by
  unfold __ndm_telnet_execute ndm_telnet_send after_send
  simp only [__ndm_telnet_ms_to, ndm_telnet_now]
  split_ifs <;> simp [h_send]

theorem execute_send_failed (M : CodeMacros) (command : List Char) (timeout : Nat)
    (show_responses : Bool) (w : World) (e : ndm_telnet_err_t)
    (sends : List ndm_telnet_err_t) (h_send : w.send_script = e :: sends)
    (h_e : e ≠ NDM_TELNET_ERR_OK) :
    __ndm_telnet_execute M command timeout show_responses w
      = some (e,
          { after_send command timeout e sends w with
            err_out := w.err_out ++ [Diag.send_failed e] }) := by
  unfold __ndm_telnet_execute ndm_telnet_send after_send
  simp only [__ndm_telnet_ms_to, ndm_telnet_now]
  split_ifs <;> simp [h_send, h_e]

/-- The loop run against a script made of envelopes that extend it, followed by
an envelope that ends it. -/
theorem execute_loop_run (M : CodeMacros) (command : List Char) (show_responses : Bool)
    (beg deadline : Int) (pre : List RecvCall) (r : RecvCall) (rest : List RecvCall)
    (w : World) (h_script : w.recv_script = pre ++ r :: rest)
    (h_pre : ∀ x ∈ pre, extends_loop M x = true) (h_r : ends_loop M r = true) :
    ∃ w1 ext,
      execute_loop M command show_responses beg deadline (pre ++ r :: rest) w = some (r.err, w1)
        ∧ StepFacts (pre.length + 1) rest w w1 ext
        ∧ (r.err = NDM_TELNET_ERR_OK → ext.all (fun c => !io_failed c) = true)
        ∧ (r.err ≠ NDM_TELNET_ERR_OK →
            ∃ ext0 ms, ext = ext0 ++ [Call.recv ms r.err]
              ∧ ext0.all (fun c => !io_failed c) = true) := by
  obtain ⟨w1, ext1, hrun, hf1, hc1⟩ :=
    execute_loop_extends M command show_responses beg deadline pre (r :: rest) w h_script h_pre
  obtain ⟨w2, ext2, hstep, hf2, hok, hbad⟩ :=
    loop_body_ends M command show_responses beg deadline r rest w1 h_r
  obtain ⟨a1, a2, a3, a4, a5, a6, a7⟩ := hf1
  obtain ⟨b1, b2, b3, b4, b5, b6, b7⟩ := hf2
  refine ⟨w2, ext1 ++ ext2, ?_, ⟨b1, b2.trans a2, b3.trans a3, b4.trans a4, ?_, ?_, ?_⟩, ?_, ?_⟩
  · rw [hrun, execute_loop, hstep]
  · rw [b5, a5, List.append_assoc]
  · rw [recv_count_append, a6, b6]
  · rw [sent_commands_append, a7, b7]; rfl
  · intro h
    rw [List.all_append, hc1, hok h]; rfl
  · intro h
    obtain ⟨ms, hms⟩ := hbad h
    exact ⟨ext1, ms, by rw [hms], hc1⟩

/-- C1: for every `N`, every command and every timeout: when the send succeeds
and the session then delivers `N` envelopes with a succeeded status, a document
and continuation set, followed by one envelope with a succeeded status,
continuation clear and a document whose root is not named `event`,
`__ndm_telnet_execute` returns `NDM_TELNET_ERR_OK`, has performed exactly
`N + 1` receive calls, and leaves the rest of the receive script unread. -/
theorem execute_continuation_terminates (M : CodeMacros) (N : Nat) (command : List Char)
    (timeout : Nat) (show_responses : Bool) (w : World) (sends : List ndm_telnet_err_t)
    (pre : List RecvCall) (last : RecvCall) (rest : List RecvCall)
    (root : ndm_xml_elem_t) (sibs : List ndm_xml_elem_t)
    (h_send : w.send_script = NDM_TELNET_ERR_OK :: sends)
    (h_script : w.recv_script = pre ++ last :: rest)
    (h_len : pre.length = N)
    (h_pre : ∀ r ∈ pre, r.err = NDM_TELNET_ERR_OK ∧ M.failed r.response_code = false
      ∧ r.continued = true ∧ r.response ≠ [])
    (h_last : last.err = NDM_TELNET_ERR_OK ∧ M.failed last.response_code = false
      ∧ last.continued = false ∧ last.response = root :: sibs
      ∧ root.name ≠ "event".toList) :
    (__ndm_telnet_execute M command timeout show_responses w).map Prod.fst
        = some NDM_TELNET_ERR_OK
      ∧ (__ndm_telnet_execute M command timeout show_responses w).map
          (fun res => recv_count res.2.calls) = some (recv_count w.calls + (N + 1))
      ∧ (__ndm_telnet_execute M command timeout show_responses w).map
          (fun res => res.2.recv_script) = some rest := by
  have h_pre1 : ∀ x ∈ pre, extends_loop M x = true := by
    intro x hx
    obtain ⟨h1, h2, h3, h4⟩ := h_pre x hx
    unfold extends_loop
    cases hd : x.response with
    | nil => exact absurd hd h4
    | cons a b => simp [h1, h2, h3]
  have h_last1 : ends_loop M last = true := by
    obtain ⟨h1, h2, h3, h4, h5⟩ := h_last
    unfold ends_loop is_event
    simp only [h1, h2, h3, h4, decide_eq_false h5]
    rfl
  rw [execute_send_ok M command timeout show_responses w sends h_send, h_script]
  obtain ⟨w1, ext, hrun, ⟨a1, a2, a3, a4, a5, a6, a7⟩, _, _⟩ :=
    execute_loop_run M command show_responses (w.clock w.ticks)
      (w.clock w.ticks + (timeout : Int)) pre last rest
      (after_send command timeout NDM_TELNET_ERR_OK sends w) h_script h_pre1 h_last1
  rw [hrun]
  refine ⟨by simp [h_last.1], ?_, by simp [a1]⟩
  simp only [Option.map_some', a5, recv_count_append, a6, h_len, after_send]
  simp [recv_count]

/-- C1, instance: one continued envelope, then the final one: two receives. -/
theorem execute_continuation_terminates_witness :
    (__ndm_telnet_execute sampleMacros "show log".toList 500 false
        (sampleWorld [NDM_TELNET_ERR_OK]
          [sampleEnvelope true 0 sampleDoc, sampleEnvelope false 0 sampleDoc])).map Prod.fst
        = some NDM_TELNET_ERR_OK
      ∧ (__ndm_telnet_execute sampleMacros "show log".toList 500 false
          (sampleWorld [NDM_TELNET_ERR_OK]
            [sampleEnvelope true 0 sampleDoc, sampleEnvelope false 0 sampleDoc])).map
          (fun res => recv_count res.2.calls)
        = some (recv_count (sampleWorld [NDM_TELNET_ERR_OK]
            [sampleEnvelope true 0 sampleDoc, sampleEnvelope false 0 sampleDoc]).calls + (1 + 1))
      ∧ (__ndm_telnet_execute sampleMacros "show log".toList 500 false
          (sampleWorld [NDM_TELNET_ERR_OK]
            [sampleEnvelope true 0 sampleDoc, sampleEnvelope false 0 sampleDoc])).map
          (fun res => res.2.recv_script) = some [] :=
  execute_continuation_terminates sampleMacros 1 "show log".toList 500 false
    (sampleWorld [NDM_TELNET_ERR_OK]
      [sampleEnvelope true 0 sampleDoc, sampleEnvelope false 0 sampleDoc])
    [] [sampleEnvelope true 0 sampleDoc] (sampleEnvelope false 0 sampleDoc) []
    sampleDoc [] rfl rfl rfl
    (by
      intro r hr
      rw [List.mem_singleton] at hr
      subst hr
      exact ⟨rfl, rfl, rfl, by simp [sampleEnvelope]⟩)
    ⟨rfl, rfl, rfl, rfl, by decide⟩

/-- C2: after an envelope received without error, with a succeeded status and a
document, the loop of `__ndm_telnet_execute` performs another receive if and
only if the continuation flag is set or the root element is named `event`; it
ends with success if and only if the flag is clear and the root is not named
`event`; an event extends the loop whatever the value of its continuation
flag; and whenever an iteration ends the loop, the envelope had a receive
error, a failed status, or a clear continuation flag and no event. -/
theorem loop_repeats_iff_continued_or_event (M : CodeMacros) (command : List Char)
    (show_responses : Bool) (beg deadline : Int) (r : RecvCall) (script : List RecvCall)
    (w : World) (root : ndm_xml_elem_t) (sibs : List ndm_xml_elem_t)
    (h_err : r.err = NDM_TELNET_ERR_OK) (h_ok : M.failed r.response_code = false)
    (h_doc : r.response = root :: sibs) :
    ((∃ w1, loop_body M command show_responses beg deadline r script w = Step.again w1
            ∧ execute_loop M command show_responses beg deadline (r :: script) w
                = execute_loop M command show_responses beg deadline script w1)
        ↔ (r.continued = true ∨ root.name = "event".toList))
      ∧ ((∃ w1, loop_body M command show_responses beg deadline r script w
                = Step.finish NDM_TELNET_ERR_OK w1
            ∧ execute_loop M command show_responses beg deadline (r :: script) w
                = some (NDM_TELNET_ERR_OK, w1))
        ↔ (r.continued = false ∧ root.name ≠ "event".toList))
      ∧ (root.name = "event".toList →
          ∀ flag : Bool, ∃ w1,
            loop_body M command show_responses beg deadline { r with continued := flag }
              script w = Step.again w1)
      ∧ (∀ (r1 : RecvCall) (script1 : List RecvCall) (w0 w1 : World) (e : ndm_telnet_err_t),
          loop_body M command show_responses beg deadline r1 script1 w0 = Step.finish e w1 →
            r1.err ≠ NDM_TELNET_ERR_OK ∨ M.failed r1.response_code = true
              ∨ (r1.continued = false ∧ is_event r1 = false)) := by
  have hstep := loop_body_succeeded M command show_responses beg deadline r script w root sibs
    h_err h_ok h_doc
  refine ⟨?_, ?_, ?_, ?_⟩
  · constructor
    · rintro ⟨w1, h1, _⟩
      rw [hstep] at h1
      by_cases hc : (r.continued || decide (root.name = "event".toList)) = true
      · simpa using hc
      · rw [if_neg hc] at h1
        exact Step.noConfusion h1
    · intro h
      have hc : (r.continued || decide (root.name = "event".toList)) = true := by
        simpa using h
      rw [if_pos hc] at hstep
      exact ⟨_, hstep, by rw [execute_loop, hstep]⟩
  · constructor
    · rintro ⟨w1, h1, _⟩
      rw [hstep] at h1
      by_cases hc : (r.continued || decide (root.name = "event".toList)) = true
      · rw [if_pos hc] at h1
        exact Step.noConfusion h1
      · simpa using hc
    · intro h
      have hc : ¬ (r.continued || decide (root.name = "event".toList)) = true := by
        simpa using h
      rw [if_neg hc] at hstep
      exact ⟨_, hstep, by rw [execute_loop, hstep]⟩
  · intro h_name flag
    have h2 := loop_body_succeeded M command show_responses beg deadline
      { r with continued := flag } script w root sibs h_err h_ok h_doc
    have hc : (flag || decide (root.name = "event".toList)) = true := by
      simp [h_name]
    rw [if_pos hc] at h2
    exact ⟨_, h2⟩
  · intro r1 script1 w0 w1 e h1
    by_cases g_err : r1.err = NDM_TELNET_ERR_OK
    · right
      cases g_f : M.failed r1.response_code with
      | true => exact Or.inl rfl
      | false =>
        right
        cases g_doc : r1.response with
        | nil =>
          rw [loop_body_null M command show_responses beg deadline r1 script1 w0 g_err g_f
            g_doc] at h1
          exact Step.noConfusion h1
        | cons root1 sibs1 =>
          rw [loop_body_succeeded M command show_responses beg deadline r1 script1 w0 root1
            sibs1 g_err g_f g_doc] at h1
          by_cases hc : (r1.continued || decide (root1.name = "event".toList)) = true
          · rw [if_pos hc] at h1
            exact Step.noConfusion h1
          · unfold is_event
            rw [g_doc]
            simpa using hc
    · exact Or.inl g_err

/-- C2, instance: an event with the continuation flag clear. -/
theorem loop_repeats_iff_continued_or_event_witness :
    ((∃ w1, loop_body sampleMacros "user".toList false 1000 1500
              (sampleEnvelope false 0 sampleEvent) [] (sampleWorld [] []) = Step.again w1
            ∧ execute_loop sampleMacros "user".toList false 1000 1500
                (sampleEnvelope false 0 sampleEvent :: []) (sampleWorld [] [])
                = execute_loop sampleMacros "user".toList false 1000 1500 [] w1)
        ↔ ((sampleEnvelope false 0 sampleEvent).continued = true
            ∨ sampleEvent.name = "event".toList))
      ∧ sampleEvent.name = "event".toList :=
  ⟨(loop_repeats_iff_continued_or_event sampleMacros "user".toList false 1000 1500
      (sampleEnvelope false 0 sampleEvent) [] (sampleWorld [] []) sampleEvent [] rfl rfl rfl).1,
    rfl⟩

/-! ## The status line -/

theorem hex_digits_length (upper : Bool) (k c : Nat) : (hex_digits upper k c).length = k := by
  induction k generalizing c with
  | zero => rfl
  | succ k ih => simp [hex_digits, ih]

theorem hex_digit_is_hex (upper : Bool) (d : Nat) (h : d < 16) :
    is_hex_digit (hex_digit upper d) = true ∧ hex_digit_value (hex_digit upper d) = d := by
  interval_cases d <;> cases upper <;> decide

theorem hex_digits_all (upper : Bool) (k c : Nat) :
    (hex_digits upper k c).all is_hex_digit = true := by
  induction k generalizing c with
  | zero => rfl
  | succ k ih =>
    simp only [hex_digits, List.all_append, ih, Bool.true_and, List.all_cons, List.all_nil,
      Bool.and_true]
    exact (hex_digit_is_hex upper (c % 16) (Nat.mod_lt _ (by decide))).1

theorem hex_value_digits (upper : Bool) (k c : Nat) :
    hex_value (hex_digits upper k c) = c % 16 ^ k := by
  induction k generalizing c with
  | zero => simp [hex_digits, hex_value, Nat.mod_one]
  | succ k ih =>
    have h1 := ih (c / 16)
    unfold hex_value at h1 ⊢
    simp only [hex_digits, List.foldl_append, List.foldl_cons, List.foldl_nil, h1,
      (hex_digit_is_hex upper (c % 16) (Nat.mod_lt _ (by decide))).2]
    rw [Nat.pow_succ', Nat.mod_mul]
    omega

theorem printf_03i_length (v : Int) : 3 ≤ (printf_03i v).length := by
  unfold printf_03i
  split_ifs
  · simp only [List.length_cons, List.leftpad_length]
    omega
  · simp only [List.leftpad_length]
    omega

/-- The text of the `printf` call of the loop is the status line of the
specification and the line breaks. -/
theorem status_printf_eq_spec (M : CodeMacros) (command : List Char) (r : RecvCall)
    (root : ndm_xml_elem_t) (sibs : List ndm_xml_elem_t) (duration : Int)
    (show_responses : Bool) (h_doc : r.response = root :: sibs) :
    status_printf M r.response_code duration command r.continued
        (decide (root.name = "event".toList)) show_responses
      = status_line_spec M command r duration
          ++ (if show_responses then "\n".toList else []) ++ "\n".toList := by
  have he : is_event r = decide (root.name = "event".toList) := by
    unfold is_event
    rw [h_doc]
  unfold status_printf status_line_spec status_suffix
  rw [he]

theorem execute_output_spec_append (M : CodeMacros) (command : List Char)
    (show_responses : Bool) (beg : Int) (clock : Nat → Int) (xs ys : List RecvCall) :
    ∀ (tick : Nat),
      execute_output_spec M command show_responses beg clock tick (xs ++ ys)
        = execute_output_spec M command show_responses beg clock tick xs
          ++ execute_output_spec M command show_responses beg clock (tick + 2 * xs.length) ys := by
  induction xs with
  | nil => intro tick; simp [execute_output_spec]
  | cons x xs ih =>
    intro tick
    have h : tick + 2 + 2 * xs.length = tick + 2 * (xs.length + 1) := by omega
    show execute_output_spec M command show_responses beg clock tick (x :: (xs ++ ys)) = _
    rw [execute_output_spec, ih, execute_output_spec, List.length_cons, h]
    simp only [List.append_assoc]

/-- The output of an iteration of the loop on an envelope that extends it. -/
theorem loop_body_output (M : CodeMacros) (command : List Char) (show_responses : Bool)
    (beg deadline : Int) (r : RecvCall) (script : List RecvCall) (w : World)
    (h : extends_loop M r = true) :
    ∃ w1, loop_body M command show_responses beg deadline r script w = Step.again w1
      ∧ w1.clock = w.clock ∧ w1.ticks = w.ticks + 2
      ∧ recv_count w1.calls = recv_count w.calls + 1
      ∧ w1.out = w.out
          ++ ((if show_responses then __ndm_telnet_dump_result 0 r.response else [])
            ++ status_line_spec M command r (w.clock (w.ticks + 1) - beg)
            ++ (if show_responses then "\n".toList else []) ++ "\n".toList) := by
  obtain ⟨h_err, h_ok, root, sibs, h_doc, h_go⟩ := extends_loop_cases M r h
  rw [loop_body_succeeded M command show_responses beg deadline r script w root sibs h_err h_ok
    h_doc, if_pos h_go]
  refine ⟨_, rfl, rfl, rfl, ?_, ?_⟩
  · simp [recv_count_append, recv_count]
  · simp only [status_printf_eq_spec M command r root sibs _ show_responses h_doc,
      List.append_assoc]

/-- The output of the loop for the envelopes that extend it. -/
theorem execute_loop_output (M : CodeMacros) (command : List Char) (show_responses : Bool)
    (beg deadline : Int) (pre tail : List RecvCall) :
    ∀ (w : World), (∀ x ∈ pre, extends_loop M x = true) →
      ∃ w1,
        execute_loop M command show_responses beg deadline (pre ++ tail) w
          = execute_loop M command show_responses beg deadline tail w1
        ∧ w1.clock = w.clock ∧ w1.ticks = w.ticks + 2 * pre.length
        ∧ recv_count w1.calls = recv_count w.calls + pre.length
        ∧ w1.out = w.out
            ++ execute_output_spec M command show_responses beg w.clock w.ticks pre := by
  induction pre with
  | nil =>
    intro w _
    exact ⟨w, rfl, rfl, rfl, rfl, by simp [execute_output_spec]⟩
  | cons r pre ih =>
    intro w hall
    obtain ⟨w1, hstep, hc1, ht1, hn1, ho1⟩ :=
      loop_body_output M command show_responses beg deadline r (pre ++ tail) w
        (hall r (List.mem_cons_self _ _))
    obtain ⟨w2, hrec, hc, ht, hn, ho⟩ := ih w1 (fun x hx => hall x (List.mem_cons_of_mem _ hx))
    refine ⟨w2, ?_, hc.trans hc1, ?_, ?_, ?_⟩
    · show execute_loop M command show_responses beg deadline (r :: (pre ++ tail)) w = _
      rw [execute_loop, hstep]
      exact hrec
    · rw [ht, ht1, List.length_cons]
      omega
    · rw [hn, hn1, List.length_cons]
      omega
    · rw [ho, ho1, hc1, ht1, execute_output_spec]
      simp only [List.append_assoc]

/-- The output of `__ndm_telnet_execute` for a script of envelopes that extend
the loop and one that ends it. -/
theorem execute_output (M : CodeMacros) (command : List Char) (timeout : Nat)
    (show_responses : Bool) (w : World) (sends : List ndm_telnet_err_t)
    (pre : List RecvCall) (r : RecvCall) (rest : List RecvCall)
    (h_send : w.send_script = NDM_TELNET_ERR_OK :: sends)
    (h_script : w.recv_script = pre ++ r :: rest)
    (h_pre : ∀ x ∈ pre, extends_loop M x = true) (h_r : ends_loop M r = true) :
    ∃ w1, __ndm_telnet_execute M command timeout show_responses w = some (r.err, w1)
      ∧ recv_count w1.calls = recv_count w.calls + (pre.length + 1)
      ∧ w1.out = w.out
          ++ execute_output_spec M command show_responses (w.clock w.ticks) w.clock
              (w.ticks + 2)
              (pre ++ (if r.err = NDM_TELNET_ERR_OK ∧ M.failed r.response_code = false
                        then [r] else [])) := by
  rw [execute_send_ok M command timeout show_responses w sends h_send, h_script]
  obtain ⟨w1, hrun, hc, ht, hn, ho⟩ :=
    execute_loop_output M command show_responses (w.clock w.ticks)
      (w.clock w.ticks + (timeout : Int)) pre (r :: rest)
      (after_send command timeout NDM_TELNET_ERR_OK sends w) h_pre
  have hn1 : recv_count w1.calls = recv_count w.calls + pre.length := by
    rw [hn]
    simp [after_send, recv_count_append, recv_count]
  have ho1 : w1.out = w.out
      ++ execute_output_spec M command show_responses (w.clock w.ticks) w.clock
          (w.ticks + 2) pre := ho
  have ht1 : w1.ticks = w.ticks + 2 + 2 * pre.length := ht
  have hc1 : w1.clock = w.clock := hc
  rw [hrun, execute_loop, execute_output_spec_append]
  rcases ends_loop_cases M r h_r with h_err | ⟨h_err, h_f⟩ | ⟨h_err, h_ok, root, sibs, h_doc, h_go⟩
  · rw [loop_body_recv_error M command show_responses _ _ r rest w1 h_err]
    refine ⟨_, rfl, ?_, ?_⟩
    · simp only [recv_count_append, recv_count, hn1]
      omega
    · simp only [h_err, false_and, if_false, execute_output_spec, List.append_nil]
      exact ho1
  · rw [loop_body_failed M command show_responses _ _ r rest w1 h_err h_f, h_err]
    refine ⟨_, rfl, ?_, ?_⟩
    · simp only [recv_count_append, recv_count, hn1]
      omega
    · simp only [h_f, Bool.true_eq_false, and_false, if_false, execute_output_spec,
        List.append_nil]
      exact ho1
  · rw [loop_body_succeeded M command show_responses _ _ r rest w1 root sibs h_err h_ok h_doc,
      h_go, h_err]
    refine ⟨_, rfl, ?_, ?_⟩
    · simp only [recv_count_append, recv_count, hn1]
      omega
    · simp only [h_err, h_ok, and_self, if_true, execute_output_spec, List.append_nil,
        status_printf_eq_spec M command r root sibs _ show_responses h_doc, ho1, ht1, hc1,
        List.append_assoc, Bool.false_eq_true, if_false]

/-- C9: when the send succeeds and the session then delivers envelopes that
extend the loop followed by one that ends it, `__ndm_telnet_execute` returns,
has received each of them, and has written to the standard output, after what
was there, for every envelope among them that was received without error and
with a succeeded status, in the order of reception, and for no other (after
the rendered document when responses are shown), one status line: the severity letter of
`__ndm_telnet_result_type`, a space, the status code in brackets as eight
hexadecimal digits, the quotient and the remainder by 1000 of the milliseconds
elapsed since the reading of the clock at the entry of the call, each padded
with zeros to at least three characters, between square brackets and separated
by a dot, the command text unchanged, and the suffix ` (continued)` when the
continuation flag is set, else ` (event)` when the root is named `event`, else
nothing; a line break ends the line (two when responses are shown). -/
theorem status_line_format (M : CodeMacros) (command : List Char) (timeout : Nat)
    (show_responses : Bool) (w : World) (sends : List ndm_telnet_err_t)
    (pre : List RecvCall) (r : RecvCall) (rest : List RecvCall)
    (h_send : w.send_script = NDM_TELNET_ERR_OK :: sends)
    (h_script : w.recv_script = pre ++ r :: rest)
    (h_pre : ∀ x ∈ pre, extends_loop M x = true) (h_r : ends_loop M r = true) :
    (__ndm_telnet_execute M command timeout show_responses w).map Prod.fst = some r.err
      ∧ (__ndm_telnet_execute M command timeout show_responses w).map
            (fun res => recv_count res.2.calls)
          = some (recv_count w.calls + (pre.length + 1))
      ∧ (__ndm_telnet_execute M command timeout show_responses w).map (fun res => res.2.out)
          = some (w.out
              ++ execute_output_spec M command show_responses (w.clock w.ticks) w.clock
                  (w.ticks + 2)
                  ((pre ++ [r]).filter
                    (fun x => x.err == NDM_TELNET_ERR_OK && !M.failed x.response_code)))
      ∧ (∀ (x : RecvCall) (xs : List RecvCall) (tick : Nat),
          execute_output_spec M command show_responses (w.clock w.ticks) w.clock tick (x :: xs)
            = (if show_responses then __ndm_telnet_dump_result 0 x.response else [])
              ++ [__ndm_telnet_result_type M x.response_code] ++ " (".toList
              ++ printf_08x M.upperHex x.response_code ++ ") [".toList
              ++ printf_03i (Int.tdiv (w.clock (tick + 1) - w.clock w.ticks) 1000)
              ++ ".".toList
              ++ printf_03i (Int.tmod (w.clock (tick + 1) - w.clock w.ticks) 1000)
              ++ "] ".toList ++ command
              ++ (if x.continued then " (continued)".toList
                  else if x.response.head?.map ndm_xml_elem_t.name = some "event".toList
                    then " (event)".toList else [])
              ++ (if show_responses then "\n".toList else []) ++ "\n".toList
              ++ execute_output_spec M command show_responses (w.clock w.ticks) w.clock
                  (tick + 2) xs)
      ∧ (∀ (code : Nat), (printf_08x M.upperHex code).length = 8
          ∧ (printf_08x M.upperHex code).all is_hex_digit = true
          ∧ hex_value (printf_08x M.upperHex code) = code % 2 ^ 32)
      ∧ (∀ (v : Int), 3 ≤ (printf_03i v).length) := by
  obtain ⟨w1, he, hn, ho⟩ :=
    execute_output M command timeout show_responses w sends pre r rest h_send h_script h_pre h_r
  have hfil : (pre ++ [r]).filter
        (fun x => x.err == NDM_TELNET_ERR_OK && !M.failed x.response_code)
      = pre ++ (if r.err = NDM_TELNET_ERR_OK ∧ M.failed r.response_code = false
                  then [r] else []) := by
    rw [List.filter_append]
    congr 1
    · rw [List.filter_eq_self]
      intro x hx
      obtain ⟨h1, h2, _⟩ := extends_loop_cases M x (h_pre x hx)
      simp [h1, h2]
    · by_cases h1 : r.err = NDM_TELNET_ERR_OK
      · cases h2 : M.failed r.response_code <;> simp [List.filter, h1, h2]
      · have h3 : (r.err == NDM_TELNET_ERR_OK) = false := beq_eq_false_iff_ne.2 h1
        simp [List.filter, h1, h3]
  refine ⟨by rw [he]; rfl, by rw [he, ← hn]; rfl, by rw [he, hfil, ← ho]; rfl, ?_, ?_,
    printf_03i_length⟩
  · intro x xs tick
    have hev : (is_event x = true)
        ↔ x.response.head?.map ndm_xml_elem_t.name = some "event".toList := by
      unfold is_event
      cases x.response with
      | nil => simp
      | cons root sibs => simp
    simp only [execute_output_spec, status_line_spec, List.append_assoc, hev]
  · intro code
    refine ⟨hex_digits_length _ 8 _, hex_digits_all _ 8 _, ?_⟩
    unfold printf_08x
    rw [hex_value_digits]
    norm_num

/-- C9, instance: the command `show log` answered by a continued envelope and
a final one, received 21 and 35 milliseconds after the start of the call: two
receives, two status lines. -/
theorem status_line_format_witness :
    (__ndm_telnet_execute sampleMacros "show log".toList 500 false
        (sampleWorld [NDM_TELNET_ERR_OK]
          [sampleEnvelope true 0 sampleDoc, sampleEnvelope false 0 sampleDoc])).map
        (fun res => (recv_count res.2.calls, res.2.out))
      = some (2, ("I (00000000) [000.021] show log (continued)\n"
                ++ "I (00000000) [000.035] show log\n").toList) :=
  have h := status_line_format sampleMacros "show log".toList 500 false
    (sampleWorld [NDM_TELNET_ERR_OK]
      [sampleEnvelope true 0 sampleDoc, sampleEnvelope false 0 sampleDoc]) []
    [sampleEnvelope true 0 sampleDoc] (sampleEnvelope false 0 sampleDoc) [] rfl rfl
    (by decide) (by decide)
  by
    have h2 := h.2.1
    have h3 := h.2.2.1
    revert h2 h3
    cases __ndm_telnet_execute sampleMacros "show log".toList 500 false
        (sampleWorld [NDM_TELNET_ERR_OK]
          [sampleEnvelope true 0 sampleDoc, sampleEnvelope false 0 sampleDoc]) with
    | none => intro h2 _; simp at h2
    | some res =>
      intro h2 h3
      simp only [Option.map_some', Option.some.injEq] at h2 h3 ⊢
      rw [Prod.mk.injEq]
      exact ⟨h2.trans (by decide), h3.trans (by decide)⟩

/-! ## The end-to-end scenario -/

/-- C10, counterexample: the rendering of `<system><name>Router</name></system>`
has three lines, not two. -/
theorem rendered_document_has_three_lines :
    __ndm_telnet_dump_result 0 [sampleDoc]
        = "<system>\n    <name>Router</name>\n</system>\n".toList
      ∧ (__ndm_telnet_dump_result 0 [sampleDoc]).count '\n' = 3
      ∧ ¬ (__ndm_telnet_dump_result 0 [sampleDoc]).count '\n' = 2 := by
  decide

/-- C10, as amended: `__ndm_telnet_execute` with the command `show system`, the
timeout 500 and responses shown, against a session that accepts the send and
replies once with the status 0 (succeeded, no warning), continuation clear and
the document `<system><name>Router</name></system>`, writes the rendered
document, which has three lines, then the status line `I (00000000) [`, the
elapsed time, `] show system` with no suffix, and a blank line; it performs
exactly one receive and returns success. -/
theorem execute_show_system (M : CodeMacros) (w : World) (sends : List ndm_telnet_err_t)
    (rest : List RecvCall) (text : List Char)
    (h_send : w.send_script = NDM_TELNET_ERR_OK :: sends)
    (h_recv : w.recv_script
      = { err := NDM_TELNET_ERR_OK, continued := false, response_code := 0,
          response_text := text, response := [sampleDoc] } :: rest)
    (h_ok : M.failed 0 = false) (h_warning : M.warning 0 = false) :
    (__ndm_telnet_execute M "show system".toList 500 true w).map Prod.fst
        = some NDM_TELNET_ERR_OK
      ∧ (__ndm_telnet_execute M "show system".toList 500 true w).map
          (fun res => recv_count res.2.calls) = some (recv_count w.calls + 1)
      ∧ (__ndm_telnet_execute M "show system".toList 500 true w).map (fun res => res.2.out)
        = some (w.out ++ "<system>\n    <name>Router</name>\n</system>\n".toList
            ++ "I (00000000) [".toList
            ++ printf_03i (Int.tdiv (w.clock (w.ticks + 3) - w.clock w.ticks) 1000)
            ++ ".".toList
            ++ printf_03i (Int.tmod (w.clock (w.ticks + 3) - w.clock w.ticks) 1000)
            ++ "] show system".toList ++ "\n\n".toList) := by
  rw [execute_send_ok M _ 500 true w sends h_send, h_recv, execute_loop,
    loop_body_succeeded M _ true _ _ _ rest _ sampleDoc [] rfl h_ok rfl]
  have h_name : decide (sampleDoc.name = "event".toList) = false := by decide
  have h_type : __ndm_telnet_result_type M 0 = 'I' := by
    simp [__ndm_telnet_result_type, NDM_SUCCEEDED, h_ok, h_warning]
  have h_hex : printf_08x M.upperHex 0 = "00000000".toList := by
    cases M.upperHex <;> decide
  have h_doc : __ndm_telnet_dump_result 0 [sampleDoc]
      = "<system>\n    <name>Router</name>\n</system>\n".toList := by decide
  simp only [h_name, Bool.or_self, Bool.false_eq_true, if_false, if_true, Option.map_some',
    after_send, recv_count_append, status_printf, status_suffix, h_type, h_hex, h_doc]
  refine ⟨trivial, by simp [recv_count], ?_⟩
  simp [Nat.add_assoc]

/-- C10, instance: the scenario with the sample clock, seven milliseconds a
reading. -/
theorem execute_show_system_witness :
    (__ndm_telnet_execute sampleMacros "show system".toList 500 true
        (sampleWorld [NDM_TELNET_ERR_OK] [sampleEnvelope false 0 sampleDoc])).map Prod.fst
        = some NDM_TELNET_ERR_OK
      ∧ (__ndm_telnet_execute sampleMacros "show system".toList 500 true
          (sampleWorld [NDM_TELNET_ERR_OK] [sampleEnvelope false 0 sampleDoc])).map
          (fun res => recv_count res.2.calls) = some 1
      ∧ (__ndm_telnet_execute sampleMacros "show system".toList 500 true
          (sampleWorld [NDM_TELNET_ERR_OK] [sampleEnvelope false 0 sampleDoc])).map
          (fun res => res.2.out)
        = some ("<system>\n    <name>Router</name>\n</system>\n"
            ++ "I (00000000) [000.021] show system\n\n").toList :=
  have h := execute_show_system sampleMacros
    (sampleWorld [NDM_TELNET_ERR_OK] [sampleEnvelope false 0 sampleDoc]) [] [] [] rfl rfl rfl rfl
  ⟨h.1, h.2.1.trans (by decide), h.2.2.trans (by decide)⟩

/-! ## Fatal and recoverable outcomes -/

theorem loop_trichotomy (M : CodeMacros) (r : RecvCall) (h1 : extends_loop M r = false)
    (h2 : ends_loop M r = false) :
    r.err = NDM_TELNET_ERR_OK ∧ M.failed r.response_code = false ∧ r.response = [] := by
  unfold extends_loop at h1
  unfold ends_loop at h2
  simp only [Bool.or_eq_false_iff, bne_eq_false_iff_eq, Bool.and_eq_false_iff,
    Bool.not_eq_false'] at h2
  obtain ⟨⟨h_err, h_f⟩, h3⟩ := h2
  refine ⟨h_err, h_f, ?_⟩
  cases hd : r.response with
  | nil => rfl
  | cons a b =>
    exfalso
    simp only [hd, h_err, h_f, beq_self_eq_true, Bool.not_false, Bool.and_self,
      List.isEmpty_cons, Bool.true_and, Bool.or_eq_false_iff, Bool.false_eq_true, false_or,
      Bool.not_eq_true'] at h1 h3
    rcases h3 with h3 | h3
    · rw [h3] at h1; simp at h1
    · simp_all

/-- A loop that returns has passed envelopes that extend it and then met one
that ends it. -/
theorem execute_loop_inv (M : CodeMacros) (command : List Char) (show_responses : Bool)
    (beg deadline : Int) (script : List RecvCall) :
    ∀ (w : World) (e : ndm_telnet_err_t) (w1 : World),
      execute_loop M command show_responses beg deadline script w = some (e, w1) →
      ∃ pre r rest, script = pre ++ r :: rest ∧ (∀ x ∈ pre, extends_loop M x = true)
        ∧ ends_loop M r = true := by
  induction script with
  | nil =>
    intro w e w1 h
    simp [execute_loop] at h
  | cons r script ih =>
    intro w e w1 h
    cases h_ext : extends_loop M r with
    | true =>
      obtain ⟨w2, ext, hstep, _, _⟩ :=
        loop_body_extends M command show_responses beg deadline r script w h_ext
      rw [execute_loop, hstep] at h
      obtain ⟨pre, r1, rest, hs, hpre, hr1⟩ := ih w2 e w1 h
      refine ⟨r :: pre, r1, rest, by rw [hs]; rfl, ?_, hr1⟩
      intro x hx
      rcases List.mem_cons.mp hx with hx | hx
      · rw [hx]; exact h_ext
      · exact hpre x hx
    | false =>
      cases h_end : ends_loop M r with
      | true => exact ⟨[], r, script, rfl, fun x hx => absurd hx (List.not_mem_nil x), h_end⟩
      | false =>
        obtain ⟨g_err, g_f, g_doc⟩ := loop_trichotomy M r h_ext h_end
        rw [execute_loop,
          loop_body_null M command show_responses beg deadline r script w g_err g_f g_doc] at h
        simp at h

/-- What a call of `__ndm_telnet_execute` that returns has done: one send, then,
when the send succeeded, receives of envelopes that extend the loop and of one
that ends it. -/
theorem execute_inv (M : CodeMacros) (command : List Char) (timeout : Nat)
    (show_responses : Bool) (w : World) (e : ndm_telnet_err_t) (w1 : World)
    (h : __ndm_telnet_execute M command timeout show_responses w = some (e, w1)) :
    ∃ s sends consumed rest ext,
      w.send_script = s :: sends ∧ w.recv_script = consumed ++ rest
        ∧ w1.recv_script = rest ∧ w1.send_script = sends
        ∧ w1.calls = w.calls ++ ext ∧ recv_count ext = consumed.length
        ∧ sent_commands ext = [command]
        ∧ (s ≠ NDM_TELNET_ERR_OK → e = s ∧ consumed = [])
        ∧ (s = NDM_TELNET_ERR_OK →
            ∃ pre r, consumed = pre ++ [r] ∧ (∀ x ∈ pre, extends_loop M x = true)
              ∧ ends_loop M r = true ∧ e = r.err)
        ∧ (e = NDM_TELNET_ERR_OK → all_ok ext = true)
        ∧ (e ≠ NDM_TELNET_ERR_OK →
            ∃ ext0 c, ext = ext0 ++ [c] ∧ all_ok ext0 = true ∧ io_failed c = true) := by
  cases h_s : w.send_script with
  | nil =>
    exfalso
    revert h
    unfold __ndm_telnet_execute ndm_telnet_send
    simp only [__ndm_telnet_ms_to, ndm_telnet_now]
    split_ifs <;> simp [h_s]
  | cons s sends =>
    by_cases h_ok : s = NDM_TELNET_ERR_OK
    · subst h_ok
      rw [execute_send_ok M command timeout show_responses w sends h_s] at h
      obtain ⟨pre, r, rest, h_script, h_pre, h_r⟩ :=
        execute_loop_inv M command show_responses _ _ _ _ e w1 h
      obtain ⟨w2, ext, h_run, ⟨a1, a2, a3, a4, a5, a6, a7⟩, h_good, h_bad⟩ :=
        execute_loop_run M command show_responses (w.clock w.ticks)
          (w.clock w.ticks + (timeout : Int)) pre r rest
          (after_send command timeout NDM_TELNET_ERR_OK sends w) h_script h_pre h_r
      rw [h_script, h_run] at h
      simp only [Option.some.injEq, Prod.mk.injEq] at h
      obtain ⟨he, hw⟩ := h
      subst hw
      refine ⟨NDM_TELNET_ERR_OK, sends, pre ++ [r], rest,
        Call.send command
          (__ndm_telnet_ms_to (w.clock w.ticks + (timeout : Int)) (ndm_telnet_now w).2).1
          NDM_TELNET_ERR_OK :: ext, rfl, ?_, a1, ?_, ?_, ?_, ?_, ?_, ?_, ?_, ?_⟩
      · rw [h_script]; simp
      · rw [a2]; rfl
      · rw [a5]; simp [after_send]
      · simp [recv_count, a6]
      · simp [sent_commands, a7]
      · intro hne; exact absurd rfl hne
      · intro _; exact ⟨pre, r, rfl, h_pre, h_r, he.symm⟩
      · intro h_e
        have := h_good (he.trans h_e)
        simpa [all_ok, io_failed, NDM_TELNET_ERR_OK] using this
      · intro h_e
        obtain ⟨ext0, ms, h1, h2⟩ := h_bad (fun hh => h_e (he.symm.trans hh))
        refine ⟨Call.send command
          (__ndm_telnet_ms_to (w.clock w.ticks + (timeout : Int)) (ndm_telnet_now w).2).1
          NDM_TELNET_ERR_OK :: ext0, Call.recv ms r.err, by rw [h1]; rfl, ?_, ?_⟩
        · simpa [all_ok, io_failed, NDM_TELNET_ERR_OK] using h2
        · simpa [io_failed] using fun hh => h_e (he.symm.trans hh)
    · rw [execute_send_failed M command timeout show_responses w s sends h_s h_ok] at h
      simp only [Option.some.injEq, Prod.mk.injEq] at h
      obtain ⟨he, hw⟩ := h
      subst hw
      subst he
      refine ⟨s, sends, [], w.recv_script, _, rfl, rfl, rfl, rfl, rfl, rfl, rfl, ?_, ?_, ?_, ?_⟩
      · intro _; exact ⟨rfl, rfl⟩
      · intro hh; exact absurd hh h_ok
      · intro hh; exact absurd hh h_ok
      · intro _
        exact ⟨[], _, rfl, rfl, by simpa [io_failed] using h_ok⟩

theorem all_ok_append (xs ys : List Call) : all_ok (xs ++ ys) = (all_ok xs && all_ok ys) := by
  simp [all_ok, List.all_append]

theorem no_io_after_failure_append (xs ys : List Call) (h : all_ok xs = true) :
    no_io_after_failure (xs ++ ys) = no_io_after_failure ys := by
  induction xs with
  | nil => rfl
  | cons c cs ih =>
    simp only [all_ok, List.all_cons, Bool.and_eq_true, Bool.not_eq_true'] at h
    have h2 : all_ok cs = true := h.2
    simp only [List.cons_append, no_io_after_failure, h.1, Bool.false_eq_true, if_false]
    exact ih h2

theorem no_io_after_failure_of_all_ok (xs : List Call) (h : all_ok xs = true) :
    no_io_after_failure xs = true := by
  have := no_io_after_failure_append xs [] h
  simpa [no_io_after_failure] using this

/-- The calls after a failure: the trace up to the failed call, then calls that
are neither sends nor receives. -/
theorem no_io_after_failure_tail (l : List Call) (c : Call) (tail : List Call)
    (h_l : all_ok l = true) (h_c : io_failed c = true)
    (h_tail : tail.all (fun x => !is_io x) = true) :
    no_io_after_failure (l ++ [c] ++ tail) = true := by
  rw [List.append_assoc, no_io_after_failure_append _ _ h_l]
  simp [no_io_after_failure, h_c, h_tail]

/-- An iteration of the reader loop on a line that is neither blank nor
truncated: the command is executed; an error ends the loop, success continues
it on the rest of the stream. -/
theorem read_loop_step (M : CodeMacros) (timeout : Nat) (show_responses interactive : Bool)
    (fuel : Nat) (fp fp2 : FILE) (w : World) (cmd : List Char)
    (h_g : fgets NDM_TELNET_COMMAND_MAX fp = (some cmd, fp2))
    (h_blank : is_blank cmd = false)
    (h_whole : ((c_string cmd).getLast? != some '\n' && !fp2.eof) = false) :
    read_loop M timeout show_responses interactive (fuel + 1) fp w
      = match __ndm_telnet_execute M (c_string cmd).dropLast timeout show_responses w with
        | none => none
        | some (err, w1) =>
          if err ≠ NDM_TELNET_ERR_OK then some (LoopExit.failed, fp2, w1)
          else
            read_loop M timeout show_responses interactive fuel fp2
              (if interactive then { w1 with out := w1.out ++ "\n".toList } else w1) := by
  rw [read_loop, h_g]
  simp only [h_blank, h_whole, Bool.false_eq_true, if_false]

/-- The reader loop keeps the calls free of failed sends and receives, unless
it is left by `goto error` right after a failed send or receive. -/
theorem read_loop_trace (M : CodeMacros) (timeout : Nat) (show_responses interactive : Bool) :
    ∀ (fuel : Nat) (fp : FILE) (w : World) (exit : LoopExit) (fp1 : FILE) (w1 : World),
      all_ok w.calls = true →
      read_loop M timeout show_responses interactive fuel fp w = some (exit, fp1, w1) →
      all_ok w1.calls = true
        ∨ (exit = LoopExit.failed
            ∧ ∃ l c, w1.calls = l ++ [c] ∧ all_ok l = true ∧ io_failed c = true) := by
  intro fuel
  induction fuel with
  | zero =>
    intro fp w exit fp1 w1 _ h
    simp [read_loop] at h
  | succ fuel ih =>
    intro fp w exit fp1 w1 h_ok h
    cases h_g : fgets NDM_TELNET_COMMAND_MAX fp with
    | mk chunk fp2 =>
      cases chunk with
      | none =>
        rw [read_loop, h_g] at h
        simp only [Option.some.injEq, Prod.mk.injEq] at h
        obtain ⟨_, _, hw⟩ := h
        subst hw
        exact Or.inl h_ok
      | some cmd =>
        cases h_blank : is_blank cmd with
        | true =>
          rw [read_loop, h_g] at h
          simp only [h_blank, if_true] at h
          exact ih fp2 w exit fp1 w1 h_ok h
        | false =>
          cases h_whole : ((c_string cmd).getLast? != some '\n' && !fp2.eof) with
          | true =>
            rw [read_loop, h_g] at h
            simp only [h_blank, h_whole, Bool.false_eq_true, if_false, if_true,
              Option.some.injEq, Prod.mk.injEq] at h
            obtain ⟨_, _, hw⟩ := h
            subst hw
            exact Or.inl h_ok
          | false =>
            rw [read_loop_step M timeout show_responses interactive fuel fp fp2 w cmd h_g
              h_blank h_whole] at h
            cases h_ex :
                __ndm_telnet_execute M (c_string cmd).dropLast timeout show_responses w with
            | none => rw [h_ex] at h; simp at h
            | some res =>
              obtain ⟨e, w2⟩ := res
              rw [h_ex] at h
              obtain ⟨s, sends, consumed, rest, ext, _, _, _, _, h_calls, _, _, _, _, h_good,
                h_bad⟩ := execute_inv M _ timeout show_responses w e w2 h_ex
              by_cases h_e : e = NDM_TELNET_ERR_OK
              · simp only [h_e, ne_eq, not_true_eq_false, if_false] at h
                have h2 : all_ok w2.calls = true := by
                  rw [h_calls, all_ok_append, h_ok, h_good h_e]; rfl
                refine ih fp2 _ exit fp1 w1 ?_ h
                cases interactive <;> simpa using h2
              · simp only [ne_eq, h_e, not_false_eq_true, if_true, Option.some.injEq,
                  Prod.mk.injEq] at h
                obtain ⟨h1, _, hw⟩ := h
                subst hw
                obtain ⟨ext0, c, hx, hx0, hc⟩ := h_bad h_e
                right
                refine ⟨h1.symm, w.calls ++ ext0, c, ?_, ?_, hc⟩
                · rw [h_calls, hx, List.append_assoc]
                · rw [all_ok_append, h_ok, hx0]; rfl

theorem run_epilogue_calls (show_responses : Bool) (beg : Int) (close_file : Bool)
    (exit_code : Int) (w : World) :
    (run_epilogue show_responses beg close_file exit_code w).1 = exit_code
      ∧ ∃ tail, (run_epilogue show_responses beg close_file exit_code w).2.calls
            = w.calls ++ tail
          ∧ tail.all (fun x => !is_io x) = true ∧ all_ok tail = true := by
  refine ⟨rfl, ?_⟩
  cases close_file
  · exact ⟨[Call.sess_close], by simp [run_epilogue, ndm_telnet_now], rfl, rfl⟩
  · exact ⟨[Call.file_close, Call.sess_close], by simp [run_epilogue, ndm_telnet_now], rfl, rfl⟩

/-- A run epilogue entered with calls that are free of failures, or that end
with a failed send or receive and an exit code of failure. -/
theorem run_epilogue_trace (show_responses : Bool) (beg : Int) (close_file : Bool)
    (exit_code : Int) (w : World)
    (h : all_ok w.calls = true
      ∨ (exit_code = EXIT_FAILURE
          ∧ ∃ l c, w.calls = l ++ [c] ∧ all_ok l = true ∧ io_failed c = true)) :
    no_io_after_failure (run_epilogue show_responses beg close_file exit_code w).2.calls = true
      ∧ (all_ok (run_epilogue show_responses beg close_file exit_code w).2.calls = false →
          (run_epilogue show_responses beg close_file exit_code w).1 = EXIT_FAILURE) := by
  obtain ⟨h_code, tail, h_calls, h_tail, h_tail_ok⟩ :=
    run_epilogue_calls show_responses beg close_file exit_code w
  rw [h_calls, h_code]
  rcases h with h | ⟨h_exit, l, c, h_w, h_l, h_c⟩
  · constructor
    · exact no_io_after_failure_of_all_ok _ (by rw [all_ok_append, h, h_tail_ok]; rfl)
    · intro h_bad
      rw [all_ok_append, h, h_tail_ok] at h_bad
      exact absurd h_bad (by decide)
  · constructor
    · rw [h_w]
      exact no_io_after_failure_tail l c tail h_l h_c h_tail
    · intro _
      exact h_exit

theorem run_reader_trace (M : CodeMacros) (timeout : Nat) (show_responses interactive : Bool)
    (file_name : List Char) (fp : FILE) (w : World) (code : Int) (w1 : World)
    (h_ok : all_ok w.calls = true)
    (h : run_reader M timeout show_responses interactive file_name fp w = some (code, w1)) :
    TraceOk code w1.calls := by
  unfold run_reader at h
  cases h_rl : read_loop M timeout show_responses interactive (fp.content.length + 1) fp w with
  | none => rw [h_rl] at h; simp at h
  | some res =>
    obtain ⟨exit, fp1, w2⟩ := res
    rw [h_rl] at h
    have h_tr := read_loop_trace M timeout show_responses interactive _ fp w exit fp1 w2 h_ok h_rl
    cases exit with
    | failed =>
      simp only [Option.some.injEq, Prod.mk.injEq] at h
      obtain ⟨hc, hw⟩ := h
      subst hw
      rcases h_tr with h1 | ⟨_, h2⟩
      · exact Or.inl h1
      · exact Or.inr ⟨hc.symm, h2⟩
    | drained =>
      have h1 : all_ok w2.calls = true := by
        rcases h_tr with h1 | ⟨h2, _⟩
        · exact h1
        · exact LoopExit.noConfusion h2
      simp only at h
      split_ifs at h
      · simp only [Option.some.injEq, Prod.mk.injEq] at h
        obtain ⟨_, hw⟩ := h
        subst hw
        exact Or.inl h1
      · simp only [Option.some.injEq, Prod.mk.injEq] at h
        obtain ⟨_, hw⟩ := h
        subst hw
        exact Or.inl h1

theorem run_body_trace (M : CodeMacros) (stdin : FILE) (fopen : List Char → Option FILE)
    (timeout : Nat) (command file_name : List Char) (show_responses : Bool) (w : World)
    (close_file : Bool) (code : Int) (w1 : World) (h_ok : all_ok w.calls = true)
    (h : run_body M stdin fopen timeout command file_name show_responses w
      = some (close_file, code, w1)) :
    TraceOk code w1.calls := by
  unfold run_body at h
  split_ifs at h with h_open h_cmd h_file
  · simp only [Option.some.injEq, Prod.mk.injEq] at h
    obtain ⟨_, _, hw⟩ := h
    subst hw
    exact Or.inl h_ok
  · cases h_ex : __ndm_telnet_execute M command timeout show_responses w with
    | none => rw [h_ex] at h; simp at h
    | some res =>
      obtain ⟨e, w3⟩ := res
      rw [h_ex] at h
      obtain ⟨s, sends, consumed, rest, ext, _, _, _, _, h_calls, _, _, _, _, h_good, h_bad⟩ :=
        execute_inv M _ timeout show_responses _ e w3 h_ex
      by_cases h_e : e = NDM_TELNET_ERR_OK
      · simp only [h_e, ne_eq, not_true_eq_false, if_false, Option.some.injEq,
          Prod.mk.injEq] at h
        obtain ⟨_, _, hw⟩ := h
        subst hw
        left
        rw [h_calls, all_ok_append, h_good h_e, h_ok]; rfl
      · simp only [ne_eq, h_e, not_false_eq_true, if_true, Option.some.injEq,
          Prod.mk.injEq] at h
        obtain ⟨_, hc, hw⟩ := h
        subst hw
        obtain ⟨ext0, c, hx, hx0, hc0⟩ := h_bad h_e
        refine Or.inr ⟨hc.symm, w.calls ++ ext0, c, ?_, ?_, hc0⟩
        · rw [h_calls, hx, List.append_assoc]
        · rw [all_ok_append, hx0, h_ok]; rfl
  · cases h_rr : run_reader M timeout show_responses true file_name stdin
        { w with out := w.out
            ++ "Connected in an interactive mode, type a command.\n\n".toList } with
    | none => rw [h_rr] at h; simp at h
    | some res =>
      obtain ⟨c0, w3⟩ := res
      rw [h_rr] at h
      simp only [Option.map_some', Option.some.injEq, Prod.mk.injEq] at h
      obtain ⟨_, hc, hw⟩ := h
      subst hw
      subst hc
      exact run_reader_trace M timeout show_responses true file_name stdin
        { w with out := w.out
            ++ "Connected in an interactive mode, type a command.\n\n".toList } _ _ h_ok h_rr
  · cases h_fo : fopen file_name with
    | none =>
      rw [h_fo] at h
      simp only [Option.some.injEq, Prod.mk.injEq] at h
      obtain ⟨_, _, hw⟩ := h
      subst hw
      exact Or.inl h_ok
    | some fp =>
      rw [h_fo] at h
      simp only at h
      cases h_rr : run_reader M timeout show_responses false file_name fp w with
      | none => rw [h_rr] at h; simp at h
      | some res =>
        obtain ⟨c0, w3⟩ := res
        rw [h_rr] at h
        simp only [Option.map_some', Option.some.injEq, Prod.mk.injEq] at h
        obtain ⟨_, hc, hw⟩ := h
        subst hw
        subst hc
        exact run_reader_trace M timeout show_responses false file_name fp _ _ _ h_ok h_rr

theorem run_prologue_calls (sin : sockaddr_in) (user password : List Char) (timeout : Nat)
    (w : World) (h_ok : all_ok w.calls = true) :
    all_ok (run_prologue sin user password timeout w).calls = true := by
  show all_ok (w.calls ++ [Call.sess_open user password timeout w.open_err]) = true
  rw [all_ok_append, h_ok]; rfl

/-- The first message of a run names the port as it is, also above 32767. -/
theorem run_prologue_port :
    (run_prologue { addr := 3232235777, port := 40000 } "admin".toList [] 500
        (sampleWorld [] [])).out
      = "Connecting to admin@192.168.1.1:40000...\n\n".toList := by
  decide

/-- In a run, no send and no receive follows a send or a receive that returned
an error, and a run with such a call returns `EXIT_FAILURE`. -/
theorem run_trace (M : CodeMacros) (stdin : FILE) (fopen : List Char → Option FILE)
    (sin : sockaddr_in) (user password : List Char) (timeout : Nat)
    (command file_name : List Char) (show_responses : Bool) (w : World)
    (code : Int) (w1 : World) (h_ok : all_ok w.calls = true)
    (h : __ndm_telnet_run M stdin fopen sin user password timeout command file_name
      show_responses w = some (code, w1)) :
    no_io_after_failure w1.calls = true ∧ (all_ok w1.calls = false → code = EXIT_FAILURE) := by
  unfold __ndm_telnet_run at h
  cases h_b : run_body M stdin fopen timeout command file_name show_responses
      (run_prologue sin user password timeout w) with
  | none => rw [h_b] at h; simp at h
  | some res =>
    obtain ⟨close_file, c0, w2⟩ := res
    rw [h_b] at h
    simp only [Option.some.injEq] at h
    have h1 := run_body_trace M stdin fopen timeout command file_name show_responses _
      close_file c0 w2 (run_prologue_calls sin user password timeout w h_ok) h_b
    have h2 := run_epilogue_trace show_responses (ndm_telnet_now w).1 close_file c0 w2 h1
    rw [h] at h2
    exact h2

/-- C4: when `__ndm_telnet_execute` returns, its result differs from
`NDM_TELNET_ERR_OK` if and only if its send call or one of its receive calls
returned an error; it then returns that error, and a failed send is followed by
no receive.  In a run of `__ndm_telnet_run`, no send and no receive follows a
send or a receive that returned an error (so no further command is sent), and
the run then returns `EXIT_FAILURE`. -/
theorem io_errors_are_fatal (M : CodeMacros) (command : List Char) (timeout : Nat)
    (show_responses : Bool) (w : World) (e : ndm_telnet_err_t) (w1 : World)
    (stdin : FILE) (fopen : List Char → Option FILE) (sin : sockaddr_in)
    (user password : List Char) (run_timeout : Nat) (run_command file_name : List Char)
    (run_show : Bool) (wr : World) (code : Int) (wr1 : World)
    (h_exec : __ndm_telnet_execute M command timeout show_responses w = some (e, w1))
    (h_clean : all_ok wr.calls = true)
    (h_run : __ndm_telnet_run M stdin fopen sin user password run_timeout run_command
      file_name run_show wr = some (code, wr1)) :
    (∃ s sends consumed rest ext,
        w.send_script = s :: sends ∧ w.recv_script = consumed ++ rest
          ∧ w1.recv_script = rest ∧ w1.calls = w.calls ++ ext
          ∧ recv_count ext = consumed.length
          ∧ (e ≠ NDM_TELNET_ERR_OK
              ↔ (s ≠ NDM_TELNET_ERR_OK ∨ ∃ r ∈ consumed, r.err ≠ NDM_TELNET_ERR_OK))
          ∧ (s ≠ NDM_TELNET_ERR_OK → e = s ∧ consumed = [])
          ∧ (∀ r ∈ consumed, r.err ≠ NDM_TELNET_ERR_OK → e = r.err)
          ∧ (e ≠ NDM_TELNET_ERR_OK ↔ all_ok ext = false))
      ∧ no_io_after_failure wr1.calls = true
      ∧ (all_ok wr1.calls = false → code = EXIT_FAILURE) := by
  refine ⟨?_, run_trace M stdin fopen sin user password run_timeout run_command file_name
    run_show wr code wr1 h_clean h_run⟩
  obtain ⟨s, sends, consumed, rest, ext, h1, h2, h3, _, h5, h6, _, h_bad_send, h_ok_send,
    h_good, h_bad⟩ := execute_inv M command timeout show_responses w e w1 h_exec
  have h_ext : e ≠ NDM_TELNET_ERR_OK ↔ all_ok ext = false := by
    constructor
    · intro h_e
      obtain ⟨ext0, c, hx, _, hc⟩ := h_bad h_e
      rw [hx, all_ok_append]
      simp [all_ok, hc]
    · intro h_f h_e
      rw [h_good h_e] at h_f
      exact absurd h_f (by decide)
  refine ⟨s, sends, consumed, rest, ext, h1, h2, h3, h5, h6, ?_, h_bad_send, ?_, h_ext⟩
  · by_cases h_s : s = NDM_TELNET_ERR_OK
    · obtain ⟨pre, r, hc, h_pre, _, h_e⟩ := h_ok_send h_s
      constructor
      · intro hne
        exact Or.inr ⟨r, by rw [hc]; simp, fun hh => hne (h_e.trans hh)⟩
      · rintro (h | ⟨x, hx, hxe⟩)
        · exact absurd h_s h
        · rw [hc, List.mem_append, List.mem_singleton] at hx
          rcases hx with hx | hx
          · exact absurd (extends_loop_cases M x (h_pre x hx)).1 hxe
          · rw [h_e, ← hx]; exact hxe
    · obtain ⟨h_e, _⟩ := h_bad_send h_s
      constructor
      · intro _; exact Or.inl h_s
      · intro _; rw [h_e]; exact h_s
  · intro x hx hxe
    by_cases h_s : s = NDM_TELNET_ERR_OK
    · obtain ⟨pre, r, hc, h_pre, _, h_e⟩ := h_ok_send h_s
      rw [hc, List.mem_append, List.mem_singleton] at hx
      rcases hx with hx | hx
      · exact absurd (extends_loop_cases M x (h_pre x hx)).1 hxe
      · rw [h_e, hx]
    · obtain ⟨_, h_c⟩ := h_bad_send h_s
      rw [h_c] at hx
      exact absurd hx (List.not_mem_nil x)

/-- C4, instance: the first receive of the sample script fails with the error 7.
The command returns 7, the run returns `EXIT_FAILURE`, and the second command
is not sent. -/
theorem io_errors_are_fatal_witness :
    __ndm_telnet_execute sampleMacros "show a".toList 500 false sampleBroken
        = some (7, world_of (__ndm_telnet_execute sampleMacros "show a".toList 500 false
            sampleBroken))
      ∧ all_ok (world_of (sampleRun sampleBroken)).calls = false
      ∧ no_io_after_failure (world_of (sampleRun sampleBroken)).calls = true
      ∧ (1 : Int) = EXIT_FAILURE
      ∧ sent_commands (world_of (sampleRun sampleBroken)).calls = ["show a".toList] :=
  have h := io_errors_are_fatal sampleMacros "show a".toList 500 false sampleBroken 7
    (world_of (__ndm_telnet_execute sampleMacros "show a".toList 500 false sampleBroken))
    sampleStdin sampleFopen sampleSin "admin".toList [] 500 [] "script".toList false
    sampleBroken 1 (world_of (sampleRun sampleBroken)) rfl rfl rfl
  ⟨rfl, by decide, h.2.1, h.2.2 (by decide), by decide⟩

/-- C3: a response with a failed status is recoverable.  When the send and the
receives succeed at transport level and, after envelopes that extend the loop,
an envelope with a failed status arrives, `__ndm_telnet_execute` stops
receiving at that envelope, whatever its continuation flag and its document,
and returns `NDM_TELNET_ERR_OK`; the reader loop of `__ndm_telnet_run` then goes
on with the rest of the command source, and a run of a literal command ends
with `EXIT_SUCCESS`. -/
theorem failed_status_is_recoverable (M : CodeMacros) (command : List Char) (timeout : Nat)
    (show_responses : Bool) (w : World) (sends : List ndm_telnet_err_t)
    (pre : List RecvCall) (f : RecvCall) (rest : List RecvCall)
    (h_send : w.send_script = NDM_TELNET_ERR_OK :: sends)
    (h_script : w.recv_script = pre ++ f :: rest)
    (h_pre : ∀ x ∈ pre, extends_loop M x = true)
    (h_err : f.err = NDM_TELNET_ERR_OK) (h_failed : M.failed f.response_code = true) :
    (__ndm_telnet_execute M command timeout show_responses w).map Prod.fst
        = some NDM_TELNET_ERR_OK
      ∧ (__ndm_telnet_execute M command timeout show_responses w).map
          (fun res => recv_count res.2.calls) = some (recv_count w.calls + (pre.length + 1))
      ∧ (__ndm_telnet_execute M command timeout show_responses w).map
          (fun res => res.2.recv_script) = some rest
      ∧ (∀ (interactive : Bool) (fuel : Nat) (fp fp2 : FILE) (cmd : List Char),
          fgets NDM_TELNET_COMMAND_MAX fp = (some cmd, fp2) → is_blank cmd = false →
          ((c_string cmd).getLast? != some '\n' && !fp2.eof) = false →
          (c_string cmd).dropLast = command →
          read_loop M timeout show_responses interactive (fuel + 1) fp w
            = read_loop M timeout show_responses interactive fuel fp2
                (if interactive then
                  { world_of (__ndm_telnet_execute M command timeout show_responses w) with
                    out := (world_of
                      (__ndm_telnet_execute M command timeout show_responses w)).out
                        ++ "\n".toList }
                else world_of (__ndm_telnet_execute M command timeout show_responses w)))
      ∧ (∀ (stdin : FILE) (fopen : List Char → Option FILE) (file_name : List Char),
          w.open_err = NDM_TELNET_ERR_OK → command.length > 0 →
          run_body M stdin fopen timeout command file_name show_responses w
            = some (false, EXIT_SUCCESS,
                world_of (__ndm_telnet_execute M command timeout show_responses w))) := by
  have h_f : ends_loop M f = true := by
    unfold ends_loop
    simp [h_failed]
  obtain ⟨w1, ext, h_run, ⟨a1, _, _, _, a5, a6, _⟩, _, _⟩ :=
    execute_loop_run M command show_responses (w.clock w.ticks)
      (w.clock w.ticks + (timeout : Int)) pre f rest
      (after_send command timeout NDM_TELNET_ERR_OK sends w) h_script h_pre h_f
  have h_exec : __ndm_telnet_execute M command timeout show_responses w
      = some (NDM_TELNET_ERR_OK, w1) := by
    rw [execute_send_ok M command timeout show_responses w sends h_send, h_script, h_run, h_err]
  rw [h_exec]
  refine ⟨rfl, ?_, by simp [a1], ?_, ?_⟩
  · simp only [Option.map_some', a5, recv_count_append, a6, after_send]
    simp [recv_count]
  · intro interactive fuel fp fp2 cmd h_g h_blank h_whole h_cmd
    rw [read_loop_step M timeout show_responses interactive fuel fp fp2 w cmd h_g h_blank
      h_whole, h_cmd, h_exec]
    simp [world_of]
  · intro stdin fopen file_name h_open h_len
    unfold run_body
    simp [h_open, h_len, h_exec, world_of]

/-- C3, instance: the first command of the sample script gets a failed status
with the continuation flag set.  One receive is made for it, the second
command is sent, and the run returns `EXIT_SUCCESS`. -/
theorem failed_status_is_recoverable_witness :
    (__ndm_telnet_execute sampleMacros "show a".toList 500 false sampleRecovering).map
          Prod.fst = some NDM_TELNET_ERR_OK
      ∧ (__ndm_telnet_execute sampleMacros "show a".toList 500 false sampleRecovering).map
          (fun res => recv_count res.2.calls)
        = some (recv_count sampleRecovering.calls + (([] : List RecvCall).length + 1))
      ∧ (sampleRun sampleRecovering).map Prod.fst = some EXIT_SUCCESS
      ∧ sent_commands (world_of (sampleRun sampleRecovering)).calls
        = ["show a".toList, "show b".toList] :=
  have h := failed_status_is_recoverable sampleMacros "show a".toList 500 false
    sampleRecovering [NDM_TELNET_ERR_OK] [] (sampleEnvelope true (2 ^ 31 + 5) sampleDoc)
    [sampleEnvelope false 0 sampleDoc] rfl rfl
    (fun x hx => absurd hx (List.not_mem_nil x)) rfl (by decide)
  ⟨h.1, h.2.1, by decide, by decide⟩

/-! ## Validation of the configuration -/

theorem land_top_bits (a : Nat) (h : a < 2 ^ 32) :
    a &&& 0xf0000000 = 2 ^ 28 * (a / 2 ^ 28) := by
  apply Nat.eq_of_testBit_eq
  intro i
  have hm : (0xf0000000 : Nat) = 2 ^ 28 * (2 ^ 4 - 1) := by norm_num
  rw [Nat.testBit_and, hm, Nat.testBit_mul_pow_two, Nat.testBit_mul_pow_two,
    Nat.testBit_two_pow_sub_one, ← Nat.shiftRight_eq_div_pow, Nat.testBit_shiftRight]
  by_cases h1 : 28 ≤ i
  · have e : 28 + (i - 28) = i := by omega
    simp only [h1, decide_True, Bool.true_and, e]
    by_cases h2 : i - 28 < 4
    · simp [h2]
    · have h3 : a.testBit i = false :=
        Nat.testBit_lt_two_pow (lt_of_lt_of_le h (Nat.pow_le_pow_right (by decide) (by omega)))
      simp [h3]
  · simp [h1]

/-- C15: for every IPv4 address `a`, a 32-bit value in host order,
`__ndm_telnet_is_unicast` returns false if and only if `a` is 0.0.0.0, `a` is
255.255.255.255, or the top four bits of `a` are 1110, which is the range
224.0.0.0 to 239.255.255.255; it rejects 0.0.0.0, 255.255.255.255 and
224.0.0.1 and accepts 192.168.1.1. -/
theorem is_unicast_iff (a : Nat) (h : a < 2 ^ 32) :
    (__ndm_telnet_is_unicast a = false ↔ (a = 0 ∨ a = 2 ^ 32 - 1 ∨ a / 2 ^ 28 = 14))
      ∧ (a / 2 ^ 28 = 14 ↔ (224 * 2 ^ 24 ≤ a ∧ a ≤ 239 * 2 ^ 24 + 255 * 2 ^ 16 + 255 * 2 ^ 8 + 255))
      ∧ __ndm_telnet_is_unicast 0 = false
      ∧ __ndm_telnet_is_unicast (255 * 2 ^ 24 + 255 * 2 ^ 16 + 255 * 2 ^ 8 + 255) = false
      ∧ __ndm_telnet_is_unicast (224 * 2 ^ 24 + 1) = false
      ∧ __ndm_telnet_is_unicast (192 * 2 ^ 24 + 168 * 2 ^ 16 + 1 * 2 ^ 8 + 1) = true := by
  refine ⟨?_, ?_, by decide, by decide, by decide, by decide⟩
  · unfold __ndm_telnet_is_unicast
    rw [land_top_bits a h]
    by_cases h0 : a = 0 ∨ a = 0xffffffff
    · rw [if_pos h0]
      rcases h0 with h0 | h0
      · simp [h0]
      · simp [h0]
    · rw [if_neg h0]
      have h1 : ¬ a = 0 := fun e => h0 (Or.inl e)
      have h2 : ¬ a = 2 ^ 32 - 1 := fun e => h0 (Or.inr (by rw [e]; norm_num))
      simp only [h1, h2, false_or, bne_eq_false_iff_eq]
      constructor
      · intro e; omega
      · intro e; rw [e]; norm_num
  · constructor
    · intro e; omega
    · intro e; omega

/-- C15, instance: the multicast address 239.255.255.255. -/
theorem is_unicast_iff_witness :
    (__ndm_telnet_is_unicast 4026531839 = false
        ↔ (4026531839 = 0 ∨ 4026531839 = 2 ^ 32 - 1 ∨ 4026531839 / 2 ^ 28 = 14))
      ∧ __ndm_telnet_is_unicast 4026531839 = false :=
  ⟨(is_unicast_iff 4026531839 (by decide)).1, by decide⟩

/-- C16: configuration validation happens before any network activity.  For
every parsed configuration, `main` either finds the configuration valid and is
then the call of `__ndm_telnet_run`, or finds it not valid, returns
`EXIT_FAILURE` and leaves the calls as they were: no session is opened.  The
configuration is not valid exactly when the timeout lies outside the inclusive
range of the two bounds, the address is not unicast, or a non-empty literal
command and a non-empty file name are both given. -/
theorem main_validates_before_run (B : TimeoutBounds) (M : CodeMacros) (stdin : FILE)
    (fopen : List Char → Option FILE) (c : Config) (w : World) :
    ((config_valid B c = true
          ∧ main B M stdin fopen (some c) w
            = __ndm_telnet_run M stdin fopen c.sin c.user c.password c.timeout c.command
                c.file_name c.show_responses
                { w with out := w.out ++ "Simple NDM telnet client.\n".toList })
        ∨ (config_valid B c = false
          ∧ (main B M stdin fopen (some c) w).map Prod.fst = some EXIT_FAILURE
          ∧ (main B M stdin fopen (some c) w).map (fun res => res.2.calls) = some w.calls))
      ∧ (config_valid B c = false
          ↔ (c.timeout < B.NDM_TELNET_MIN_TIMEOUT ∨ c.timeout > B.NDM_TELNET_MAX_TIMEOUT
              ∨ __ndm_telnet_is_unicast c.sin.addr = false
              ∨ (c.command ≠ [] ∧ c.file_name ≠ []))) := by
  have h_iff : config_valid B c = false
      ↔ (c.timeout < B.NDM_TELNET_MIN_TIMEOUT ∨ c.timeout > B.NDM_TELNET_MAX_TIMEOUT
          ∨ __ndm_telnet_is_unicast c.sin.addr = false
          ∨ (c.command ≠ [] ∧ c.file_name ≠ [])) := by
    unfold config_valid
    simp only [Bool.and_eq_false_iff, decide_eq_false_iff_not, not_and, not_le,
      Bool.not_eq_false', Bool.and_eq_true, Bool.not_eq_true', List.isEmpty_eq_false, ne_eq]
    constructor
    · rintro ((h | h) | h)
      · by_cases h1 : c.timeout < B.NDM_TELNET_MIN_TIMEOUT
        · exact Or.inl h1
        · exact Or.inr (Or.inl (h (not_lt.mp h1)))
      · exact Or.inr (Or.inr (Or.inl h))
      · exact Or.inr (Or.inr (Or.inr h))
    · rintro (h | h | h | h)
      · exact Or.inl (Or.inl (fun h1 => absurd h (not_lt.mpr h1)))
      · exact Or.inl (Or.inl (fun _ => h))
      · exact Or.inl (Or.inr h)
      · exact Or.inr h
  refine ⟨?_, h_iff⟩
  cases h_v : config_valid B c with
  | false =>
    right
    refine ⟨rfl, ?_⟩
    rcases h_iff.mp h_v with h | h | h | h
    · simp [main, h]
    · simp [main, h]
    · by_cases h1 : c.timeout < B.NDM_TELNET_MIN_TIMEOUT ∨ c.timeout > B.NDM_TELNET_MAX_TIMEOUT
      · simp [main, h1]
      · simp [main, h1, h]
    · have h2 : c.command.length > 0 ∧ c.file_name.length > 0 :=
        ⟨List.length_pos.mpr h.1, List.length_pos.mpr h.2⟩
      by_cases h1 : c.timeout < B.NDM_TELNET_MIN_TIMEOUT ∨ c.timeout > B.NDM_TELNET_MAX_TIMEOUT
      · simp [main, h1]
      · cases h3 : __ndm_telnet_is_unicast c.sin.addr with
        | false => simp [main, h1, h3]
        | true => simp [main, h1, h3, h2]
  | true =>
    left
    refine ⟨rfl, ?_⟩
    have h_n : ¬ (c.timeout < B.NDM_TELNET_MIN_TIMEOUT ∨ c.timeout > B.NDM_TELNET_MAX_TIMEOUT
          ∨ __ndm_telnet_is_unicast c.sin.addr = false
          ∨ (c.command ≠ [] ∧ c.file_name ≠ [])) := by
      intro h
      rw [h_iff.mpr h] at h_v
      exact absurd h_v (by decide)
    have h1 : ¬ (c.timeout < B.NDM_TELNET_MIN_TIMEOUT ∨ c.timeout > B.NDM_TELNET_MAX_TIMEOUT) :=
      fun h => h_n (h.elim Or.inl (fun x => Or.inr (Or.inl x)))
    have h3 : __ndm_telnet_is_unicast c.sin.addr = true := by
      cases h4 : __ndm_telnet_is_unicast c.sin.addr with
      | false => exact absurd (Or.inr (Or.inr (Or.inl h4))) h_n
      | true => rfl
    have h2 : ¬ (c.command.length > 0 ∧ c.file_name.length > 0) :=
      fun h => h_n (Or.inr (Or.inr (Or.inr
        ⟨List.length_pos.mp h.1, List.length_pos.mp h.2⟩)))
    simp only [main, h1, h3, h2, if_false, Bool.not_true, Bool.false_eq_true]

/-! ## The line buffer -/

theorem read_line_length (n : Nat) (l : List Char) : (read_line n l).1.length ≤ n := by
  induction n generalizing l with
  | zero => simp [read_line]
  | succ n ih =>
    cases l with
    | nil => simp [read_line]
    | cons c rest =>
      simp only [read_line]
      split_ifs
      · simp
      · simp only [List.length_cons]
        exact Nat.succ_le_succ (ih rest)

theorem fgets_length (size : Nat) (fp fp2 : FILE) (cmd : List Char)
    (h : fgets size fp = (some cmd, fp2)) : cmd.length ≤ size - 1 := by
  unfold fgets at h
  simp only at h
  split_ifs at h
  all_goals
    simp only [Prod.mk.injEq, Option.some.injEq, reduceCtorEq, false_and] at h
  all_goals
    rw [← h.1]
    exact read_line_length _ _

theorem isspace_ne_nul (c : Char) (h : isspace c = true) : c ≠ Char.ofNat 0 := by
  intro e
  rw [e] at h
  exact absurd h (by decide)

theorem not_blank_head (cmd : List Char) (h : is_blank cmd = false) :
    ∃ c rest, cmd = c :: rest ∧ c ≠ Char.ofNat 0 := by
  cases cmd with
  | nil => simp [is_blank] at h
  | cons c rest =>
    refine ⟨c, rest, rfl, ?_⟩
    cases h_s : isspace c with
    | true => exact isspace_ne_nul c h_s
    | false =>
      unfold is_blank at h
      rw [List.dropWhile_cons_of_neg (by simp [h_s])] at h
      simpa using h

/-- C20: the buffer accesses `cmd[len - 1]` in the reader loop of
`__ndm_telnet_run` are in bounds.  For every chunk of at most 4095 bytes, with
or without NUL bytes and a trailing line break, that passes the blank-line
test, `len = strlen (cmd)` satisfies `1 ≤ len ≤ 4095`, so the index `len - 1`
is at least 0 and less than the 4096 bytes of the buffer; and every chunk that
`fgets` returns for this buffer has at most 4095 bytes. -/
theorem buffer_access_in_bounds (cmd : List Char)
    (h_len : cmd.length ≤ NDM_TELNET_COMMAND_MAX - 1) (h_blank : is_blank cmd = false) :
    1 ≤ (c_string cmd).length ∧ (c_string cmd).length ≤ 4095
      ∧ (c_string cmd).length - 1 < NDM_TELNET_COMMAND_MAX
      ∧ (c_string cmd).length - 1 < cmd.length
      ∧ (∀ (fp fp2 : FILE) (chunk : List Char),
          fgets NDM_TELNET_COMMAND_MAX fp = (some chunk, fp2) →
            chunk.length ≤ NDM_TELNET_COMMAND_MAX - 1) := by
  obtain ⟨c, rest, h_c, h_nul⟩ := not_blank_head cmd h_blank
  have h1 : 1 ≤ (c_string cmd).length := by
    rw [h_c]
    unfold c_string
    rw [List.takeWhile_cons_of_pos (by simpa using h_nul)]
    simp
  have h2 : (c_string cmd).length ≤ cmd.length := (List.takeWhile_sublist _).length_le
  have h3 : NDM_TELNET_COMMAND_MAX = 4096 := rfl
  rw [h3] at h_len ⊢
  refine ⟨h1, by omega, by omega, by omega, ?_⟩
  intro fp fp2 chunk h
  exact fgets_length 4096 fp fp2 chunk h

/-- C20, instance: a chunk that holds a NUL byte after its first character. -/
theorem buffer_access_in_bounds_witness :
    1 ≤ (c_string ['a', Char.ofNat 0, 'b', '\n']).length
      ∧ (c_string ['a', Char.ofNat 0, 'b', '\n']).length ≤ 4095
      ∧ (c_string ['a', Char.ofNat 0, 'b', '\n']).length = 1 :=
  have h := buffer_access_in_bounds ['a', Char.ofNat 0, 'b', '\n'] (by decide) (by decide)
  ⟨h.1, h.2.1, by decide⟩

/-! ## The deadline clock -/

theorem ms_to_le (deadline : Int) (t : Nat) (w : World)
    (h : deadline - (t : Int) ≤ w.clock w.ticks) : (__ndm_telnet_ms_to deadline w).1 ≤ t := by
  unfold __ndm_telnet_ms_to ndm_telnet_now
  simp only
  split_ifs with h1
  · simp only
    omega
  · simp

/-- The value of `__ndm_telnet_ms_to` when the clock reads `issue + e` and the
deadline is `issue + t`. -/
theorem ms_to_eq_max (w : World) (issue : Int) (t : Nat) (e : Int)
    (h_t : t < 2 ^ 32) (h_e : 0 ≤ e) (h_clock : w.clock w.ticks = issue + e) :
    ((__ndm_telnet_ms_to (issue + (t : Int)) w).1 : Int) = max 0 ((t : Int) - e)
      ∧ (0 : Int) ≤ ((__ndm_telnet_ms_to (issue + (t : Int)) w).1 : Int)
      ∧ (__ndm_telnet_ms_to (issue + (t : Int)) w).1 ≤ t := by
  refine ⟨?_, Int.natCast_nonneg _, ms_to_le _ t w (by rw [h_clock]; omega)⟩
  unfold __ndm_telnet_ms_to ndm_telnet_now
  simp only [h_clock]
  split_ifs with h1
  · simp only
    have h2 : (issue + (t : Int) - (issue + e)) = (t : Int) - e := by ring
    rw [h2]
    have h3 : ((t : Int) - e) % 2 ^ 32 = (t : Int) - e :=
      Int.emod_eq_of_lt (by omega) (by omega)
    rw [h3, Int.toNat_of_nonneg (by omega)]
    omega
  · simp only [Nat.cast_zero]
    omega

/-! ## Invariants of the receive loop -/

/-- The world that an iteration of the loop leaves, in its three cases: a
receive error, a failed status, a succeeded status with a document. -/
theorem loop_body_world_cases (M : CodeMacros) (command : List Char) (show_responses : Bool)
    (beg deadline : Int) (r : RecvCall) (script : List RecvCall) (w w1 : World)
    (h : (loop_body M command show_responses beg deadline r script w).world = some w1) :
    (r.err ≠ NDM_TELNET_ERR_OK
        ∧ w1 = { w with
            ticks := w.ticks + 1
            recv_script := script
            calls := w.calls ++ [Call.recv (__ndm_telnet_ms_to deadline w).1 r.err]
            err_out := w.err_out ++ [Diag.recv_failed r.err] })
      ∨ (r.err = NDM_TELNET_ERR_OK ∧ M.failed r.response_code = true
        ∧ w1 = { w with
            ticks := w.ticks + 1
            recv_script := script
            calls := w.calls
              ++ [Call.recv (__ndm_telnet_ms_to deadline w).1 NDM_TELNET_ERR_OK, Call.doc_free]
            err_out := w.err_out ++ [Diag.exec_failed r.response_code r.response_text] })
      ∨ (r.err = NDM_TELNET_ERR_OK ∧ M.failed r.response_code = false
        ∧ ∃ root sibs, r.response = root :: sibs
          ∧ w1 = { w with
              ticks := w.ticks + 2
              recv_script := script
              calls := w.calls
                ++ [Call.recv (__ndm_telnet_ms_to deadline w).1 NDM_TELNET_ERR_OK,
                    Call.doc_free]
              out := w.out
                ++ (if show_responses then __ndm_telnet_dump_result 0 r.response else [])
                ++ status_printf M r.response_code (w.clock (w.ticks + 1) - beg) command
                    r.continued (decide (root.name = "event".toList)) show_responses }) := by
  by_cases h_err : r.err = NDM_TELNET_ERR_OK
  · right
    cases h_f : M.failed r.response_code with
    | true =>
      left
      rw [loop_body_failed M command show_responses beg deadline r script w h_err h_f] at h
      simp only [Step.world, Option.some.injEq] at h
      exact ⟨h_err, rfl, h.symm⟩
    | false =>
      right
      cases h_doc : r.response with
      | nil =>
        rw [loop_body_null M command show_responses beg deadline r script w h_err h_f h_doc]
          at h
        simp [Step.world] at h
      | cons root sibs =>
        rw [loop_body_succeeded M command show_responses beg deadline r script w root sibs
          h_err h_f h_doc] at h
        have hw : ∀ (b : Bool) (x : World),
            ((if b = true then Step.again else Step.finish NDM_TELNET_ERR_OK) x).world
              = some x := by
          intro b x
          cases b <;> rfl
        rw [hw, h_doc] at h
        simp only [Option.some.injEq] at h
        exact ⟨h_err, rfl, root, sibs, rfl, h.symm⟩
  · left
    rw [loop_body_recv_error M command show_responses beg deadline r script w h_err] at h
    simp only [Step.world, Option.some.injEq] at h
    exact ⟨h_err, h.symm⟩

/-- A relation that holds across every iteration of the loop and is transitive
holds between the world at the entry of the loop and the world it returns. -/
theorem execute_loop_rel (M : CodeMacros) (command : List Char) (show_responses : Bool)
    (beg deadline : Int) (P : World → World → Prop)
    (h_trans : ∀ a b c, P a b → P b c → P a c)
    (h_step : ∀ (r : RecvCall) (script : List RecvCall) (w w1 : World),
      (loop_body M command show_responses beg deadline r script w).world = some w1 → P w w1) :
    ∀ (script : List RecvCall) (w : World) (e : ndm_telnet_err_t) (w1 : World),
      execute_loop M command show_responses beg deadline script w = some (e, w1) → P w w1 := by
  intro script
  induction script with
  | nil =>
    intro w e w1 h
    simp [execute_loop] at h
  | cons r script ih =>
    intro w e w1 h
    rw [execute_loop] at h
    cases h_b : loop_body M command show_responses beg deadline r script w with
    | finish e2 w2 =>
      rw [h_b] at h
      simp only [Option.some.injEq, Prod.mk.injEq] at h
      have := h_step r script w w2 (by rw [h_b]; rfl)
      rw [← h.2]
      exact this
    | again w2 =>
      rw [h_b] at h
      exact h_trans w w2 w1 (h_step r script w w2 (by rw [h_b]; rfl)) (ih w2 e w1 h)
    | undefined =>
      rw [h_b] at h
      simp at h

theorem uses_session_trans (a b c : World) (h1 : UsesSession a b) (h2 : UsesSession b c) :
    UsesSession a c := by
  obtain ⟨x, hx, hx1⟩ := h1
  obtain ⟨y, hy, hy1⟩ := h2
  exact ⟨x ++ y, by rw [hy, hx, List.append_assoc], by rw [List.all_append, hx1, hy1]; rfl⟩

theorem uses_session_step (M : CodeMacros) (command : List Char) (show_responses : Bool)
    (beg deadline : Int) (r : RecvCall) (script : List RecvCall) (w w1 : World)
    (h : (loop_body M command show_responses beg deadline r script w).world = some w1) :
    UsesSession w w1 := by
  rcases loop_body_world_cases M command show_responses beg deadline r script w w1 h with
    ⟨_, hw⟩ | ⟨_, _, hw⟩ | ⟨_, _, root, sibs, _, hw⟩
  · subst hw
    exact ⟨[Call.recv (__ndm_telnet_ms_to deadline w).1 r.err], rfl, rfl⟩
  · subst hw
    exact ⟨[Call.recv (__ndm_telnet_ms_to deadline w).1 NDM_TELNET_ERR_OK, Call.doc_free],
      rfl, rfl⟩
  · subst hw
    exact ⟨[Call.recv (__ndm_telnet_ms_to deadline w).1 NDM_TELNET_ERR_OK, Call.doc_free],
      rfl, rfl⟩

/-- The calls that `__ndm_telnet_execute` adds are uses of the session. -/
theorem execute_uses_session (M : CodeMacros) (command : List Char) (timeout : Nat)
    (show_responses : Bool) (w : World) (e : ndm_telnet_err_t) (w1 : World)
    (h : __ndm_telnet_execute M command timeout show_responses w = some (e, w1)) :
    UsesSession w w1 := by
  cases h_s : w.send_script with
  | nil =>
    exfalso
    revert h
    unfold __ndm_telnet_execute ndm_telnet_send
    simp only [__ndm_telnet_ms_to, ndm_telnet_now]
    split_ifs <;> simp [h_s]
  | cons s sends =>
    by_cases h_ok : s = NDM_TELNET_ERR_OK
    · subst h_ok
      rw [execute_send_ok M command timeout show_responses w sends h_s] at h
      have h1 := execute_loop_rel M command show_responses _ _ UsesSession uses_session_trans
        (uses_session_step M command show_responses _ _) _ _ e w1 h
      exact uses_session_trans w _ w1
        ⟨[Call.send command
            (__ndm_telnet_ms_to (w.clock w.ticks + (timeout : Int)) (ndm_telnet_now w).2).1
            NDM_TELNET_ERR_OK], rfl, rfl⟩ h1
    · rw [execute_send_failed M command timeout show_responses w s sends h_s h_ok] at h
      simp only [Option.some.injEq, Prod.mk.injEq] at h
      rw [← h.2]
      exact ⟨[Call.send command
            (__ndm_telnet_ms_to (w.clock w.ticks + (timeout : Int)) (ndm_telnet_now w).2).1
            s], rfl, rfl⟩

theorem budget_kept_trans (beg : Int) (t : Nat) (a b c : World)
    (h1 : BudgetKept beg t a b) (h2 : BudgetKept beg t b c) : BudgetKept beg t a c := by
  intro ha
  obtain ⟨hc1, ht1, x, hx, hx1⟩ := h1 ha
  have hb : clock_not_before beg b := by
    intro k hk
    rw [hc1]
    exact ha k (le_trans ht1 hk)
  obtain ⟨hc2, ht2, y, hy, hy1⟩ := h2 hb
  refine ⟨hc2.trans hc1, le_trans ht1 ht2, x ++ y, by rw [hy, hx, List.append_assoc], ?_⟩
  unfold ms_bounded at hx1 hy1 ⊢
  rw [List.all_append, hx1, hy1]; rfl

theorem budget_kept_step (M : CodeMacros) (command : List Char) (show_responses : Bool)
    (beg : Int) (t : Nat) (r : RecvCall) (script : List RecvCall) (w w1 : World)
    (h : (loop_body M command show_responses beg (beg + (t : Int)) r script w).world
      = some w1) :
    BudgetKept beg t w w1 := by
  intro hw0
  have h_ms : (__ndm_telnet_ms_to (beg + (t : Int)) w).1 ≤ t :=
    ms_to_le _ t w (by have := hw0 w.ticks (le_refl _); omega)
  rcases loop_body_world_cases M command show_responses beg _ r script w w1 h with
    ⟨_, hw⟩ | ⟨_, _, hw⟩ | ⟨_, _, root, sibs, _, hw⟩
  · subst hw
    exact ⟨rfl, Nat.le_succ _,
      [Call.recv (__ndm_telnet_ms_to (beg + (t : Int)) w).1 r.err], rfl,
      by simp [ms_bounded, call_ms, h_ms]⟩
  · subst hw
    exact ⟨rfl, Nat.le_succ _,
      [Call.recv (__ndm_telnet_ms_to (beg + (t : Int)) w).1 NDM_TELNET_ERR_OK, Call.doc_free],
      rfl, by simp [ms_bounded, call_ms, h_ms]⟩
  · subst hw
    exact ⟨rfl, Nat.le_add_right _ _,
      [Call.recv (__ndm_telnet_ms_to (beg + (t : Int)) w).1 NDM_TELNET_ERR_OK, Call.doc_free],
      rfl, by simp [ms_bounded, call_ms, h_ms]⟩

/-- On a clock that does not go back, every send and every receive of a call of
`__ndm_telnet_execute` is given at most the timeout. -/
theorem execute_budget (M : CodeMacros) (command : List Char) (t : Nat)
    (show_responses : Bool) (w : World) (e : ndm_telnet_err_t) (w1 : World)
    (h_clock : ∀ k, w.ticks ≤ k → w.clock w.ticks ≤ w.clock k)
    (h : __ndm_telnet_execute M command t show_responses w = some (e, w1)) :
    ∃ ext, w1.calls = w.calls ++ ext ∧ ms_bounded t ext = true := by
  have h_ms : (__ndm_telnet_ms_to (w.clock w.ticks + (t : Int)) (ndm_telnet_now w).2).1 ≤ t :=
    ms_to_le _ t _ (by
      have := h_clock (w.ticks + 1) (Nat.le_succ _)
      show w.clock w.ticks + (t : Int) - (t : Int) ≤ w.clock (w.ticks + 1)
      omega)
  cases h_s : w.send_script with
  | nil =>
    exfalso
    revert h
    unfold __ndm_telnet_execute ndm_telnet_send
    simp only [__ndm_telnet_ms_to, ndm_telnet_now]
    split_ifs <;> simp [h_s]
  | cons s sends =>
    by_cases h_ok : s = NDM_TELNET_ERR_OK
    · subst h_ok
      rw [execute_send_ok M command t show_responses w sends h_s] at h
      have h1 := execute_loop_rel M command show_responses (w.clock w.ticks)
        (w.clock w.ticks + (t : Int)) (BudgetKept (w.clock w.ticks) t)
        (budget_kept_trans _ t) (budget_kept_step M command show_responses _ t) _ _ e w1 h
      have h2 : clock_not_before (w.clock w.ticks)
          (after_send command t NDM_TELNET_ERR_OK sends w) := by
        intro k hk
        exact h_clock k (le_trans (Nat.le_add_right _ 2) hk)
      obtain ⟨_, _, ext, hx, hx1⟩ := h1 h2
      refine ⟨Call.send command
          (__ndm_telnet_ms_to (w.clock w.ticks + (t : Int)) (ndm_telnet_now w).2).1
          NDM_TELNET_ERR_OK :: ext, by rw [hx]; simp [after_send], ?_⟩
      unfold ms_bounded at hx1 ⊢
      rw [List.all_cons, hx1, Bool.and_true]
      exact decide_eq_true h_ms
    · rw [execute_send_failed M command t show_responses w s sends h_s h_ok] at h
      simp only [Option.some.injEq, Prod.mk.injEq] at h
      rw [← h.2]
      exact ⟨[Call.send command
          (__ndm_telnet_ms_to (w.clock w.ticks + (t : Int)) (ndm_telnet_now w).2).1 s],
        rfl, by simp [ms_bounded, call_ms, h_ms]⟩

/-- C11: for every issue time, every timeout budget `t` that fits an unsigned
int and every elapsed duration `e ≥ 0`, with the deadline `issue + t` and the
clock reading `issue + e`, `__ndm_telnet_ms_to` returns `max 0 (t - e)`, a
value that is not negative and does not exceed `t`; and on a clock that does
not go back, every send and every receive call of `__ndm_telnet_execute` is
handed at most `t` milliseconds. -/
theorem ms_to_is_remaining (w : World) (issue : Int) (t : Nat) (e : Int)
    (h_t : t < 2 ^ 32) (h_e : 0 ≤ e) (h_clock : w.clock w.ticks = issue + e) :
    ((__ndm_telnet_ms_to (issue + (t : Int)) w).1 : Int) = max 0 ((t : Int) - e)
      ∧ (0 : Int) ≤ ((__ndm_telnet_ms_to (issue + (t : Int)) w).1 : Int)
      ∧ (__ndm_telnet_ms_to (issue + (t : Int)) w).1 ≤ t
      ∧ (∀ (M : CodeMacros) (command : List Char) (show_responses : Bool) (w0 w1 : World)
            (err : ndm_telnet_err_t),
          (∀ k, w0.ticks ≤ k → w0.clock w0.ticks ≤ w0.clock k) →
          __ndm_telnet_execute M command t show_responses w0 = some (err, w1) →
          ∃ ext, w1.calls = w0.calls ++ ext ∧ ms_bounded t ext = true) := by
  obtain ⟨h1, h2, h3⟩ := ms_to_eq_max w issue t e h_t h_e h_clock
  exact ⟨h1, h2, h3, fun M command show_responses w0 w1 err hc hx =>
    execute_budget M command t show_responses w0 err w1 hc hx⟩

/-- C11, instance: a budget of 500 milliseconds of which 7 have elapsed, and one
of which 600 have elapsed. -/
theorem ms_to_is_remaining_witness :
    (((__ndm_telnet_ms_to ((1000 : Int) + ((500 : Nat) : Int))
          { sampleWorld [] [] with ticks := 1 }).1 : Int) = max 0 (((500 : Nat) : Int) - 7)
        ∧ (__ndm_telnet_ms_to ((1000 : Int) + ((500 : Nat) : Int))
            { sampleWorld [] [] with ticks := 1 }).1 = 493)
      ∧ (__ndm_telnet_ms_to ((400 : Int) + ((500 : Nat) : Int))
            { sampleWorld [] [] with ticks := 0 }).1 = 0 :=
  have h := ms_to_is_remaining { sampleWorld [] [] with ticks := 1 } 1000 500 7 (by decide)
    (by decide) (by decide)
  ⟨⟨h.1, by decide⟩, by decide⟩

/-! ## The severity of the status lines -/

theorem writes_status_trans (M : CodeMacros) (command : List Char) (show_responses : Bool)
    (a b c : World) (h1 : WritesStatus M command show_responses a b)
    (h2 : WritesStatus M command show_responses b c) :
    WritesStatus M command show_responses a c := by
  obtain ⟨x, hx, hx1⟩ := h1
  obtain ⟨y, hy, hy1⟩ := h2
  refine ⟨x ++ y, ?_, by rw [List.all_append, hx1, hy1]; rfl⟩
  rw [hy, hx, List.append_assoc]
  simp [status_output]

theorem writes_status_step (M : CodeMacros) (command : List Char) (show_responses : Bool)
    (beg deadline : Int) (r : RecvCall) (script : List RecvCall) (w w1 : World)
    (h : (loop_body M command show_responses beg deadline r script w).world = some w1) :
    WritesStatus M command show_responses w w1 := by
  rcases loop_body_world_cases M command show_responses beg deadline r script w w1 h with
    ⟨_, hw⟩ | ⟨_, _, hw⟩ | ⟨_, h_ok, root, sibs, h_doc, hw⟩
  · subst hw
    exact ⟨[], by simp [status_output], rfl⟩
  · subst hw
    exact ⟨[], by simp [status_output], rfl⟩
  · subst hw
    refine ⟨[(r, w.clock (w.ticks + 1) - beg)], ?_, by simp [h_ok]⟩
    have h_ev : is_event r = decide (root.name = "event".toList) := by
      unfold is_event
      rw [h_doc]
    simp only [status_output, List.flatMap_cons, List.flatMap_nil, List.append_nil, h_ev,
      List.append_assoc]

theorem result_type_succeeded (M : CodeMacros) (code : Nat) (h : M.failed code = false) :
    (__ndm_telnet_result_type M code == 'I' || __ndm_telnet_result_type M code == 'W')
      = true := by
  unfold __ndm_telnet_result_type NDM_SUCCEEDED
  rw [h]
  cases M.warning code <;> rfl

/-- C19: every status line that `__ndm_telnet_execute` writes carries the
severity letter `I` or `W`.  What a returning call adds to the standard output
is the output (rendered document, when shown, and status line) for envelopes
whose status is not failed, so the letter of each line is `I` or `W`; and an
iteration that receives an envelope with a failed status ends the loop and
leaves the standard output as it was: no document is rendered and no status
line is printed for it. -/
theorem status_lines_never_failed (M : CodeMacros) (command : List Char) (timeout : Nat)
    (show_responses : Bool) (w : World) (e : ndm_telnet_err_t) (w1 : World)
    (h : __ndm_telnet_execute M command timeout show_responses w = some (e, w1)) :
    (∃ items, w1.out = w.out ++ status_output M command show_responses items
        ∧ items.all (fun it => !M.failed it.1.response_code) = true
        ∧ items.all (fun it =>
            __ndm_telnet_result_type M it.1.response_code == 'I'
              || __ndm_telnet_result_type M it.1.response_code == 'W') = true)
      ∧ (∀ (beg deadline : Int) (r : RecvCall) (script : List RecvCall) (w0 : World),
          r.err = NDM_TELNET_ERR_OK → M.failed r.response_code = true →
          ∃ w2, loop_body M command show_responses beg deadline r script w0
              = Step.finish NDM_TELNET_ERR_OK w2 ∧ w2.out = w0.out) := by
  constructor
  · have key : WritesStatus M command show_responses w w1 := by
      cases h_s : w.send_script with
      | nil =>
        exfalso
        revert h
        unfold __ndm_telnet_execute ndm_telnet_send
        simp only [__ndm_telnet_ms_to, ndm_telnet_now]
        split_ifs <;> simp [h_s]
      | cons s sends =>
        by_cases h_ok : s = NDM_TELNET_ERR_OK
        · subst h_ok
          rw [execute_send_ok M command timeout show_responses w sends h_s] at h
          obtain ⟨items, hx, hx1⟩ := execute_loop_rel M command show_responses _ _
            (WritesStatus M command show_responses)
            (writes_status_trans M command show_responses)
            (writes_status_step M command show_responses _ _) _ _ e w1 h
          exact ⟨items, hx, hx1⟩
        · rw [execute_send_failed M command timeout show_responses w s sends h_s h_ok] at h
          simp only [Option.some.injEq, Prod.mk.injEq] at h
          rw [← h.2]
          exact ⟨[], by simp [status_output, after_send], rfl⟩
    obtain ⟨items, h_out, h_all⟩ := key
    refine ⟨items, h_out, h_all, ?_⟩
    rw [List.all_eq_true] at h_all ⊢
    intro it h_it
    have := h_all it h_it
    exact result_type_succeeded M _ (by simpa using this)
  · intro beg deadline r script w0 h_err h_failed
    rw [loop_body_failed M command show_responses beg deadline r script w0 h_err h_failed]
    exact ⟨_, rfl, rfl⟩

/-- C19, instance: the first command of the sample script gets a failed
status; nothing is written to the standard output for it. -/
theorem status_lines_never_failed_witness :
    (∃ items,
        (world_of (__ndm_telnet_execute sampleMacros "show a".toList 500 false
            sampleRecovering)).out
          = sampleRecovering.out ++ status_output sampleMacros "show a".toList false items
        ∧ items.all (fun it => !sampleMacros.failed it.1.response_code) = true
        ∧ items.all (fun it =>
            __ndm_telnet_result_type sampleMacros it.1.response_code == 'I'
              || __ndm_telnet_result_type sampleMacros it.1.response_code == 'W') = true)
      ∧ (world_of (__ndm_telnet_execute sampleMacros "show a".toList 500 false
          sampleRecovering)).out = []
      ∧ (world_of (__ndm_telnet_execute sampleMacros "show b".toList 500 true
          (sampleWorld [NDM_TELNET_ERR_OK]
            [sampleEnvelope false (2 ^ 30) sampleEvent, sampleEnvelope false 0 sampleDoc]))).out
        = ("<event></event>\nW (40000000) [000.021] show b (event)\n\n"
            ++ "<system>\n    <name>Router</name>\n</system>\n"
            ++ "I (00000000) [000.035] show b\n\n").toList :=
  have h := status_lines_never_failed sampleMacros "show a".toList 500 false sampleRecovering
    0 (world_of (__ndm_telnet_execute sampleMacros "show a".toList 500 false sampleRecovering))
    rfl
  ⟨h.1, by decide, by decide⟩

/-! ## The life of the session -/

theorem uses_session_refl (w : World) : UsesSession w w := ⟨[], by simp, rfl⟩

/-- The reader loop adds only uses of the session to the calls. -/
theorem read_loop_uses_session (M : CodeMacros) (timeout : Nat)
    (show_responses interactive : Bool) :
    ∀ (fuel : Nat) (fp : FILE) (w : World) (exit : LoopExit) (fp1 : FILE) (w1 : World),
      read_loop M timeout show_responses interactive fuel fp w = some (exit, fp1, w1) →
      UsesSession w w1 := by
  intro fuel
  induction fuel with
  | zero =>
    intro fp w exit fp1 w1 h
    simp [read_loop] at h
  | succ fuel ih =>
    intro fp w exit fp1 w1 h
    cases h_g : fgets NDM_TELNET_COMMAND_MAX fp with
    | mk chunk fp2 =>
      cases chunk with
      | none =>
        rw [read_loop, h_g] at h
        simp only [Option.some.injEq, Prod.mk.injEq] at h
        rw [← h.2.2]
        exact uses_session_refl w
      | some cmd =>
        cases h_blank : is_blank cmd with
        | true =>
          rw [read_loop, h_g] at h
          simp only [h_blank, if_true] at h
          exact ih fp2 w exit fp1 w1 h
        | false =>
          cases h_whole : ((c_string cmd).getLast? != some '\n' && !fp2.eof) with
          | true =>
            rw [read_loop, h_g] at h
            simp only [h_blank, h_whole, Bool.false_eq_true, if_false, if_true,
              Option.some.injEq, Prod.mk.injEq] at h
            rw [← h.2.2]
            exact ⟨[], by simp, rfl⟩
          | false =>
            rw [read_loop_step M timeout show_responses interactive fuel fp fp2 w cmd h_g
              h_blank h_whole] at h
            cases h_ex :
                __ndm_telnet_execute M (c_string cmd).dropLast timeout show_responses w with
            | none => rw [h_ex] at h; simp at h
            | some res =>
              obtain ⟨e, w2⟩ := res
              rw [h_ex] at h
              have h_u := execute_uses_session M _ timeout show_responses w e w2 h_ex
              by_cases h_e : e = NDM_TELNET_ERR_OK
              · simp only [h_e, ne_eq, not_true_eq_false, if_false] at h
                refine uses_session_trans w _ w1 ?_ (ih fp2 _ exit fp1 w1 h)
                obtain ⟨ext, hx, hx1⟩ := h_u
                refine ⟨ext, ?_, hx1⟩
                cases interactive <;> simpa using hx
              · simp only [ne_eq, h_e, not_false_eq_true, if_true, Option.some.injEq,
                  Prod.mk.injEq] at h
                rw [← h.2.2]
                exact h_u

theorem run_reader_uses_session (M : CodeMacros) (timeout : Nat)
    (show_responses interactive : Bool) (file_name : List Char) (fp : FILE) (w : World)
    (code : Int) (w1 : World)
    (h : run_reader M timeout show_responses interactive file_name fp w = some (code, w1)) :
    UsesSession w w1 := by
  unfold run_reader at h
  cases h_rl : read_loop M timeout show_responses interactive (fp.content.length + 1) fp w with
  | none => rw [h_rl] at h; simp at h
  | some res =>
    obtain ⟨exit, fp1, w2⟩ := res
    rw [h_rl] at h
    have h_u := read_loop_uses_session M timeout show_responses interactive _ fp w exit fp1 w2
      h_rl
    cases exit with
    | failed =>
      simp only [Option.some.injEq, Prod.mk.injEq] at h
      rw [← h.2]
      exact h_u
    | drained =>
      simp only at h
      split_ifs at h
      · simp only [Option.some.injEq, Prod.mk.injEq] at h
        rw [← h.2]
        obtain ⟨ext, hx, hx1⟩ := h_u
        exact ⟨ext, hx, hx1⟩
      · simp only [Option.some.injEq, Prod.mk.injEq] at h
        rw [← h.2]
        exact h_u

/-- The part of the run between the open and the label `error` adds only uses
of the session, and none when the open failed. -/
theorem run_body_uses_session (M : CodeMacros) (stdin : FILE)
    (fopen : List Char → Option FILE) (timeout : Nat) (command file_name : List Char)
    (show_responses : Bool) (w : World) (close_file : Bool) (code : Int) (w1 : World)
    (h : run_body M stdin fopen timeout command file_name show_responses w
      = some (close_file, code, w1)) :
    UsesSession w w1 ∧ (w.open_err ≠ NDM_TELNET_ERR_OK → w1.calls = w.calls) := by
  unfold run_body at h
  split_ifs at h with h_open h_cmd h_file
  · simp only [Option.some.injEq, Prod.mk.injEq] at h
    rw [← h.2.2]
    exact ⟨⟨[], by simp, rfl⟩, fun _ => rfl⟩
  · refine ⟨?_, fun hh => absurd hh h_open⟩
    cases h_ex : __ndm_telnet_execute M command timeout show_responses w with
    | none => rw [h_ex] at h; simp at h
    | some res =>
      obtain ⟨e, w3⟩ := res
      rw [h_ex] at h
      have h_u := execute_uses_session M _ timeout show_responses w e w3 h_ex
      simp only at h
      split_ifs at h
      · simp only [Option.some.injEq, Prod.mk.injEq] at h
        rw [← h.2.2]
        exact h_u
      · simp only [Option.some.injEq, Prod.mk.injEq] at h
        rw [← h.2.2]
        exact h_u
  · refine ⟨?_, fun hh => absurd hh h_open⟩
    cases h_rr : run_reader M timeout show_responses true file_name stdin
        { w with out := w.out
            ++ "Connected in an interactive mode, type a command.\n\n".toList } with
    | none => rw [h_rr] at h; simp at h
    | some res =>
      obtain ⟨c0, w3⟩ := res
      rw [h_rr] at h
      simp only [Option.map_some', Option.some.injEq, Prod.mk.injEq] at h
      rw [← h.2.2]
      obtain ⟨ext, hx, hx1⟩ := run_reader_uses_session M timeout show_responses true file_name
        stdin { w with out := w.out
            ++ "Connected in an interactive mode, type a command.\n\n".toList } _ _ h_rr
      exact ⟨ext, hx, hx1⟩
  · refine ⟨?_, fun hh => absurd hh h_open⟩
    cases h_fo : fopen file_name with
    | none =>
      rw [h_fo] at h
      simp only [Option.some.injEq, Prod.mk.injEq] at h
      rw [← h.2.2]
      exact ⟨[], by simp, rfl⟩
    | some fp =>
      rw [h_fo] at h
      simp only at h
      cases h_rr : run_reader M timeout show_responses false file_name fp w with
      | none => rw [h_rr] at h; simp at h
      | some res =>
        obtain ⟨c0, w3⟩ := res
        rw [h_rr] at h
        simp only [Option.map_some', Option.some.injEq, Prod.mk.injEq] at h
        rw [← h.2.2]
        exact run_reader_uses_session M timeout show_responses false file_name fp _ _ _ h_rr

/-- C17: the life of the session in `__ndm_telnet_run`.  In every run that
returns, whatever the session, the command source and the errors, the calls
that the run adds are: first the call of `ndm_telnet_open`; then the sends,
receives and document releases of the Execute calls, none at all when the open
failed; then at most the closing of the script file; and last one call of
`ndm_telnet_close`.  So the session is opened before any Execute call and
closed exactly once, after the last Execute call, on every exit path. -/
theorem session_lifecycle (M : CodeMacros) (stdin : FILE) (fopen : List Char → Option FILE)
    (sin : sockaddr_in) (user password : List Char) (timeout : Nat)
    (command file_name : List Char) (show_responses : Bool) (w : World)
    (code : Int) (w1 : World)
    (h : __ndm_telnet_run M stdin fopen sin user password timeout command file_name
      show_responses w = some (code, w1)) :
    ∃ mid tail,
      w1.calls = w.calls
          ++ Call.sess_open user password timeout w.open_err
            :: (mid ++ tail ++ [Call.sess_close])
        ∧ mid.all is_session_use = true
        ∧ (tail = [] ∨ tail = [Call.file_close])
        ∧ (w.open_err ≠ NDM_TELNET_ERR_OK → mid = []) := by
  unfold __ndm_telnet_run at h
  cases h_b : run_body M stdin fopen timeout command file_name show_responses
      (run_prologue sin user password timeout w) with
  | none => rw [h_b] at h; simp at h
  | some res =>
    obtain ⟨close_file, c0, w2⟩ := res
    rw [h_b] at h
    simp only [Option.some.injEq, Prod.mk.injEq] at h
    obtain ⟨⟨mid, h_mid, h_mid1⟩, h_closed⟩ :=
      run_body_uses_session M stdin fopen timeout command file_name show_responses _
        close_file c0 w2 h_b
    have h_pro : (run_prologue sin user password timeout w).calls
        = w.calls ++ [Call.sess_open user password timeout w.open_err] := rfl
    have h_err : (run_prologue sin user password timeout w).open_err = w.open_err := rfl
    rw [h_pro] at h_mid h_closed
    rw [h_err] at h_closed
    have h_epi : (run_epilogue show_responses (ndm_telnet_now w).1 close_file c0 w2).2.calls
        = w2.calls ++ (if close_file then [Call.file_close] else []) ++ [Call.sess_close] := by
      cases close_file <;> simp [run_epilogue, ndm_telnet_now]
    rw [h] at h_epi
    refine ⟨mid, if close_file then [Call.file_close] else [], ?_, h_mid1, ?_, ?_⟩
    · rw [h_epi, h_mid]
      simp
    · cases close_file
      · exact Or.inl rfl
      · exact Or.inr rfl
    · intro h_bad
      have := h_closed h_bad
      rw [h_mid] at this
      exact List.append_right_eq_self.mp this

/-- C17, instance: the run of the sample script whose first receive fails.  The
calls are the open, one send, one receive, the closing of the file and the
closing of the session. -/
theorem session_lifecycle_witness :
    (∃ mid tail,
      (world_of (sampleRun sampleBroken)).calls = sampleBroken.calls
          ++ Call.sess_open "admin".toList [] 500 sampleBroken.open_err
            :: (mid ++ tail ++ [Call.sess_close])
        ∧ mid.all is_session_use = true
        ∧ (tail = [] ∨ tail = [Call.file_close])
        ∧ (sampleBroken.open_err ≠ NDM_TELNET_ERR_OK → mid = []))
      ∧ (world_of (sampleRun sampleBroken)).calls
        = [Call.sess_open "admin".toList [] 500 0, Call.send "show a".toList 493 0,
            Call.recv 486 7, Call.file_close, Call.sess_close] :=
  ⟨session_lifecycle sampleMacros sampleStdin sampleFopen sampleSin "admin".toList [] 500 []
      "script".toList false sampleBroken 1 (world_of (sampleRun sampleBroken)) rfl,
    by decide⟩

/-! ## The reader of the command source -/

/-- The bytes that `fgets` takes from a stream that starts with a line which
fits the buffer. -/
theorem read_line_of_line (n : Nat) (l rest : List Char)
    (h_nl : l.all (fun c => c != '\n') = true) (h_len : l.length < n) :
    read_line n (l ++ '\n' :: rest) = (l ++ ['\n'], rest, false) := by
  induction l generalizing n with
  | nil =>
    cases n with
    | zero => simp at h_len
    | succ n => simp [read_line]
  | cons c l ih =>
    cases n with
    | zero => simp at h_len
    | succ n =>
      simp only [List.all_cons, Bool.and_eq_true, bne_iff_ne, ne_eq] at h_nl
      simp only [List.length_cons, Nat.add_lt_add_iff_right] at h_len
      have h_ih := ih n h_nl.2 h_len
      show read_line (n + 1) (c :: (l ++ '\n' :: rest)) = _
      simp only [read_line, h_nl.1, if_false, h_ih, List.cons_append]

/-- The bytes that `fgets` takes from a stream whose first `n` bytes hold no
line break: these `n` bytes, and the end of the stream is not met. -/
theorem read_line_full (n : Nat) (l : List Char) (h_len : n ≤ l.length)
    (h_nl : (l.take n).all (fun c => c != '\n') = true) :
    read_line n l = (l.take n, l.drop n, false) := by
  induction n generalizing l with
  | zero => simp [read_line]
  | succ n ih =>
    cases l with
    | nil => simp at h_len
    | cons c l =>
      simp only [List.take_succ_cons, List.all_cons, Bool.and_eq_true, bne_iff_ne, ne_eq]
        at h_nl
      simp only [List.length_cons, Nat.add_le_add_iff_right] at h_len
      simp only [read_line, h_nl.1, if_false, ih l h_len h_nl.2, List.take_succ_cons,
        List.drop_succ_cons]

theorem line_ok_cases (l : List Char) (h : line_ok l = true) :
    l.all (fun c => c != '\n') = true ∧ l.all (fun c => c != Char.ofNat 0) = true
      ∧ l.length < 4095 := by
  unfold line_ok at h
  simp only [Bool.and_eq_true, decide_eq_true_eq] at h
  refine ⟨?_, ?_, by omega⟩
  · rw [List.all_eq_true] at h ⊢
    intro x hx
    have := h.1 x hx
    simp only [Bool.and_eq_true] at this
    exact this.1
  · rw [List.all_eq_true] at h ⊢
    intro x hx
    have := h.1 x hx
    simp only [Bool.and_eq_true] at this
    exact this.2

/-- The call of `fgets` on a stream that starts with a line which fits the
buffer returns the line with its line break. -/
theorem fgets_of_line (fp : FILE) (l rest : List Char) (h_ok : line_ok l = true)
    (h_content : fp.content = l ++ '\n' :: rest) :
    fgets NDM_TELNET_COMMAND_MAX fp = (some (l ++ ['\n']), { fp with content := rest }) := by
  obtain ⟨h_nl, _, h_len⟩ := line_ok_cases l h_ok
  unfold fgets
  have h1 : NDM_TELNET_COMMAND_MAX - 1 = 4095 := rfl
  simp only [h1, h_content, read_line_of_line 4095 l rest h_nl h_len, Bool.false_eq_true,
    if_false]

theorem is_blank_of_line (l : List Char) (h_nul : l.all (fun c => c != Char.ofNat 0) = true) :
    is_blank (l ++ ['\n']) = l.all isspace := by
  induction l with
  | nil => decide
  | cons c l ih =>
    simp only [List.all_cons, Bool.and_eq_true, bne_iff_ne, ne_eq] at h_nul
    cases h_s : isspace c with
    | true =>
      have h1 : is_blank (c :: l ++ ['\n']) = is_blank (l ++ ['\n']) := by
        unfold is_blank
        rw [List.cons_append, List.dropWhile_cons_of_pos h_s]
      rw [h1, ih h_nul.2, List.all_cons, h_s, Bool.true_and]
    | false =>
      unfold is_blank
      rw [List.cons_append, List.dropWhile_cons_of_neg (by simp [h_s]), List.all_cons, h_s,
        Bool.false_and]
      simpa using h_nul.1

theorem c_string_of_line (l : List Char) (h_nul : l.all (fun c => c != Char.ofNat 0) = true) :
    c_string (l ++ ['\n']) = l ++ ['\n'] := by
  unfold c_string
  rw [List.takeWhile_eq_self_iff]
  intro x hx
  rw [List.mem_append, List.mem_singleton] at hx
  rcases hx with hx | hx
  · exact (List.all_eq_true.mp h_nul) x hx
  · rw [hx]; decide

/-- The reader loop on a blank line: the line is skipped. -/
theorem read_loop_blank_line (M : CodeMacros) (timeout : Nat)
    (show_responses interactive : Bool) (fuel : Nat) (fp : FILE) (w : World)
    (l rest : List Char) (h_ok : line_ok l = true) (h_blank : l.all isspace = true)
    (h_content : fp.content = l ++ '\n' :: rest) :
    read_loop M timeout show_responses interactive (fuel + 1) fp w
      = read_loop M timeout show_responses interactive fuel { fp with content := rest } w := by
  rw [read_loop, fgets_of_line fp l rest h_ok h_content]
  simp only [is_blank_of_line l (line_ok_cases l h_ok).2.1, h_blank, if_true]

/-- The reader loop on a line that is not blank: the content of the line is
executed as a command. -/
theorem read_loop_command_line (M : CodeMacros) (timeout : Nat)
    (show_responses interactive : Bool) (fuel : Nat) (fp : FILE) (w : World)
    (l rest : List Char) (h_ok : line_ok l = true) (h_blank : l.all isspace = false)
    (h_content : fp.content = l ++ '\n' :: rest) :
    read_loop M timeout show_responses interactive (fuel + 1) fp w
      = match __ndm_telnet_execute M l timeout show_responses w with
        | none => none
        | some (err, w1) =>
          if err ≠ NDM_TELNET_ERR_OK then
            some (LoopExit.failed, { fp with content := rest }, w1)
          else
            read_loop M timeout show_responses interactive fuel { fp with content := rest }
              (if interactive then { w1 with out := w1.out ++ "\n".toList } else w1) := by
  have h_nul := (line_ok_cases l h_ok).2.1
  have h_c := c_string_of_line l h_nul
  rw [read_loop_step M timeout show_responses interactive fuel fp { fp with content := rest } w
    (l ++ ['\n']) (fgets_of_line fp l rest h_ok h_content)
    (by rw [is_blank_of_line l h_nul, h_blank])
    (by rw [h_c]; simp), h_c]
  simp

/-- The reader loop on a file made of lines that fit the buffer. -/
theorem read_loop_lines (M : CodeMacros) (timeout : Nat) (show_responses interactive : Bool) :
    ∀ (lines : List (List Char)) (fuel : Nat) (fp : FILE) (w : World) (exit : LoopExit)
      (fp1 : FILE) (w1 : World),
      lines.all line_ok = true → fp.content = file_of_lines lines → lines.length < fuel →
      read_loop M timeout show_responses interactive fuel fp w = some (exit, fp1, w1) →
      ∃ cmds, sent_commands w1.calls = sent_commands w.calls ++ cmds
        ∧ cmds <+: commands_of_lines lines
        ∧ (exit = LoopExit.drained → cmds = commands_of_lines lines)
        ∧ (exit = LoopExit.failed → all_ok w1.calls = false) := by
  intro lines
  induction lines with
  | nil =>
    intro fuel fp w exit fp1 w1 _ h_content h_fuel h
    cases fuel with
    | zero => simp at h_fuel
    | succ fuel =>
      have h_g : (fgets NDM_TELNET_COMMAND_MAX fp).1 = none := by
        unfold fgets
        have h1 : NDM_TELNET_COMMAND_MAX - 1 = 4095 := rfl
        have h2 : fp.content = [] := h_content
        simp only [h1, h2, read_line, if_true, List.isEmpty_nil]
        split_ifs <;> rfl
      rw [read_loop] at h
      cases h_f : fgets NDM_TELNET_COMMAND_MAX fp with
      | mk chunk fp2 =>
        rw [h_f] at h h_g
        simp only at h_g
        subst h_g
        simp only [Option.some.injEq, Prod.mk.injEq] at h
        obtain ⟨h_exit, _, h_w⟩ := h
        subst h_w
        refine ⟨[], by simp, List.nil_prefix, fun _ => rfl, ?_⟩
        intro hh
        rw [← h_exit] at hh
        exact LoopExit.noConfusion hh
  | cons l ls ih =>
    intro fuel fp w exit fp1 w1 h_all h_content h_fuel h
    cases fuel with
    | zero => simp at h_fuel
    | succ fuel =>
      simp only [List.all_cons, Bool.and_eq_true] at h_all
      simp only [List.length_cons, Nat.add_lt_add_iff_right] at h_fuel
      have h_c : fp.content = l ++ '\n' :: file_of_lines ls := by
        rw [h_content]
        simp [file_of_lines]
      cases h_blank : l.all isspace with
      | true =>
        rw [read_loop_blank_line M timeout show_responses interactive fuel fp w l _ h_all.1
          h_blank h_c] at h
        obtain ⟨cmds, h1, h2, h3, h4⟩ := ih fuel _ w exit fp1 w1 h_all.2 rfl h_fuel h
        have h_f : commands_of_lines (l :: ls) = commands_of_lines ls := by
          unfold commands_of_lines
          rw [List.filter_cons_of_neg (by simp [h_blank])]
        rw [h_f]
        exact ⟨cmds, h1, h2, h3, h4⟩
      | false =>
        rw [read_loop_command_line M timeout show_responses interactive fuel fp w l _ h_all.1
          h_blank h_c] at h
        have h_f : commands_of_lines (l :: ls) = l :: commands_of_lines ls := by
          unfold commands_of_lines
          rw [List.filter_cons_of_pos (by simp [h_blank])]
        rw [h_f]
        cases h_ex : __ndm_telnet_execute M l timeout show_responses w with
        | none => rw [h_ex] at h; simp at h
        | some res =>
          obtain ⟨e, w2⟩ := res
          rw [h_ex] at h
          obtain ⟨s, sends, consumed, rest, ext, _, _, _, _, h_calls, _, h_sent, _, _, _,
            h_bad⟩ := execute_inv M l timeout show_responses w e w2 h_ex
          have h_s2 : sent_commands w2.calls = sent_commands w.calls ++ [l] := by
            rw [h_calls, sent_commands_append, h_sent]
          by_cases h_e : e = NDM_TELNET_ERR_OK
          · simp only [h_e, ne_eq, not_true_eq_false, if_false] at h
            obtain ⟨cmds, h1, h2, h3, h4⟩ := ih fuel _ _ exit fp1 w1 h_all.2 rfl h_fuel h
            refine ⟨l :: cmds, ?_, ?_, ?_, h4⟩
            · rw [h1]
              have : sent_commands
                  (if interactive = true then { w2 with out := w2.out ++ "\n".toList }
                    else w2).calls = sent_commands w2.calls := by
                cases interactive <;> rfl
              rw [this, h_s2]
              simp
            · exact (List.prefix_cons_inj l).mpr h2
            · intro hh
              rw [h3 hh]
          · simp only [ne_eq, h_e, not_false_eq_true, if_true, Option.some.injEq,
              Prod.mk.injEq] at h
            obtain ⟨h_exit, _, h_w⟩ := h
            subst h_w
            refine ⟨[l], h_s2, ?_, ?_, ?_⟩
            · exact (List.prefix_cons_inj l).mpr List.nil_prefix
            · intro hh
              rw [← h_exit] at hh
              exact LoopExit.noConfusion hh
            · intro _
              obtain ⟨ext0, c, hx, _, hc⟩ := h_bad h_e
              rw [h_calls, hx, ← List.append_assoc, all_ok_append]
              simp [all_ok, hc]

/-- The call of `fgets` on a stream whose next 4095 bytes hold no line break
fills the buffer with them and does not meet the end of the stream. -/
theorem fgets_cut (fp : FILE) (h_len : 4095 ≤ fp.content.length)
    (h_nl : (fp.content.take 4095).all (fun c => c != '\n') = true) :
    fgets NDM_TELNET_COMMAND_MAX fp
      = (some (fp.content.take 4095), { fp with content := fp.content.drop 4095 }) := by
  unfold fgets
  have h1 : NDM_TELNET_COMMAND_MAX - 1 = 4095 := rfl
  simp only [h1, read_line_full 4095 fp.content h_len h_nl, Bool.false_eq_true, if_false]

theorem c_string_last_of_no_newline (cmd : List Char)
    (h_nl : cmd.all (fun c => c != '\n') = true) :
    ((c_string cmd).getLast? != some '\n') = true := by
  rw [bne_iff_ne]
  intro h
  have h1 : '\n' ∈ c_string cmd := List.mem_of_getLast?_eq_some h
  have h2 : '\n' ∈ cmd := (List.takeWhile_sublist _).subset h1
  have h3 := (List.all_eq_true.mp h_nl) '\n' h2
  simp at h3

/-- The reader loop on a line that does not fit the buffer: the run reports a
truncated command and the loop is left by `goto error`, with no call made. -/
theorem read_loop_cut (M : CodeMacros) (timeout : Nat) (show_responses interactive : Bool)
    (fuel : Nat) (fp : FILE) (w : World) (h_eof : fp.eof = false)
    (h_len : 4095 ≤ fp.content.length)
    (h_nl : (fp.content.take 4095).all (fun c => c != '\n') = true)
    (h_blank : is_blank (fp.content.take 4095) = false) :
    read_loop M timeout show_responses interactive (fuel + 1) fp w
      = some (LoopExit.failed, { fp with content := fp.content.drop 4095 },
          { w with err_out := w.err_out
              ++ [Diag.truncated (c_string (fp.content.take 4095))] }) := by
  rw [read_loop, fgets_cut fp h_len h_nl]
  simp only [h_blank, Bool.false_eq_true, if_false, c_string_last_of_no_newline _ h_nl, h_eof,
    Bool.not_false, Bool.and_self, if_true]

theorem sampleLongLine_facts :
    (sampleLongLine ++ ['\n']).take 4095 = sampleLongLine
      ∧ sampleLongLine.all (fun c => c != '\n') = true
      ∧ is_blank sampleLongLine = false
      ∧ (sampleLongLine ++ ['\n']).length = 4096 := by
  refine ⟨?_, ?_, ?_, ?_⟩
  · have h : sampleLongLine.length = 4095 := List.length_replicate 4095 _
    rw [List.take_append_of_le_length (by rw [h]), List.take_of_length_le (by rw [h])]
  · rw [List.all_eq_true]
    intro x hx
    rw [List.eq_of_mem_replicate hx]
    decide
  · have h : sampleLongLine = 'a' :: List.replicate 4094 'a' := rfl
    rw [h]
    unfold is_blank
    rw [List.dropWhile_cons_of_neg (by decide)]
    decide
  · rw [List.length_append, show sampleLongLine.length = 4095 from List.length_replicate 4095 _]
    rfl

theorem file_of_lines_length (lines : List (List Char)) :
    lines.length ≤ (file_of_lines lines).length := by
  induction lines with
  | nil => simp
  | cons l ls ih =>
    simp only [file_of_lines, List.flatMap_cons, List.length_append, List.length_cons,
      List.length_nil] at ih ⊢
    omega

/-- C12, counterexample: a line of 4095 letters followed by its line break is a
newline-terminated line that is not blank, and it yields no Execute call: the
loop is left with the report of a truncated command.  So does the line made of
a letter, a NUL byte, a letter and a line break. -/
theorem long_line_yields_no_command :
    is_blank (sampleLongLine ++ ['\n']) = false
      ∧ (read_loop sampleMacros 500 false false
            ((fresh_file (sampleLongLine ++ ['\n'])).content.length + 1)
            (fresh_file (sampleLongLine ++ ['\n']))
            (sampleWorld [NDM_TELNET_ERR_OK] [sampleEnvelope false 0 sampleDoc])).map
          (fun res => (res.1, sent_commands res.2.2.calls)) = some (LoopExit.failed, [])
      ∧ (read_loop sampleMacros 500 false false 5
            (fresh_file ['a', Char.ofNat 0, 'b', '\n'])
            (sampleWorld [NDM_TELNET_ERR_OK] [sampleEnvelope false 0 sampleDoc])).map
          (fun res => (res.1, sent_commands res.2.2.calls)) = some (LoopExit.failed, []) := by
  obtain ⟨h_take, h_nl, h_blank, h_len⟩ := sampleLongLine_facts
  refine ⟨?_, ?_, by decide⟩
  · have h : sampleLongLine ++ ['\n'] = 'a' :: (List.replicate 4094 'a' ++ ['\n']) := rfl
    rw [h]
    unfold is_blank
    rw [List.dropWhile_cons_of_neg (by decide)]
    decide
  · have h_c : (fresh_file (sampleLongLine ++ ['\n'])).content = sampleLongLine ++ ['\n'] := rfl
    rw [read_loop_cut sampleMacros 500 false false _ (fresh_file (sampleLongLine ++ ['\n'])) _
      rfl (by rw [h_c, h_len]; decide) (by rw [h_c, h_take]; exact h_nl)
      (by rw [h_c, h_take]; exact h_blank)]
    rfl

/-- C12, as amended: blank-line skipping in the reader of `__ndm_telnet_run`.
For every input made of newline-terminated lines, each of which fits the line
buffer with its line break (at most 4094 bytes before the line break) and
holds no NUL byte, the commands passed to Execute, one call each, are the lines
that are not blank, in input order: all of them when the loop reads the input
to its end, and the first ones when the loop is left before; the loop is left
before the end only after a send or a receive that returned an error, so a
blank line yields no command and raises no error. -/
theorem blank_lines_skipped (M : CodeMacros) (timeout : Nat)
    (show_responses interactive : Bool) (lines : List (List Char)) (fp : FILE) (w : World)
    (exit : LoopExit) (fp1 : FILE) (w1 : World)
    (h_lines : lines.all line_ok = true) (h_content : fp.content = file_of_lines lines)
    (h : read_loop M timeout show_responses interactive (fp.content.length + 1) fp w
      = some (exit, fp1, w1)) :
    ∃ cmds, sent_commands w1.calls = sent_commands w.calls ++ cmds
      ∧ cmds <+: commands_of_lines lines
      ∧ (exit = LoopExit.drained → cmds = commands_of_lines lines)
      ∧ (exit = LoopExit.failed → all_ok w1.calls = false) :=
  read_loop_lines M timeout show_responses interactive lines _ fp w exit fp1 w1 h_lines
    h_content (by rw [h_content]; exact Nat.lt_succ_of_le (file_of_lines_length lines)) h

/-- C12, instance: the input of an empty line, a line of two spaces and the
line `show system` yields exactly one command, `show system`. -/
theorem blank_lines_skipped_witness :
    (∃ cmds,
        sent_commands (world_of (sampleRunOf "\n  \nshow system\n".toList)).calls
          = sent_commands (sampleWorld [NDM_TELNET_ERR_OK]
              [sampleEnvelope false 0 sampleDoc]).calls ++ cmds
        ∧ cmds <+: commands_of_lines [[], "  ".toList, "show system".toList]
        ∧ (LoopExit.drained = LoopExit.drained →
            cmds = commands_of_lines [[], "  ".toList, "show system".toList])
        ∧ (LoopExit.drained = LoopExit.failed →
            all_ok (world_of (sampleRunOf "\n  \nshow system\n".toList)).calls = false))
      ∧ commands_of_lines [[], "  ".toList, "show system".toList] = ["show system".toList]
      ∧ sent_commands (world_of (sampleRunOf "\n  \nshow system\n".toList)).calls
        = ["show system".toList] :=
  ⟨blank_lines_skipped sampleMacros 500 false false [[], "  ".toList, "show system".toList]
      (fresh_file "\n  \nshow system\n".toList)
      (sampleWorld [NDM_TELNET_ERR_OK] [sampleEnvelope false 0 sampleDoc]) LoopExit.drained
      { fresh_file [] with eof := true }
      (world_of (sampleRunOf "\n  \nshow system\n".toList)) (by decide) (by decide) rfl,
    by decide, by decide⟩

/-- A chunk taken by `fgets` that does not end with a line break holds no line
break at all. -/
theorem read_line_no_newline (n : Nat) (l : List Char)
    (h : (read_line n l).1.getLast? ≠ some '\n') :
    (read_line n l).1.all (fun c => c != '\n') = true := by
  induction n generalizing l with
  | zero => simp [read_line]
  | succ n ih =>
    cases l with
    | nil => simp [read_line]
    | cons c rest =>
      by_cases h_c : c = '\n'
      · simp [read_line, h_c] at h
      · simp only [read_line, h_c, if_false] at h ⊢
        rw [List.all_cons]
        have h1 : (c != '\n') = true := by simpa using h_c
        rw [h1, Bool.true_and]
        apply ih rest
        intro h2
        apply h
        cases h3 : (read_line n rest).1 with
        | nil => rw [h3] at h2; simp at h2
        | cons x xs =>
          rw [h3] at h2
          rw [List.getLast?_cons_cons]
          exact h2

theorem fgets_no_newline (size : Nat) (fp fp2 : FILE) (cmd : List Char)
    (h : fgets size fp = (some cmd, fp2)) (h_last : cmd.getLast? ≠ some '\n') :
    cmd.all (fun c => c != '\n') = true := by
  unfold fgets at h
  simp only at h
  split_ifs at h
  all_goals
    simp only [Prod.mk.injEq, Option.some.injEq, reduceCtorEq, false_and] at h
  all_goals
    rw [← h.1] at h_last ⊢
    exact read_line_no_newline _ _ h_last

/-- The end-of-file indicator after a call of `fgets` that returned a chunk: it
is set when it was set before or when the call tried to read past the last
byte of the stream. -/
theorem fgets_eof (size : Nat) (fp fp2 : FILE) (cmd : List Char)
    (h : fgets size fp = (some cmd, fp2)) :
    fp2.eof = true ↔ (fp.eof = true ∨ (read_line (size - 1) fp.content).2.2 = true) := by
  unfold fgets at h
  simp only at h
  split_ifs at h with h1 h2 h3
  all_goals
    simp only [Prod.mk.injEq, Option.some.injEq, reduceCtorEq, false_and] at h
  · rw [← h.2]
    simp [h1]
  · rw [← h.2]
    simp [h1]

/-- A stream that holds fewer bytes than the buffer takes, none of them a line
break: `fgets` takes them all and meets the end of the stream. -/
theorem read_line_short (n : Nat) (l : List Char) (h_len : l.length < n)
    (h_nl : l.all (fun c => c != '\n') = true) :
    read_line n l = (l, [], true) := by
  induction n generalizing l with
  | zero => simp at h_len
  | succ n ih =>
    cases l with
    | nil => rfl
    | cons c l =>
      simp only [List.all_cons, Bool.and_eq_true, bne_iff_ne, ne_eq] at h_nl
      simp only [List.length_cons, Nat.add_lt_add_iff_right] at h_len
      simp only [read_line, h_nl.1, if_false, ih l h_len h_nl.2]

/-- C14, as amended: in the reader loop of `__ndm_telnet_run`, a chunk that one
call of `fgets` returned, that is not blank and that has no trailing line break
is accepted, and executed as a command, if and only if the end-of-file
indicator of the stream is set after the call, which on a stream not yet at
its end means that the call tried to go past the last byte; this is the case
of a final line of fewer than 4095 bytes without a line break.  Otherwise the
run reports a truncated command, the loop is left at once with no call made
for that chunk or anything after it, and the run returns `EXIT_FAILURE`; this
is the case of a chunk of 4095 bytes that fills the buffer of 4096 bytes,
where `fgets` does not meet the end of the stream, be these bytes the start of
a longer line or the whole of a final line.  A chunk that is blank is skipped
by the blank-line test before this check, and the loop reads on. -/
theorem unterminated_line_needs_eof (M : CodeMacros) (timeout : Nat)
    (show_responses interactive : Bool) (fuel : Nat) (fp fp2 : FILE) (w : World)
    (cmd : List Char)
    (h_g : fgets NDM_TELNET_COMMAND_MAX fp = (some cmd, fp2))
    (h_blank : is_blank cmd = false) (h_last : cmd.getLast? ≠ some '\n') :
    (fp2.eof = true →
        read_loop M timeout show_responses interactive (fuel + 1) fp w
          = match __ndm_telnet_execute M (c_string cmd).dropLast timeout show_responses w with
            | none => none
            | some (err, w1) =>
              if err ≠ NDM_TELNET_ERR_OK then some (LoopExit.failed, fp2, w1)
              else
                read_loop M timeout show_responses interactive fuel fp2
                  (if interactive then { w1 with out := w1.out ++ "\n".toList } else w1))
      ∧ (fp2.eof = false →
          read_loop M timeout show_responses interactive (fuel + 1) fp w
            = some (LoopExit.failed, fp2,
                { w with err_out := w.err_out ++ [Diag.truncated (c_string cmd)] }))
      ∧ (fp2.eof = true
          ↔ (fp.eof = true ∨ (read_line (NDM_TELNET_COMMAND_MAX - 1) fp.content).2.2 = true))
      ∧ (∀ (file_name : List Char) (fpx fpy : FILE) (wx wy : World),
          read_loop M timeout show_responses interactive (fpx.content.length + 1) fpx wx
              = some (LoopExit.failed, fpy, wy) →
          run_reader M timeout show_responses interactive file_name fpx wx
            = some (EXIT_FAILURE, wy))
      ∧ (∀ (fpx : FILE), 4095 ≤ fpx.content.length →
          (fpx.content.take 4095).all (fun c => c != '\n') = true →
          fgets NDM_TELNET_COMMAND_MAX fpx
            = (some (fpx.content.take 4095), { fpx with content := fpx.content.drop 4095 }))
      ∧ (∀ (fpx : FILE), fpx.fails = false → fpx.content ≠ [] →
          fpx.content.length < 4095 →
          fpx.content.all (fun c => c != '\n') = true →
          fgets NDM_TELNET_COMMAND_MAX fpx
            = (some fpx.content, { fpx with content := [], eof := true }))
      ∧ (∀ (fpx fpy : FILE) (cmdx : List Char) (wx : World),
          fgets NDM_TELNET_COMMAND_MAX fpx = (some cmdx, fpy) → is_blank cmdx = true →
          read_loop M timeout show_responses interactive (fuel + 1) fpx wx
            = read_loop M timeout show_responses interactive fuel fpy wx) := by
  have h_nl := fgets_no_newline _ fp fp2 cmd h_g h_last
  have h_c := c_string_last_of_no_newline cmd h_nl
  refine ⟨?_, ?_, fgets_eof _ fp fp2 cmd h_g, ?_, fun fpx h1 h2 => fgets_cut fpx h1 h2, ?_, ?_⟩
  · intro h_eof
    exact read_loop_step M timeout show_responses interactive fuel fp fp2 w cmd h_g h_blank
      (by rw [h_c, h_eof]; rfl)
  · intro h_eof
    rw [read_loop, h_g]
    simp only [h_blank, h_c, h_eof, Bool.false_eq_true, if_false, Bool.not_false,
      Bool.and_self, if_true]
  · intro file_name fpx fpy wx wy h
    unfold run_reader
    rw [h]
  · intro fpx h_f h_ne h_len h_all
    have h1 : NDM_TELNET_COMMAND_MAX - 1 = 4095 := rfl
    have h2 : fpx.content.isEmpty = false := by
      cases h_e : fpx.content with
      | nil => exact absurd h_e h_ne
      | cons c l => rfl
    unfold fgets
    simp only [h1, read_line_short 4095 fpx.content h_len h_all, h_f, h2, if_true,
      Bool.false_eq_true, if_false]
  · intro fpx fpy cmdx wx h_gx h_bx
    rw [read_loop, h_gx]
    simp only [h_bx, if_true]

/-- C14, instance: a last line without line break is read up to the end of the
stream and is accepted; the loop then ends in the regular way. -/
theorem unterminated_line_needs_eof_witness :
    ((fgets NDM_TELNET_COMMAND_MAX (fresh_file "show b".toList)).2.eof = true
        ↔ ((fresh_file "show b".toList).eof = true
            ∨ (read_line (NDM_TELNET_COMMAND_MAX - 1)
                (fresh_file "show b".toList).content).2.2 = true))
      ∧ (fgets NDM_TELNET_COMMAND_MAX (fresh_file "show b".toList)).2.eof = true
      ∧ (sampleRunOf "show b".toList).map Prod.fst = some LoopExit.drained
      ∧ (sent_commands (world_of (sampleRunOf "show b".toList)).calls).length = 1 :=
  have h := unterminated_line_needs_eof sampleMacros 500 false false 6
    (fresh_file "show b".toList) (fgets NDM_TELNET_COMMAND_MAX (fresh_file "show b".toList)).2
    (sampleWorld [NDM_TELNET_ERR_OK] [sampleEnvelope false 0 sampleDoc]) "show b".toList
    (by decide) (by decide) (by decide)
  ⟨h.2.2.1, by decide, by decide, by decide⟩

/-! ## The commands passed to Execute -/

/-- A chunk taken by `fgets` holds no line break before its last byte. -/
theorem read_line_dropLast (n : Nat) (l : List Char) :
    (read_line n l).1.dropLast.all (fun c => c != '\n') = true := by
  induction n generalizing l with
  | zero => simp [read_line]
  | succ n ih =>
    cases l with
    | nil => simp [read_line]
    | cons c rest =>
      by_cases h_c : c = '\n'
      · simp [read_line, h_c]
      · simp only [read_line, h_c, if_false]
        cases h3 : (read_line n rest).1 with
        | nil => simp
        | cons x xs =>
          rw [List.dropLast_cons₂, List.all_cons, ← h3, ih rest]
          simpa using h_c

theorem fgets_dropLast (size : Nat) (fp fp2 : FILE) (cmd : List Char)
    (h : fgets size fp = (some cmd, fp2)) :
    cmd.dropLast.all (fun c => c != '\n') = true := by
  unfold fgets at h
  simp only at h
  split_ifs at h
  all_goals
    simp only [Prod.mk.injEq, Option.some.injEq, reduceCtorEq, false_and] at h
  all_goals
    rw [← h.1]
    exact read_line_dropLast _ _

theorem mem_dropLast_of_prefix (p l : List Char) (h : p <+: l) (x : Char)
    (hx : x ∈ p.dropLast) : x ∈ l.dropLast := by
  obtain ⟨t, ht⟩ := h
  cases t with
  | nil =>
    rw [List.append_nil] at ht
    rw [← ht]
    exact hx
  | cons a t =>
    have h1 : (p ++ a :: t).dropLast = p ++ (a :: t).dropLast :=
      List.dropLast_append_of_ne_nil p (List.cons_ne_nil a t)
    rw [← ht, h1]
    exact List.mem_append_left _ (List.dropLast_subset p hx)

/-- The C string of a chunk of `fgets`, its last byte removed, holds no line
break and no NUL byte and has at most 4094 bytes. -/
theorem command_ok_of_chunk (fp fp2 : FILE) (cmd : List Char)
    (h : fgets NDM_TELNET_COMMAND_MAX fp = (some cmd, fp2)) :
    command_ok (c_string cmd).dropLast = true := by
  unfold command_ok
  rw [Bool.and_eq_true, List.all_eq_true, decide_eq_true_eq]
  constructor
  · intro x hx
    rw [Bool.and_eq_true]
    constructor
    · have h1 := mem_dropLast_of_prefix (c_string cmd) cmd (List.takeWhile_prefix _) x hx
      exact (List.all_eq_true.mp (fgets_dropLast _ fp fp2 cmd h)) x h1
    · have h1 : x ∈ c_string cmd := List.dropLast_subset _ hx
      have h2 : (fun c => c != Char.ofNat 0) x = true :=
        List.mem_takeWhile_imp (p := fun c => c != Char.ofNat 0) (l := cmd) h1
      exact h2
  · rw [List.length_dropLast]
    have h1 : (c_string cmd).length ≤ cmd.length := (List.takeWhile_sublist _).length_le
    have h2 := fgets_length _ fp fp2 cmd h
    have h3 : NDM_TELNET_COMMAND_MAX - 1 = 4095 := rfl
    omega

/-- Every command that the reader loop passes to Execute holds no line break
and no NUL byte and has at most 4094 bytes. -/
theorem read_loop_commands_ok (M : CodeMacros) (timeout : Nat)
    (show_responses interactive : Bool) :
    ∀ (fuel : Nat) (fp : FILE) (w : World) (exit : LoopExit) (fp1 : FILE) (w1 : World),
      read_loop M timeout show_responses interactive fuel fp w = some (exit, fp1, w1) →
      ∃ cmds, sent_commands w1.calls = sent_commands w.calls ++ cmds
        ∧ cmds.all command_ok = true := by
  intro fuel
  induction fuel with
  | zero =>
    intro fp w exit fp1 w1 h
    simp [read_loop] at h
  | succ fuel ih =>
    intro fp w exit fp1 w1 h
    cases h_g : fgets NDM_TELNET_COMMAND_MAX fp with
    | mk chunk fp2 =>
      cases chunk with
      | none =>
        rw [read_loop, h_g] at h
        simp only [Option.some.injEq, Prod.mk.injEq] at h
        rw [← h.2.2]
        exact ⟨[], by simp, rfl⟩
      | some cmd =>
        cases h_blank : is_blank cmd with
        | true =>
          rw [read_loop, h_g] at h
          simp only [h_blank, if_true] at h
          exact ih fp2 w exit fp1 w1 h
        | false =>
          cases h_whole : ((c_string cmd).getLast? != some '\n' && !fp2.eof) with
          | true =>
            rw [read_loop, h_g] at h
            simp only [h_blank, h_whole, Bool.false_eq_true, if_false, if_true,
              Option.some.injEq, Prod.mk.injEq] at h
            rw [← h.2.2]
            exact ⟨[], by simp, rfl⟩
          | false =>
            rw [read_loop_step M timeout show_responses interactive fuel fp fp2 w cmd h_g
              h_blank h_whole] at h
            cases h_ex :
                __ndm_telnet_execute M (c_string cmd).dropLast timeout show_responses w with
            | none => rw [h_ex] at h; simp at h
            | some res =>
              obtain ⟨e, w2⟩ := res
              rw [h_ex] at h
              obtain ⟨s, sends, consumed, rest, ext, _, _, _, _, h_calls, _, h_sent, _, _, _,
                _⟩ := execute_inv M _ timeout show_responses w e w2 h_ex
              have h_s2 : sent_commands w2.calls
                  = sent_commands w.calls ++ [(c_string cmd).dropLast] := by
                rw [h_calls, sent_commands_append, h_sent]
              have h_cmd := command_ok_of_chunk fp fp2 cmd h_g
              by_cases h_e : e = NDM_TELNET_ERR_OK
              · simp only [h_e, ne_eq, not_true_eq_false, if_false] at h
                obtain ⟨cmds, h1, h2⟩ := ih fp2 _ exit fp1 w1 h
                refine ⟨(c_string cmd).dropLast :: cmds, ?_, ?_⟩
                · rw [h1]
                  have : sent_commands
                      (if interactive = true then { w2 with out := w2.out ++ "\n".toList }
                        else w2).calls = sent_commands w2.calls := by
                    cases interactive <;> rfl
                  rw [this, h_s2]
                  simp
                · rw [List.all_cons, h_cmd, h2]; rfl
              · simp only [ne_eq, h_e, not_false_eq_true, if_true, Option.some.injEq,
                  Prod.mk.injEq] at h
                rw [← h.2.2]
                exact ⟨[(c_string cmd).dropLast], h_s2, by rw [List.all_cons, h_cmd]; rfl⟩

/-- C13, counterexample: the line of two spaces, `show`, two spaces and a line
break is passed to Execute with its leading and its trailing spaces. -/
theorem command_not_trimmed :
    sent_commands (world_of (sampleRunOf "  show  \n".toList)).calls = ["  show  ".toList]
      ∧ ("  show  ".toList).head? = some ' ' ∧ ("  show  ".toList).getLast? = some ' '
      ∧ isspace ' ' = true := by
  decide

/-- C13, as amended: every command that the reader loop of `__ndm_telnet_run`
passes to `__ndm_telnet_execute` holds no line break and no NUL byte and has at
most 4094 bytes; and for a line that ends with a line break, is not blank,
fits the line buffer with its line break (at most 4094 bytes before the line
break) and holds no NUL byte, the command is the whole content of the line
before the line break, with its leading and trailing white space, so it is not
empty and holds a character that is not white space.  The white space around
the command is not stripped. -/
theorem commands_are_bounded (M : CodeMacros) (timeout : Nat)
    (show_responses interactive : Bool) (fuel : Nat) (fp : FILE) (w : World)
    (exit : LoopExit) (fp1 : FILE) (w1 : World)
    (h : read_loop M timeout show_responses interactive fuel fp w = some (exit, fp1, w1)) :
    (∃ cmds, sent_commands w1.calls = sent_commands w.calls ++ cmds
        ∧ cmds.all command_ok = true)
      ∧ (∀ (l rest : List Char) (fpx : FILE) (wx : World) (k : Nat),
          line_ok l = true → l.all isspace = false → fpx.content = l ++ '\n' :: rest →
          read_loop M timeout show_responses interactive (k + 1) fpx wx
            = match __ndm_telnet_execute M l timeout show_responses wx with
              | none => none
              | some (err, w2) =>
                if err ≠ NDM_TELNET_ERR_OK then
                  some (LoopExit.failed, { fpx with content := rest }, w2)
                else
                  read_loop M timeout show_responses interactive k
                    { fpx with content := rest }
                    (if interactive then { w2 with out := w2.out ++ "\n".toList } else w2))
      ∧ (∀ (l : List Char), l.all isspace = false → l ≠ [] ∧ l.any (fun c => !isspace c) = true)
      := by
  refine ⟨read_loop_commands_ok M timeout show_responses interactive fuel fp w exit fp1 w1 h,
    ?_, ?_⟩
  · intro l rest fpx wx k h_ok h_blank h_content
    exact read_loop_command_line M timeout show_responses interactive k fpx wx l rest h_ok
      h_blank h_content
  · intro l h_l
    constructor
    · intro h_nil
      rw [h_nil] at h_l
      simp at h_l
    · rw [List.any_eq_true]
      by_contra h_no
      have h_all : l.all isspace = true := by
        rw [List.all_eq_true]
        intro x hx
        by_contra h_x
        exact h_no ⟨x, hx, by simpa using h_x⟩
      rw [h_all] at h_l
      exact absurd h_l (by decide)

/-- C13, instance: the run of the line `show a`. -/
theorem commands_are_bounded_witness :
    (∃ cmds, sent_commands (world_of (sampleRunOf "show a\n".toList)).calls
          = sent_commands (sampleWorld [NDM_TELNET_ERR_OK]
              [sampleEnvelope false 0 sampleDoc]).calls ++ cmds
        ∧ cmds.all command_ok = true)
      ∧ sent_commands (world_of (sampleRunOf "show a\n".toList)).calls = ["show a".toList] :=
  have h := commands_are_bounded sampleMacros 500 false false
    ((fresh_file "show a\n".toList).content.length + 1) (fresh_file "show a\n".toList)
    (sampleWorld [NDM_TELNET_ERR_OK] [sampleEnvelope false 0 sampleDoc]) LoopExit.drained
    { fresh_file [] with eof := true } (world_of (sampleRunOf "show a\n".toList)) rfl
  ⟨h.1, by decide⟩

/-- C18: the code at the failing input.  The script `show system` without a
line break at its end is read up to the end of the stream and is accepted, but
the command passed to `__ndm_telnet_execute` is `show syste`: the last
character of the line is overwritten as if it were the line break.  A line
that ends with a line break is passed in full. -/
theorem unterminated_line_loses_last_byte :
    (sampleRunOf "show system".toList).map Prod.fst = some LoopExit.drained
      ∧ sent_commands (world_of (sampleRunOf "show system".toList)).calls
        = ["show syste".toList]
      ∧ sent_commands (world_of (sampleRunOf "show system\n".toList)).calls
        = ["show system".toList] := by
  decide

/-! ## The fuel of the reader loop -/

theorem read_line_consumes (n : Nat) (c : Char) (l : List Char) :
    (read_line (n + 1) (c :: l)).2.1.length < (c :: l).length := by
  induction n generalizing c l with
  | zero =>
    simp only [read_line]
    split_ifs <;> simp [read_line]
  | succ n ih =>
    simp only [read_line]
    split_ifs
    · simp
    · cases l with
      | nil => simp [read_line]
      | cons d l =>
        have := ih d l
        simp only [List.length_cons] at this ⊢
        omega

/-- A call of `fgets` that returns a chunk takes at least one byte from the
stream. -/
theorem fgets_consumes (fp fp2 : FILE) (cmd : List Char)
    (h : fgets NDM_TELNET_COMMAND_MAX fp = (some cmd, fp2)) :
    fp2.content.length < fp.content.length := by
  have h1 : NDM_TELNET_COMMAND_MAX - 1 = 4094 + 1 := rfl
  cases h_c : fp.content with
  | nil =>
    unfold fgets at h
    simp only [h1, h_c, read_line, if_true, List.isEmpty_nil] at h
    split_ifs at h <;> simp at h
  | cons c l =>
    have h2 := read_line_consumes 4094 c l
    unfold fgets at h
    simp only [h1, h_c] at h
    split_ifs at h
    all_goals
      simp only [Prod.mk.injEq, Option.some.injEq, reduceCtorEq, false_and] at h
    · rw [← h.2]
      simp
    · rw [← h.2]
      exact h2

/-- The fuel that `run_reader` gives to the reader loop is enough: with more
fuel than bytes in the stream, one more unit of fuel does not change the
result, so the loop never stops for lack of fuel. -/
theorem read_loop_fuel_enough (M : CodeMacros) (timeout : Nat)
    (show_responses interactive : Bool) :
    ∀ (fuel : Nat) (fp : FILE) (w : World), fp.content.length < fuel →
      read_loop M timeout show_responses interactive (fuel + 1) fp w
        = read_loop M timeout show_responses interactive fuel fp w := by
  intro fuel
  induction fuel with
  | zero =>
    intro fp w h
    simp at h
  | succ fuel ih =>
    intro fp w h
    rw [read_loop, read_loop]
    cases h_g : fgets NDM_TELNET_COMMAND_MAX fp with
    | mk chunk fp2 =>
      cases chunk with
      | none => rfl
      | some cmd =>
        have h_lt : fp2.content.length < fuel := by
          have := fgets_consumes fp fp2 cmd h_g
          omega
        cases h_blank : is_blank cmd with
        | true =>
          simp only [h_blank, if_true]
          exact ih fp2 w h_lt
        | false =>
          cases h_whole : ((c_string cmd).getLast? != some '\n' && !fp2.eof) with
          | true => simp only [h_blank, h_whole, Bool.false_eq_true, if_false, if_true]
          | false =>
            simp only [h_blank, h_whole, Bool.false_eq_true, if_false]
            cases h_ex :
                __ndm_telnet_execute M (c_string cmd).dropLast timeout show_responses w with
            | none => rfl
            | some res =>
              obtain ⟨e, w2⟩ := res
              by_cases h_e : e = NDM_TELNET_ERR_OK
              · simp only [h_e, ne_eq, not_true_eq_false, if_false]
                exact ih fp2 _ h_lt
              · simp only [ne_eq, h_e, not_false_eq_true, if_true]

/-! ## Lines of 4095 bytes and more -/

/-- More fuel than the bytes of the stream plus one changes nothing. -/
theorem read_loop_fuel_more (M : CodeMacros) (timeout : Nat)
    (show_responses interactive : Bool) (fuel : Nat) (fp : FILE) (w : World)
    (h : fp.content.length < fuel) :
    ∀ (k : Nat), read_loop M timeout show_responses interactive (fuel + k) fp w
      = read_loop M timeout show_responses interactive fuel fp w := by
  intro k
  induction k with
  | zero => rfl
  | succ k ih =>
    rw [← Nat.add_assoc,
      read_loop_fuel_enough M timeout show_responses interactive (fuel + k) fp w (by omega)]
    exact ih

theorem sampleSpaces_facts (rest : List Char) :
    (sampleSpaces ++ rest).take 4095 = sampleSpaces
      ∧ (sampleSpaces ++ rest).drop 4095 = rest
      ∧ sampleSpaces.all (fun c => c != '\n') = true
      ∧ is_blank sampleSpaces = true
      ∧ (sampleSpaces ++ rest).length = 4095 + rest.length := by
  have h : sampleSpaces.length = 4095 := List.length_replicate 4095 _
  refine ⟨List.take_left' h, List.drop_left' h, ?_, ?_, ?_⟩
  · rw [List.all_eq_true]
    intro x hx
    rw [List.eq_of_mem_replicate hx]
    decide
  · have hd : sampleSpaces.dropWhile isspace = [] := by
      rw [List.dropWhile_eq_nil_iff]
      intro x hx
      rw [List.eq_of_mem_replicate hx]
      decide
    unfold is_blank
    rw [hd]
  · rw [List.length_append, h]

/-- The reader loop on a line that starts with 4095 spaces: the first chunk is
skipped as a blank line and the loop goes on with the rest of the line. -/
theorem read_loop_spaces (M : CodeMacros) (timeout : Nat) (show_responses interactive : Bool)
    (fuel : Nat) (rest : List Char) (w : World) :
    read_loop M timeout show_responses interactive (fuel + 1)
        (fresh_file (sampleSpaces ++ rest)) w
      = read_loop M timeout show_responses interactive fuel (fresh_file rest) w := by
  obtain ⟨h_take, h_drop, h_nl, h_blank, h_len⟩ := sampleSpaces_facts rest
  have h_c : (fresh_file (sampleSpaces ++ rest)).content = sampleSpaces ++ rest := rfl
  rw [read_loop, fgets_cut (fresh_file (sampleSpaces ++ rest)) (by rw [h_c, h_len]; omega)
    (by rw [h_c, h_take]; exact h_nl)]
  simp only [h_c, h_take, h_drop, h_blank, if_true]
  rfl

/-- C14, counterexample: two inputs on which the reader loop of
`__ndm_telnet_run` departs from the claim.  A file that is one line of 4095
letters without a line break: the line is not blank, it is the final line and
the call of `fgets` takes every byte of the stream, yet the end-of-file
indicator is not set, the line is not executed and the loop is left with the
report of a truncated command.  A file that is one line of 4095 spaces, the
letters `abc` and a line break: the line is not blank and is cut, as it does
not fit the buffer, yet no truncated command is reported; the first 4095 bytes
are skipped as a blank line, the rest of the line, `abc`, is executed as a
command, and the loop ends in the regular way. -/
theorem lines_of_4095_bytes :
    is_blank sampleLongLine = false
      ∧ (fgets NDM_TELNET_COMMAND_MAX (fresh_file sampleLongLine)).1 = some sampleLongLine
      ∧ (fgets NDM_TELNET_COMMAND_MAX (fresh_file sampleLongLine)).2.content = []
      ∧ (fgets NDM_TELNET_COMMAND_MAX (fresh_file sampleLongLine)).2.eof = false
      ∧ (sampleRunOf sampleLongLine).map
            (fun res => (res.1, sent_commands res.2.calls, res.2.err_out))
          = some (LoopExit.failed, [], [Diag.truncated (c_string sampleLongLine)])
      ∧ (sampleSpaces ++ "abc".toList).all isspace = false
      ∧ 4095 < (sampleSpaces ++ "abc".toList).length
      ∧ (sampleRunOf (sampleSpaces ++ "abc\n".toList)).map
            (fun res => (res.1, sent_commands res.2.calls, res.2.err_out))
          = some (LoopExit.drained, ["abc".toList], []) := by
  obtain ⟨_, h_nl, h_blank, _⟩ := sampleLongLine_facts
  have h_len : sampleLongLine.length = 4095 := List.length_replicate 4095 _
  have h_c : (fresh_file sampleLongLine).content = sampleLongLine := rfl
  have h_take : sampleLongLine.take 4095 = sampleLongLine :=
    List.take_of_length_le (by rw [h_len])
  have h_drop : sampleLongLine.drop 4095 = [] := List.drop_of_length_le (by rw [h_len])
  have h_g := fgets_cut (fresh_file sampleLongLine) (by rw [h_c, h_len])
    (by rw [h_c, h_take]; exact h_nl)
  rw [h_c, h_take, h_drop] at h_g
  refine ⟨h_blank, by rw [h_g], by rw [h_g], by rw [h_g]; rfl, ?_, ?_, ?_, ?_⟩
  · unfold sampleRunOf
    rw [read_loop_cut sampleMacros 500 false false _ (fresh_file sampleLongLine) _ rfl
      (by rw [h_c, h_len]) (by rw [h_c, h_take]; exact h_nl)
      (by rw [h_c, h_take]; exact h_blank), h_c, h_take]
    rfl
  · rw [List.all_append, Bool.and_eq_false_iff]
    exact Or.inr (by decide)
  · rw [(sampleSpaces_facts "abc".toList).2.2.2.2]
    decide
  · unfold sampleRunOf
    have h_f : (fresh_file (sampleSpaces ++ "abc\n".toList)).content.length = 5 + 4094 := by
      show (sampleSpaces ++ "abc\n".toList).length = _
      rw [(sampleSpaces_facts "abc\n".toList).2.2.2.2]
      rfl
    rw [read_loop_spaces, h_f,
      read_loop_fuel_more sampleMacros 500 false false 5 (fresh_file "abc\n".toList) _
        (by decide) 4094]
    decide


end NdmTelnetc
